import Mathlib

/-! ## goprime: the filter compiler, embedded in Lean

A shallow embedding of the Go packages `placeholder`, `filter`, `filters`, `column` and
`prime` of `github.com/AdamShannag/goprime`, followed by theorems about `prime.Filter.Sql`.

Conventions of the embedding.

* A Go value of type `any` is a `Value`; the nil interface is `Value.null` and a `[]any`
  is `Value.seq`.
* A Go `error` is an `Option String`: `none` is the nil error, `some msg` an error whose
  `Error()` text is `msg`.
* A Go `map[string][]filter.Spec` is the list of its entries in the order in which
  `range` visits them.
* A Go interface value (`placeholder.Placeholder`, `filter.Filter`, `column.Validator`) is
  the record of its methods, taken as total functions.
* Where Go code can panic by calling a method of a nil `filter.Filter`, the embedded
  function returns an `Option` and `none` stands for the panic.
* A Go `int` is an `Int`; the sums formed on slot indices (`currentIndex + 1`,
  `lastIndex++`, `len(vals) + 1`) are taken without overflow, as they are when the indices
  are lengths of slices.

Three parts of the program are embedded a second time, closer to the Go runtime, and tied
to the embedding above where the two agree.

* Namespace `prime.runtime`: `Apply` of `BetweenFilter` and of `InFilter` on the 64-bit
  `int` (sums wrap around, `make` does not return for a length it cannot allocate), and the
  registry with its map as Go holds it (the nil map, on which `RegisterFilter` panics).
* Namespace `prime.panics`: filters whose methods may panic.
* Namespace `prime.shared`: `Sql` on a memory that holds the backing arrays of the `[]any`
  values, which `EnrichValue` can change through the value it is handed.
-/

namespace goprime

/-- A Go value held in an `any`: the nil interface, a few scalar types, a `[]any`, and any
other dynamic type (kept uninterpreted). -/
inductive Value where
  | null : Value
  | bool (b : Bool) : Value
  | int (n : Int) : Value
  | str (s : String) : Value
  | seq (xs : List Value) : Value
  | other (code : Nat) : Value

/-- The test `v == nil` on an `any`. -/
def Value.isNil : Value → Bool
  | Value.null => true
  | _ => false

/-- What `enrichAndExtract` appends to `values` for one value: the elements of a `[]any`,
or the value itself. -/
def Value.spliced : Value → List Value
  | Value.seq xs => xs
  | v => [v]

/-- How many bound values one value contributes: a sequence its length, any other value
one. -/
def Value.boundCount : Value → Nat
  | Value.seq xs => xs.length
  | _ => 1

namespace placeholder

/-- The interface `Placeholder`: `Get(int) string` and `Numbered() bool`. -/
structure Placeholder where
  Get : Int → String
  Numbered : Bool

/-- The type `UnNumbered string`: `Get` returns the configured token. -/
def UnNumbered (d : String) : Placeholder :=
  { Get := fun _ => d, Numbered := false }

/-- The type `Numbered string`: `Get(n)` is `fmt.Sprintf("%s%d", np, n)`. -/
def Numbered (np : String) : Placeholder :=
  { Get := fun n => np ++ toString n, Numbered := true }

end placeholder

namespace filter

/-- The type `MatchMode string`. -/
abbrev MatchMode := String

/-- The interface `Filter`. `EnrichValue` receives the value behind the pointer and returns
the value left behind it together with the error; a Filter that also writes the backing
array of a `[]any` it is handed is embedded in `prime.shared`. -/
structure Filter where
  Apply : String → Int → Int → placeholder.Placeholder → String
  EnrichValue : Value → Value × Option String

/-- The struct `Condition`. -/
structure Condition where
  Column : String
  Filter : filter.Filter
  Operator : String

/-- The struct `Spec`. -/
structure Spec where
  Value : goprime.Value
  MatchMode : filter.MatchMode
  Operator : String

end filter

namespace filters

/-- `ValueFilter.Apply` and `ValueFilter.EnrichValue`. -/
def ValueFilter (f : String) : filter.Filter :=
  { Apply := fun column _ currentIndex placeholder =>
      "(" ++ column ++ " " ++ f ++ " " ++ placeholder.Get currentIndex ++ ")"
    EnrichValue := fun value => (value, none) }

/-- `MutatedValueFilter`, with a non-nil `MutationFunc`. -/
def MutatedValueFilter (Operation : String) (MutationFunc : Value → Value) : filter.Filter :=
  { Apply := fun column _ currentIndex placeholder =>
      "(" ++ column ++ " " ++ Operation ++ " " ++ placeholder.Get currentIndex ++ ")"
    EnrichValue := fun value => (MutationFunc value, none) }

/-- `BetweenFilter`, with the sum `currentIndex + 1` taken without overflow; the method on
the 64-bit `int` is `prime.runtime.BetweenFilter.Apply`. -/
def BetweenFilter : filter.Filter :=
  { Apply := fun column _ currentIndex placeholder =>
      "(" ++ column ++ " BETWEEN " ++ placeholder.Get currentIndex ++ " AND " ++
        placeholder.Get (currentIndex + 1) ++ ")"
    EnrichValue := fun value => (value, none) }

/-- `InFilter`. The loop fills `placeholders[i]` with `Get(currentIndex + i)` for
`i < totalArguments`, the sums taken without overflow and `make` taken to return (`Sql`
passes the length of a slice); the method on the 64-bit `int`, with the outcome of `make`, is
`prime.runtime.InFilter.Apply`. -/
def InFilter : filter.Filter :=
  { Apply := fun column totalArguments currentIndex placeholder =>
      "(" ++ column ++ " IN (" ++
        ",".intercalate ((List.range totalArguments.toNat).map
          (fun (i : Nat) => placeholder.Get (currentIndex + (i : Int)))) ++ "))"
    EnrichValue := fun value => (value, none) }

/-- The format constant `PRE`. -/
def PRE : String := "%%%s"

/-- The format constant `POST`. -/
def POST : String := "%s%%"

/-- The format constant `AROUND`. -/
def AROUND : String := "%%%s%%"

/-- `fmt.Sprintf(format, str)` with the single string operand `str`, on the characters of
`format`, for formats made of literal text, `%%` and `%s`: `used` records that the operand
has been consumed, a further `%s` prints `%!s(MISSING)` and an operand never consumed is
reported at the end. Other verbs and flags are not modelled. -/
def sprintfChars (str : String) : List Char → Bool → List Char
  | '%' :: '%' :: rest, used => '%' :: sprintfChars str rest used
  | '%' :: 's' :: rest, false => str.data ++ sprintfChars str rest true
  | '%' :: 's' :: rest, true => "%!s(MISSING)".data ++ sprintfChars str rest true
  | c :: rest, used => c :: sprintfChars str rest used
  | [], true => []
  | [], false => "%!(EXTRA string=".data ++ str.data ++ [')']

/-- `fmt.Sprintf(format, str)` for one string operand. -/
def Sprintf (format str : String) : String :=
  String.mk (sprintfChars str format.data false)

/-- `PatternMatchFilter` (as built by `NewPatternMatchFilter`). -/
def PatternMatchFilter (Operation Format : String) : filter.Filter :=
  { Apply := fun column _ currentIndex placeholder =>
      "(" ++ column ++ " " ++ Operation ++ " " ++ placeholder.Get currentIndex ++ ")"
    EnrichValue := fun value =>
      match value with
      | Value.str str => (Value.str (Sprintf Format str), none)
      | v => (v, none) }

/-- `NewPatternMatchFilter`. -/
def NewPatternMatchFilter (operation format : String) : filter.Filter :=
  PatternMatchFilter operation format

/-- `DateAfterFilter`. -/
def DateAfterFilter : filter.Filter :=
  { Apply := fun column _ currentIndex placeholder =>
      "(" ++ column ++ " > " ++ placeholder.Get currentIndex ++ ")"
    EnrichValue := fun value => (value, none) }

/-- `DateBeforeFilter`. -/
def DateBeforeFilter : filter.Filter :=
  { Apply := fun column _ currentIndex placeholder =>
      "(" ++ column ++ " < " ++ placeholder.Get currentIndex ++ ")"
    EnrichValue := fun value => (value, none) }

/-- `DateIsFilter`. -/
def DateIsFilter : filter.Filter :=
  { Apply := fun column _ currentIndex placeholder =>
      "(" ++ column ++ " = " ++ placeholder.Get currentIndex ++ ")"
    EnrichValue := fun value => (value, none) }

/-- `DateIsNotFilter`. -/
def DateIsNotFilter : filter.Filter :=
  { Apply := fun column _ currentIndex placeholder =>
      "(" ++ column ++ " <> " ++ placeholder.Get currentIndex ++ ")"
    EnrichValue := fun value => (value, none) }

end filters

namespace column

/-- The interface `Validator`: `Validate(string) error` and `Name() string`. -/
structure Validator where
  Validate : String → Option String
  Name : String

/-- The type `Validators []Validator`. -/
abbrev Validators := List Validator

/-- `Validators.Iter`: the pairs `(v.Name(), v.Validate(column))` handed to `yield`, in
registration order. -/
def Validators.Iter (c : Validators) (column : String) : List (String × Option String) :=
  c.map (fun v => (v.Name, v.Validate column))

/-- The type `AllowedValidator []string` with its methods `Validate` and `Name`;
`slices.Contains` is `List.contains`. -/
def AllowedValidator (d : List String) : Validator :=
  { Validate := fun column =>
      if d.contains column then none else some ("column [" ++ column ++ "] is not allowed")
    Name := "AllowedValidator" }

/-- The type `RegexValidator` with its methods, for a non-nil receiver; the method
`MatchString` of the compiled pattern (package `regexp`) is a parameter. -/
def RegexValidator (MatchString : String → Bool) : Validator :=
  { Validate := fun column =>
      if MatchString column then none else some ("column " ++ column ++ " does not match regex")
    Name := "RegexValidator" }

end column

namespace prime

/-- The type `Specs map[string][]filter.Spec`, as the list of its entries in the order in
which `range` visits them. -/
abbrev Specs := List (String × List filter.Spec)

/-- `Specs.iter`: the pairs handed to `yield`, in order. -/
def Specs.iter (s : Specs) : List (String × filter.Spec) :=
  s.flatMap (fun kv => kv.2.map (fun f => (kv.1, f)))

/-- The struct `Filter`: the registry. The map `filters` is its lookup function (`none`: key
absent), which is all that `Sql` and `ValidateColumns` read of it; a key bound to a nil
`filter.Filter` is embedded in `prime.panics` and the nil map in `prime.runtime.Registry`. -/
structure Filter where
  filters : filter.MatchMode → Option filter.Filter
  placeholder : goprime.placeholder.Placeholder
  columnValidators : column.Validators

/-- `New`. -/
def New (placeholder : goprime.placeholder.Placeholder) : Filter :=
  { placeholder := placeholder, filters := fun _ => none, columnValidators := [] }

/-- `NewWithFilters`. -/
def NewWithFilters (placeholder : goprime.placeholder.Placeholder)
    (filters : filter.MatchMode → Option filter.Filter) : Filter :=
  { placeholder := placeholder, filters := filters, columnValidators := [] }

/-- `NewWithFiltersAndValidators`. -/
def NewWithFiltersAndValidators (placeholder : goprime.placeholder.Placeholder)
    (filters : filter.MatchMode → Option filter.Filter) (validators : column.Validators) :
    Filter :=
  { placeholder := placeholder, filters := filters, columnValidators := validators }

/-- `RegisterFilter`: `f.filters[matchMode] = filter`, on a registry whose map is not nil;
`prime.runtime.Registry.RegisterFilter` is the method on every registry. -/
def Filter.RegisterFilter (f : Filter) (matchMode : filter.MatchMode) (flt : filter.Filter) :
    Filter :=
  { f with filters := fun m => if m = matchMode then some flt else f.filters m }

/-- `RegisterColumnValidator`. -/
def Filter.RegisterColumnValidator (f : Filter) (validator : column.Validator) : Filter :=
  { f with columnValidators := f.columnValidators ++ [validator] }

/-- The inner loop of `ValidateColumns`, over the pairs of `columnValidators.Iter(col)`: the
error it returns with, or `none` when it runs to the end. -/
def Filter.ValidateColumnLoop : List (String × Option String) → Option String
  | [] => none
  | (validator, some err) :: _ => some (validator ++ ": " ++ err)
  | (_, none) :: rest => Filter.ValidateColumnLoop rest

/-- The outer loop of `ValidateColumns`, over the pairs of `specs.iter()`. -/
def Filter.ValidateColumnsLoop (f : Filter) : List (String × filter.Spec) → Option String
  | [] => none
  | (col, _) :: rest =>
    match Filter.ValidateColumnLoop (f.columnValidators.Iter col) with
    | some err => some err
    | none => f.ValidateColumnsLoop rest

/-- `ValidateColumns`. A nil `columnValidators` and an empty one are both `[]`: the first
`return nil` of the source is taken on `[]`, on which the loops return the nil error too. -/
def Filter.ValidateColumns (f : Filter) (specs : Specs) : Option String :=
  match f.columnValidators with
  | [] => none
  | _ :: _ => f.ValidateColumnsLoop specs.iter

/-- The struct `valuesConditionComposite`. -/
structure valuesConditionComposite where
  values : List Value
  conditions : List filter.Condition

/-- The loop of `enrichAndExtract`, started with the current `values` and `conditions`.
The result is the triple `(values, conditions, err)`; `none` is the panic of calling
`EnrichValue` on the nil `Filter` that an absent match mode looks up. -/
def Filter.enrichAndExtractLoop (f : Filter) (col : String) :
    List filter.Spec → List Value → List filter.Condition →
      Option (List Value × List filter.Condition × Option String)
  | [], values, conditions => some (values, conditions, none)
  | spec :: rest, values, conditions =>
    if spec.Value.isNil then
      f.enrichAndExtractLoop col rest values conditions
    else
      match f.filters spec.MatchMode with
      | none => none
      | some flt =>
        let condition : filter.Condition :=
          { Column := col, Filter := flt, Operator := spec.Operator }
        match flt.EnrichValue spec.Value with
        | (_, some err) => some (values, conditions ++ [condition], some err)
        | (value, none) =>
          f.enrichAndExtractLoop col rest (values ++ value.spliced) (conditions ++ [condition])

/-- `enrichAndExtract`. -/
def Filter.enrichAndExtract (f : Filter) (col : String) (specs : List filter.Spec) :
    Option (List Value × List filter.Condition × Option String) :=
  f.enrichAndExtractLoop col specs [] []

/-- `conditionsIter`: the sequence of pairs handed to `yield`, one entry per column that is
not skipped, each computed only when the consumer reaches it; an entry `none` is a column on
which `enrichAndExtract` panics. -/
def Filter.conditionsIter (f : Filter) (ps : Specs) :
    List (Option (valuesConditionComposite × Option String)) :=
  ps.filterMap (fun kv =>
    match f.enrichAndExtract kv.1 kv.2 with
    | none => some none
    | some (vals, condition, err) =>
      if kv.2.length = 0 ∨ condition.length = 0 then none
      else some (some ({ values := vals, conditions := condition }, err)))

/-- `sqlIter`: the pairs `(Operator, fragment)` handed to `yield`. -/
def Filter.sqlIter (f : Filter) (totalVals : Int) :
    Int → List filter.Condition → List (String × String)
  | _, [] => []
  | lastIndex, condition :: rest =>
    (condition.Operator,
      condition.Filter.Apply condition.Column totalVals lastIndex f.placeholder) ::
      f.sqlIter totalVals (if f.placeholder.Numbered then lastIndex + 1 else lastIndex) rest

/-- The loop of `buildSqlCondition` over the pairs of `sqlIter`: `n` is `len(conditions)`,
`i` the counter and `sb` the text written so far. -/
def Filter.buildSqlConditionLoop (n : Nat) : List (String × String) → Nat → String → String
  | [], _, sb => sb
  | (opr, c) :: rest, i, sb =>
    Filter.buildSqlConditionLoop n rest (i + 1)
      (if (i : Int) < (n : Int) - 1 then sb ++ c ++ " " ++ opr ++ " " else sb ++ c)

/-- `buildSqlCondition`. -/
def Filter.buildSqlCondition (f : Filter) (totalValsInSpec valIndex : Int)
    (conditions : List filter.Condition) : String :=
  Filter.buildSqlConditionLoop conditions.length
    (f.sqlIter totalValsInSpec valIndex conditions) 0 "(" ++ ")"

/-- The first loop of `Sql`, over the pairs of `specs.iter()`: the error it returns with, or
`none` when it runs to the end. -/
def Filter.SqlCheck (f : Filter) : List (String × filter.Spec) → Option String
  | [] => none
  | (_, s) :: rest =>
    match f.filters s.MatchMode with
    | none => some ("match mode not registered [" ++ s.MatchMode ++ "]")
    | some _ => f.SqlCheck rest

/-- The second loop of `Sql`, over the entries of `conditionsIter`, started with the current
`vals` and `conditions`; the result is what `Sql` returns, `(vals, condition, err)`. -/
def Filter.SqlLoop (f : Filter) :
    List (Option (valuesConditionComposite × Option String)) → List Value → List String →
      Option (List Value × String × Option String)
  | [], vals, conditions => some (vals, " and ".intercalate conditions, none)
  | none :: _, _, _ => none
  | some (_, some iterErr) :: _, vals, _ => some (vals, "", some iterErr)
  | some (vc, none) :: rest, vals, conditions =>
    f.SqlLoop rest (vals ++ vc.values)
      (conditions ++ [f.buildSqlCondition vc.values.length (vals.length + 1) vc.conditions])

/-- `Sql`: `(vals, condition, err)`, or `none` for a panic. The list `specs` is the order in
which the map is visited. Go may visit the map in another order in the second loop than in
the first; as the first loop only decides whether `Sql` stops, and with which message, every
run of the Go function is `Sql` at the order of the loop in which it returns. -/
def Filter.Sql (f : Filter) (specs : Specs) : Option (List Value × String × Option String) :=
  match f.SqlCheck specs.iter with
  | some err => some ([], "", some err)
  | none => f.SqlLoop (f.conditionsIter specs) [] []


/-- The Specs of one column that `enrichAndExtract` does not skip: those whose Value is not
nil, in order. -/
def nonNilSpecs (specs : List filter.Spec) : List filter.Spec :=
  specs.filter (fun s => !s.Value.isNil)

/-- Every match mode occurring in `specs` has a registered Filter. -/
def Filter.AllRegistered (f : Filter) (specs : Specs) : Prop :=
  ∀ ks ∈ specs.iter, (f.filters ks.2.MatchMode).isSome = true

/-- The error that `EnrichValue` of the Filter registered for the Spec returns on the
Spec's value (`none` also when no Filter is registered). -/
def Filter.enrichError (f : Filter) (s : filter.Spec) : Option String :=
  match f.filters s.MatchMode with
  | some flt => (flt.EnrichValue s.Value).2
  | none => none

/-- The value that `EnrichValue` of the Filter registered for the Spec leaves behind. -/
def Filter.enriched (f : Filter) (s : filter.Spec) : Value :=
  match f.filters s.MatchMode with
  | some flt => (flt.EnrichValue s.Value).1
  | none => s.Value

/-- The first enrichment error among the non-nil Specs of one column, in Spec order. -/
def Filter.columnError (f : Filter) (specs : List filter.Spec) : Option String :=
  (nonNilSpecs specs).findSome? f.enrichError

/-- The first enrichment error over all columns, in iteration order. -/
def Filter.firstError (f : Filter) (specs : Specs) : Option String :=
  specs.findSome? (fun kv => f.columnError kv.2)

/-- Values of one column as the specification words them: each non-nil Spec's enriched
value, a sequence spliced element by element, any other value as one element. -/
def Filter.columnValues (f : Filter) (specs : List filter.Spec) : List Value :=
  (nonNilSpecs specs).flatMap (fun s => (f.enriched s).spliced)

/-- Values of a whole Specs as the specification words them: the column values
concatenated in iteration order. -/
def Filter.expectedValues (f : Filter) (specs : Specs) : List Value :=
  specs.flatMap (fun kv => f.columnValues kv.2)

/-- The Conditions of one column: one per non-nil Spec with a registered Filter. -/
def Filter.columnConditions (f : Filter) (col : String) (specs : List filter.Spec) :
    List filter.Condition :=
  (nonNilSpecs specs).filterMap (fun s =>
    (f.filters s.MatchMode).map (fun flt =>
      ({ Column := col, Filter := flt, Operator := s.Operator } : filter.Condition)))

/-- The group of one column when `n` values have been bound by the columns before it. -/
def Filter.columnGroup (f : Filter) (col : String) (specs : List filter.Spec) (n : Nat) :
    String :=
  f.buildSqlCondition (f.columnValues specs).length ((n : Int) + 1)
    (f.columnConditions col specs)

/-- The groups of the columns that have a non-nil Spec, in iteration order, when `n` values
have been bound before the first column. -/
def Filter.groupsFrom (f : Filter) : Specs → Nat → List String
  | [], _ => []
  | kv :: rest, n =>
    if (nonNilSpecs kv.2).isEmpty then f.groupsFrom rest n
    else f.columnGroup kv.1 kv.2 n :: f.groupsFrom rest (n + (f.columnValues kv.2).length)

/-- Fragments joined as the specification words it: the operator of a fragment is written,
between blanks, before the next fragment, and nothing follows the last fragment. -/
def joinWithOperators : List (String × String) → String
  | [] => ""
  | [(_, c)] => c
  | (opr, c) :: rest => c ++ " " ++ opr ++ " " ++ joinWithOperators rest

/-- The values `Sql` has bound when it stops at the first enrichment error: those of the
columns visited before the failing one. -/
def Filter.valuesBeforeError (f : Filter) (specs : Specs) : List Value :=
  f.expectedValues (specs.takeWhile (fun kv => (f.columnError kv.2).isNone))

/-- The fragment of one Spec: the output of `Apply` of the Filter registered for its match
mode (the empty text when none is registered). -/
def Filter.fragment (f : Filter) (col : String) (totalArguments currentIndex : Int)
    (s : filter.Spec) : String :=
  match f.filters s.MatchMode with
  | some flt => flt.Apply col totalArguments currentIndex f.placeholder
  | none => ""

/-- The `currentIndex` that the Condition at position `i` (from 0) of a column receives when
`n` values have been bound by the columns before it. -/
def Filter.slotIndex (f : Filter) (n i : Nat) : Int :=
  if f.placeholder.Numbered then (n : Int) + 1 + (i : Int) else (n : Int) + 1

/-- The pairs (Operator, fragment) of the non-nil Specs of one column, in Spec order, when
`n` values have been bound by the columns before it. -/
def Filter.columnFragments (f : Filter) (col : String) (specs : List filter.Spec) (n : Nat) :
    List (String × String) :=
  (nonNilSpecs specs).enum.map (fun p =>
    (p.2.Operator, f.fragment col (f.columnValues specs).length (f.slotIndex n p.1) p.2))

/-- The Specs without the columns whose Specs all have a nil Value. -/
def dropNilColumns (specs : Specs) : Specs :=
  specs.filter (fun kv => !(kv.2.all (fun s => s.Value.isNil)))

/-! ## Placeholder tokens of a condition

To speak of the placeholder tokens of a rendered text, the text is described by its pieces:
literal text, and slots, one per call of `Placeholder.Get`, each recording the index passed
to the call. Rendering the pieces with a placeholder gives the text. -/

/-- A piece of a rendered text: literal text, or the result of one call `Get(i)`. -/
inductive Piece where
  | text (s : String) : Piece
  | slot (i : Int) : Piece

/-- The text of one piece under a placeholder. -/
def Piece.render (ph : placeholder.Placeholder) : Piece → String
  | Piece.text s => s
  | Piece.slot i => ph.Get i

/-- The text of a list of pieces under a placeholder. -/
def renderPieces (ph : placeholder.Placeholder) : List Piece → String
  | [] => ""
  | p :: ps => p.render ph ++ renderPieces ph ps

/-- The indices of the `Get` calls of a list of pieces, left to right. -/
def slotsOf : List Piece → List Int
  | [] => []
  | Piece.text _ :: ps => slotsOf ps
  | Piece.slot i :: ps => i :: slotsOf ps

/-- The filters of package `filters`. -/
inductive Builtin where
  | value (f : String) : Builtin
  | mutated (Operation : String) (MutationFunc : Value → Value) : Builtin
  | between : Builtin
  | inSet : Builtin
  | pattern (Operation Format : String) : Builtin
  | dateAfter : Builtin
  | dateBefore : Builtin
  | dateIs : Builtin
  | dateIsNot : Builtin

/-- The `filter.Filter` of a built-in filter. -/
def Builtin.toFilter : Builtin → filter.Filter
  | Builtin.value f => filters.ValueFilter f
  | Builtin.mutated Operation MutationFunc => filters.MutatedValueFilter Operation MutationFunc
  | Builtin.between => filters.BetweenFilter
  | Builtin.inSet => filters.InFilter
  | Builtin.pattern Operation Format => filters.PatternMatchFilter Operation Format
  | Builtin.dateAfter => filters.DateAfterFilter
  | Builtin.dateBefore => filters.DateBeforeFilter
  | Builtin.dateIs => filters.DateIsFilter
  | Builtin.dateIsNot => filters.DateIsNotFilter

/-- The indices that `Apply` of a built-in filter passes to `Get`, in the order in which
their results stand in the fragment. -/
def Builtin.slots : Builtin → Int → Int → List Int
  | Builtin.between, _, currentIndex => [currentIndex, currentIndex + 1]
  | Builtin.inSet, totalArguments, currentIndex =>
    (List.range totalArguments.toNat).map (fun (i : Nat) => currentIndex + (i : Int))
  | _, _, currentIndex => [currentIndex]

/-- Slots separated by commas, as `strings.Join(placeholders, ",")` writes them. -/
def commaPieces : List Int → List Piece
  | [] => []
  | [i] => [Piece.slot i]
  | i :: rest => Piece.slot i :: Piece.text "," :: commaPieces rest

/-- The pieces of the fragment that `Apply` of a built-in filter renders. -/
def Builtin.pieces : Builtin → String → Int → Int → List Piece
  | Builtin.value f, column, _, currentIndex =>
    [Piece.text ("(" ++ column ++ " " ++ f ++ " "), Piece.slot currentIndex, Piece.text ")"]
  | Builtin.mutated Operation _, column, _, currentIndex =>
    [Piece.text ("(" ++ column ++ " " ++ Operation ++ " "), Piece.slot currentIndex,
      Piece.text ")"]
  | Builtin.between, column, _, currentIndex =>
    [Piece.text ("(" ++ column ++ " BETWEEN "), Piece.slot currentIndex, Piece.text " AND ",
      Piece.slot (currentIndex + 1), Piece.text ")"]
  | Builtin.inSet, column, totalArguments, currentIndex =>
    Piece.text ("(" ++ column ++ " IN (") ::
      (commaPieces (Builtin.inSet.slots totalArguments currentIndex) ++ [Piece.text "))"])
  | Builtin.pattern Operation _, column, _, currentIndex =>
    [Piece.text ("(" ++ column ++ " " ++ Operation ++ " "), Piece.slot currentIndex,
      Piece.text ")"]
  | Builtin.dateAfter, column, _, currentIndex =>
    [Piece.text ("(" ++ column ++ " > "), Piece.slot currentIndex, Piece.text ")"]
  | Builtin.dateBefore, column, _, currentIndex =>
    [Piece.text ("(" ++ column ++ " < "), Piece.slot currentIndex, Piece.text ")"]
  | Builtin.dateIs, column, _, currentIndex =>
    [Piece.text ("(" ++ column ++ " = "), Piece.slot currentIndex, Piece.text ")"]
  | Builtin.dateIsNot, column, _, currentIndex =>
    [Piece.text ("(" ++ column ++ " <> "), Piece.slot currentIndex, Piece.text ")"]

/-- The registry holds built-in filters only: `reg` names, for every match mode, the
built-in filter registered for it. -/
def Filter.BuiltinOnly (f : Filter) (reg : filter.MatchMode → Option Builtin) : Prop :=
  ∀ m, f.filters m = (reg m).map Builtin.toFilter

/-- The pieces of the fragment of one Spec. -/
def specPieces (reg : filter.MatchMode → Option Builtin) (col : String)
    (totalArguments currentIndex : Int) (s : filter.Spec) : List Piece :=
  match reg s.MatchMode with
  | some b => b.pieces col totalArguments currentIndex
  | none => []

/-- Pieces of fragments joined with their operators, as `joinWithOperators` joins texts. -/
def joinPiecesWithOperators : List (String × List Piece) → List Piece
  | [] => []
  | [(_, c)] => c
  | (opr, c) :: rest => c ++ Piece.text (" " ++ opr ++ " ") :: joinPiecesWithOperators rest

/-- The pieces of the group of one column when `n` values have been bound before it. -/
def Filter.columnPieces (f : Filter) (reg : filter.MatchMode → Option Builtin) (col : String)
    (specs : List filter.Spec) (n : Nat) : List Piece :=
  Piece.text "(" :: (joinPiecesWithOperators ((nonNilSpecs specs).enum.map (fun p =>
    (p.2.Operator,
      specPieces reg col (f.columnValues specs).length (f.slotIndex n p.1) p.2))) ++
    [Piece.text ")"])

/-- The pieces of the groups of the columns that have a non-nil Spec, in iteration order,
when `n` values have been bound before the first column. -/
def Filter.groupPiecesFrom (f : Filter) (reg : filter.MatchMode → Option Builtin) :
    Specs → Nat → List (List Piece)
  | [], _ => []
  | kv :: rest, n =>
    if (nonNilSpecs kv.2).isEmpty then f.groupPiecesFrom reg rest n
    else f.columnPieces reg kv.1 kv.2 n ::
      f.groupPiecesFrom reg rest (n + (f.columnValues kv.2).length)

/-- Groups of pieces joined with " and ", as `strings.Join(conditions, " and ")` joins
texts. -/
def joinGroups : List (List Piece) → List Piece
  | [] => []
  | [g] => g
  | g :: rest => g ++ Piece.text " and " :: joinGroups rest

/-- The pieces of the condition that `Sql` returns for `specs` on success. -/
def Filter.conditionPieces (f : Filter) (reg : filter.MatchMode → Option Builtin)
    (specs : Specs) : List Piece :=
  joinGroups (f.groupPiecesFrom reg specs 0)

/-- The placeholder tokens of the condition that `Sql` returns for `specs`, as the indices
passed to `Get`, left to right. -/
def Filter.placeholderTokens (f : Filter) (reg : filter.MatchMode → Option Builtin)
    (specs : Specs) : List Int :=
  slotsOf (f.conditionPieces reg specs)

/-- A built-in filter whose fragment has exactly one slot. -/
def Builtin.singleSlot : Builtin → Bool
  | Builtin.between => false
  | Builtin.inSet => false
  | _ => true

/-- A column is well shaped when either every non-nil Spec has a single-slot filter and an
enriched value that contributes one bound value, or it has exactly one non-nil Spec, whose
filter is `BetweenFilter` with an enriched value contributing two bound values or is
`InFilter`. -/
def Filter.WellShaped (f : Filter) (reg : filter.MatchMode → Option Builtin)
    (specs : List filter.Spec) : Prop :=
  (∀ s ∈ nonNilSpecs specs,
      ∃ b, reg s.MatchMode = some b ∧ b.singleSlot = true ∧ (f.enriched s).boundCount = 1) ∨
    (∃ s, nonNilSpecs specs = [s] ∧
      ((reg s.MatchMode = some Builtin.between ∧ (f.enriched s).boundCount = 2) ∨
        reg s.MatchMode = some Builtin.inSet))

/-- The registry with placeholder `ph` whose filters are the built-in filters that `reg`
names (as `NewWithFilters` builds it). -/
def builtinRegistry (ph : placeholder.Placeholder) (reg : filter.MatchMode → Option Builtin) :
    Filter :=
  NewWithFilters ph (fun m => (reg m).map Builtin.toFilter)

/-- The decimal numeral of an integer as the specification means it: a minus sign for a
negative number, then the digits of the absolute value in base ten, most significant
first. -/
def decimal (n : Int) : String :=
  (if n < 0 then "-" else "") ++ String.mk (Nat.toDigits 10 n.natAbs)

/-! ## The loop of `enrichAndExtract` on the memory it works on

`EnrichValue` receives a pointer and stores the enriched value behind it. To say which
memory the loop changes, the loop is run on a memory made of the elements of the slice
`specs` and of the loop variable `spec`, with the cell that the pointer names made
explicit. -/

/-- A cell that holds the `Value` of a Spec: the field of element `i` of the slice `specs`,
or the field of the loop variable `spec`. -/
inductive ValueCell where
  | element (i : Nat) : ValueCell
  | loopVariable : ValueCell

/-- The memory of the loop: the elements of the slice `specs` and the loop variable
`spec`. -/
structure LoopMemory where
  specs : List filter.Spec
  spec : filter.Spec

/-- Storing a value in a cell. -/
def LoopMemory.store (m : LoopMemory) : ValueCell → Value → LoopMemory
  | ValueCell.element i, v =>
    match m.specs[i]? with
    | some s => { m with specs := m.specs.set i { s with Value := v } }
    | none => m
  | ValueCell.loopVariable, v => { m with spec := { m.spec with Value := v } }

/-- The loop of `enrichAndExtract` on the memory, with `n` iterations left at index `i`.
Iteration `i` assigns a copy of `specs[i]` to the loop variable `spec`; `EnrichValue` is
called with `&spec.Value`, the cell of the loop variable, and leaves its value there; the
value appended to `values` is read from `spec.Value` afterwards. The result is the memory at
the end and what `enrichAndExtract` returns. -/
def Filter.enrichAndExtractOnMemory (f : Filter) (col : String) :
    Nat → Nat → LoopMemory → List Value → List filter.Condition →
      LoopMemory × Option (List Value × List filter.Condition × Option String)
  | 0, _, m, values, conditions => (m, some (values, conditions, none))
  | n + 1, i, m, values, conditions =>
    match m.specs[i]? with
    | none => (m, some (values, conditions, none))
    | some element =>
      let m1 : LoopMemory := { m with spec := element }
      if m1.spec.Value.isNil then
        f.enrichAndExtractOnMemory col n (i + 1) m1 values conditions
      else
        match f.filters m1.spec.MatchMode with
        | none => (m1, none)
        | some flt =>
          let condition : filter.Condition :=
            { Column := col, Filter := flt, Operator := m1.spec.Operator }
          let m2 := m1.store ValueCell.loopVariable (flt.EnrichValue m1.spec.Value).1
          match (flt.EnrichValue m1.spec.Value).2 with
          | some err => (m2, some (values, conditions ++ [condition], some err))
          | none =>
            f.enrichAndExtractOnMemory col n (i + 1) m2 (values ++ m2.spec.Value.spliced)
              (conditions ++ [condition])

/-! ## `Sql` with filters whose methods may panic

The functions above take the methods of a Filter as total functions. Here the same code is
embedded for Filter values whose methods may panic, as Go has them (a nil func field, a nil
pointer receiver, a nil interface); `none` is a panic throughout. -/

namespace panics

/-- A value of interface type `filter.Filter` with the outcome of its method calls: `none`
is a panic. -/
structure FilterValue where
  Apply : String → Int → Int → placeholder.Placeholder → Option String
  EnrichValue : Value → Option (Value × Option String)

/-- The struct `filter.Condition`, holding such a value. -/
structure Condition where
  Column : String
  Filter : FilterValue
  Operator : String

/-- A Filter whose methods are total, as a `FilterValue`. -/
def ofFilter (flt : filter.Filter) : FilterValue :=
  { Apply := fun column totalArguments currentIndex ph =>
      some (flt.Apply column totalArguments currentIndex ph)
    EnrichValue := fun value => some (flt.EnrichValue value) }

/-- A Condition that holds a Filter whose methods are total. -/
def ofCondition (c : filter.Condition) : Condition :=
  { Column := c.Column, Filter := ofFilter c.Filter, Operator := c.Operator }

/-- The nil `filter.Filter`: every method call panics. -/
def nilFilter : FilterValue :=
  { Apply := fun _ _ _ _ => none, EnrichValue := fun _ => none }

/-- A `*filters.MutatedValueFilter`: the nil pointer (`none`), or a pointer to a struct with
its `Operation` and its `MutationFunc`, which is a nil func (`none`) or a function. `Apply`
reads `m.Operation` and `EnrichValue` calls `m.MutationFunc(value)`. -/
def MutatedValueFilter (m : Option (String × Option (Value → Value))) : FilterValue :=
  { Apply := fun column _ currentIndex ph =>
      match m with
      | none => none
      | some (Operation, _) =>
        some ("(" ++ column ++ " " ++ Operation ++ " " ++ ph.Get currentIndex ++ ")")
    EnrichValue := fun value =>
      match m with
      | none => none
      | some (_, none) => none
      | some (_, some MutationFunc) => some (MutationFunc value, none) }

/-- A `*filters.PatternMatchFilter`: the nil pointer (`none`), or a pointer to a struct with
its `Operation` and `Format`. `EnrichValue` reads `f.Format` only for a string value. -/
def PatternMatchFilter (p : Option (String × String)) : FilterValue :=
  { Apply := fun column _ currentIndex ph =>
      match p with
      | none => none
      | some (Operation, _) =>
        some ("(" ++ column ++ " " ++ Operation ++ " " ++ ph.Get currentIndex ++ ")")
    EnrichValue := fun value =>
      match value with
      | Value.str str =>
        match p with
        | none => none
        | some (_, Format) => some (Value.str (filters.Sprintf Format str), none)
      | v => some (v, none) }

/-- The loop of `enrichAndExtract`. -/
def enrichAndExtractLoop (filters : filter.MatchMode → Option FilterValue) (col : String) :
    List filter.Spec → List Value → List Condition →
      Option (List Value × List Condition × Option String)
  | [], values, conditions => some (values, conditions, none)
  | spec :: rest, values, conditions =>
    if spec.Value.isNil then
      enrichAndExtractLoop filters col rest values conditions
    else
      match filters spec.MatchMode with
      | none => none
      | some flt =>
        let condition : Condition := { Column := col, Filter := flt, Operator := spec.Operator }
        match flt.EnrichValue spec.Value with
        | none => none
        | some (_, some err) => some (values, conditions ++ [condition], some err)
        | some (value, none) =>
          enrichAndExtractLoop filters col rest (values ++ value.spliced)
            (conditions ++ [condition])

/-- `conditionsIter`: one entry per column that is not skipped; an entry `none` is a column
on which `enrichAndExtract` panics. -/
def conditionsIter (filters : filter.MatchMode → Option FilterValue) (ps : Specs) :
    List (Option ((List Value × List Condition) × Option String)) :=
  ps.filterMap (fun kv =>
    match enrichAndExtractLoop filters kv.1 kv.2 [] [] with
    | none => some none
    | some (vals, condition, err) =>
      if kv.2.length = 0 ∨ condition.length = 0 then none
      else some (some ((vals, condition), err)))

/-- `sqlIter`: the pairs handed to `yield`; an entry `none` is a call of `Apply` that
panics. -/
def sqlIter (ph : placeholder.Placeholder) (totalVals : Int) :
    Int → List Condition → List (Option (String × String))
  | _, [] => []
  | lastIndex, condition :: rest =>
    (condition.Filter.Apply condition.Column totalVals lastIndex ph).map
        (fun c => (condition.Operator, c)) ::
      sqlIter ph totalVals (if ph.Numbered then lastIndex + 1 else lastIndex) rest

/-- The loop of `buildSqlCondition`. -/
def buildSqlConditionLoop (n : Nat) : List (Option (String × String)) → Nat → String →
    Option String
  | [], _, sb => some sb
  | none :: _, _, _ => none
  | some (opr, c) :: rest, i, sb =>
    buildSqlConditionLoop n rest (i + 1)
      (if (i : Int) < (n : Int) - 1 then sb ++ c ++ " " ++ opr ++ " " else sb ++ c)

/-- `buildSqlCondition`. -/
def buildSqlCondition (ph : placeholder.Placeholder) (totalValsInSpec valIndex : Int)
    (conditions : List Condition) : Option String :=
  (buildSqlConditionLoop conditions.length
    (sqlIter ph totalValsInSpec valIndex conditions) 0 "(").map (fun sb => sb ++ ")")

/-- The first loop of `Sql`. -/
def SqlCheck (filters : filter.MatchMode → Option FilterValue) :
    List (String × filter.Spec) → Option String
  | [] => none
  | (_, s) :: rest =>
    match filters s.MatchMode with
    | none => some ("match mode not registered [" ++ s.MatchMode ++ "]")
    | some _ => SqlCheck filters rest

/-- The second loop of `Sql`. -/
def SqlLoop (ph : placeholder.Placeholder) :
    List (Option ((List Value × List Condition) × Option String)) → List Value → List String →
      Option (List Value × String × Option String)
  | [], vals, conditions => some (vals, " and ".intercalate conditions, none)
  | none :: _, _, _ => none
  | some (_, some iterErr) :: _, vals, _ => some (vals, "", some iterErr)
  | some (vc, none) :: rest, vals, conditions =>
    match buildSqlCondition ph vc.1.length (vals.length + 1) vc.2 with
    | none => none
    | some group => SqlLoop ph rest (vals ++ vc.1) (conditions ++ [group])

/-- `Sql` of a registry with the map `filters` and the placeholder `ph`: what it returns, or
`none` when it panics. -/
def Sql (filters : filter.MatchMode → Option FilterValue) (ph : placeholder.Placeholder)
    (specs : Specs) : Option (List Value × String × Option String) :=
  match SqlCheck filters specs.iter with
  | some err => some ([], "", some err)
  | none => SqlLoop ph (conditionsIter filters specs) [] []

end panics

/-- Texts joined with commas as the specification words it: a comma, and no blank, between
consecutive texts. -/
def joinCommas : List String → String
  | [] => ""
  | [a] => a
  | a :: rest => a ++ "," ++ joinCommas rest

/-- The operator that a single-slot built-in filter writes between the column and the
placeholder: the string of a `ValueFilter`, the `Operation` of a `MutatedValueFilter` or a
`PatternMatchFilter`, and the fixed sign of a date filter. -/
def Builtin.operator : Builtin → String
  | Builtin.value f => f
  | Builtin.mutated Operation _ => Operation
  | Builtin.pattern Operation _ => Operation
  | Builtin.dateAfter => ">"
  | Builtin.dateBefore => "<"
  | Builtin.dateIs => "="
  | Builtin.dateIsNot => "<>"
  | Builtin.between => "BETWEEN"
  | Builtin.inSet => "IN"


/-- The values that `Sql` returns for one column compiled alone. -/
def Filter.aloneValues (f : Filter) (kv : String × List filter.Spec) : List Value :=
  match f.Sql [kv] with
  | some r => r.1
  | none => []

/-- The condition that `Sql` returns for one column compiled alone, for a column that has a
non-nil Spec; a column without one contributes nothing. -/
def Filter.aloneGroup (f : Filter) (kv : String × List filter.Spec) : Option String :=
  if (nonNilSpecs kv.2).isEmpty then none
  else
    match f.Sql [kv] with
    | some r => some r.2.1
    | none => none

/-- The fragments of the registered filters, under the registry's placeholder, do not depend
on `currentIndex`. -/
def Filter.IndexFree (f : Filter) : Prop :=
  ∀ m flt, f.filters m = some flt → ∀ (col : String) (total i j : Int),
    flt.Apply col total i f.placeholder = flt.Apply col total j f.placeholder

/-- A scalar value: neither nil nor a `[]any`. -/
def isScalar : Value → Bool
  | Value.null => false
  | Value.seq _ => false
  | _ => true

/-- A built-in filter other than `MutatedValueFilter`. -/
def Builtin.nonMutating : Builtin → Bool
  | Builtin.mutated _ _ => false
  | _ => true

/-- A column of well-shaped input, on the Specs as the caller gives them: either every Spec
is non-nil, with a single-slot filter and a scalar value, or there is exactly one non-nil
Spec, which is a `BetweenFilter` with a sequence of two elements or an `InFilter` with a
sequence of at least one element. -/
def ShapedColumn (reg : filter.MatchMode → Option Builtin) (specs : List filter.Spec) : Prop :=
  (∀ s ∈ specs, ∃ b, reg s.MatchMode = some b ∧ b.singleSlot = true ∧
      isScalar s.Value = true) ∨
    (∃ s, nonNilSpecs specs = [s] ∧
      ((reg s.MatchMode = some Builtin.between ∧ ∃ x y, s.Value = Value.seq [x, y]) ∨
        (reg s.MatchMode = some Builtin.inSet ∧
          ∃ xs, s.Value = Value.seq xs ∧ 1 ≤ xs.length)))

/-- The values that each non-nil Spec contributes, one list per Spec, in iteration order. -/
def Filter.specValues (f : Filter) (specs : Specs) : List (List Value) :=
  specs.flatMap (fun kv => (nonNilSpecs kv.2).map (fun s => (f.enriched s).spliced))

/-- The placeholder tokens of the fragment of each non-nil Spec, one list per Spec, in
iteration order, when `n` values have been bound before the first column. -/
def Filter.specTokensFrom (f : Filter) (reg : filter.MatchMode → Option Builtin) :
    Specs → Nat → List (List Int)
  | [], _ => []
  | kv :: rest, n =>
    (nonNilSpecs kv.2).enum.map (fun p =>
      slotsOf (specPieces reg kv.1 (f.columnValues kv.2).length (f.slotIndex n p.1) p.2)) ++
      f.specTokensFrom reg rest (n + (f.columnValues kv.2).length)

/-- The positions, counted from 1, that the values of each block take in the concatenation
of the blocks, when `k` values stand before the first block. -/
def valuePositionsFrom : List (List Value) → Nat → List (List Int)
  | [], _ => []
  | vs :: rest, k =>
    (List.range' (k + 1) vs.length).map Int.ofNat :: valuePositionsFrom rest (k + vs.length)

/-- The number that a decimal digit character stands for. -/
def digitVal (c : Char) : Nat :=
  c.toNat - 48

/-- The number that a list of decimal digits, most significant first, stands for. -/
def numeralValue (cs : List Char) : Nat :=
  cs.foldl (fun a c => 10 * a + digitVal c) 0

/-! ## The Go runtime: the 64-bit `int`, `make`, and the nil map

Through `Sql` the slot indices are lengths of slices and the registry's map is only read.
Called on their own, `Apply` takes any `int` and `RegisterFilter` writes the map. Here these
methods are embedded as the Go runtime executes them: a sum of `int`s wraps around,
`make([]string, n)` does not return for a negative `n` or an `n` that cannot be allocated,
and an assignment to an entry of the nil map panics (`none`). -/

namespace runtime

/-- The largest `int` (`math.MaxInt` on a 64-bit platform). -/
def MaxInt : Int := 9223372036854775807

/-- The smallest `int` (`math.MinInt` on a 64-bit platform). -/
def MinInt : Int := -9223372036854775808

/-- The integers that an `int` can hold. -/
def IsInt (x : Int) : Prop :=
  MinInt ≤ x ∧ x ≤ MaxInt

/-- The `int` that an expression has whose exact value is `x`: `x` wrapped around into
`MinInt .. MaxInt`. -/
def wrapInt (x : Int) : Int :=
  (x - MinInt) % 18446744073709551616 + MinInt

/-- `BetweenFilter.Apply`: the second index is the `int` sum `currentIndex+1`. -/
def BetweenFilter.Apply (column : String) (_ currentIndex : Int)
    (ph : placeholder.Placeholder) : String :=
  "(" ++ column ++ " BETWEEN " ++ ph.Get currentIndex ++ " AND " ++
    ph.Get (wrapInt (currentIndex + 1)) ++ ")"

/-- The loop of `InFilter.Apply` with `n` iterations left: it stores `Get(currentIndex)`
and executes `currentIndex++`. -/
def InFilter.loop (ph : placeholder.Placeholder) : Nat → Int → List String
  | 0, _ => []
  | n + 1, currentIndex =>
    ph.Get currentIndex :: InFilter.loop ph n (wrapInt (currentIndex + 1))

/-- `InFilter.Apply`. `limit` is the largest length for which `make([]string, n)` returns in
the run at hand (on a 64-bit platform `make` panics above 2^44 strings, and below that the
allocation can still fail); `none` stands for a call that does not return. -/
def InFilter.Apply (limit : Nat) (column : String) (totalArguments currentIndex : Int)
    (ph : placeholder.Placeholder) : Option String :=
  if totalArguments < 0 ∨ (limit : Int) < totalArguments then none
  else
    some ("(" ++ column ++ " IN (" ++
      ",".intercalate (InFilter.loop ph totalArguments.toNat currentIndex) ++ "))")

/-- The length above which `make([]string, n)` panics on a 64-bit platform with 48 address
bits: 2^48 bytes of 16-byte strings. -/
def maxStrings : Nat := 17592186044416

/-- The struct `prime.Filter` with the field `filters` as Go holds it: the nil map (`none`)
or a map, given by its lookup function. -/
structure Registry where
  filters : Option (filter.MatchMode → Option filter.Filter)
  placeholder : goprime.placeholder.Placeholder
  columnValidators : column.Validators

/-- Reading `f.filters[m]`: the nil map has no entry. -/
def Registry.lookup (r : Registry) (m : filter.MatchMode) : Option filter.Filter :=
  match r.filters with
  | none => none
  | some entries => entries m

/-- The registry as the functions that only read the map see it. -/
def Registry.toFilter (r : Registry) : Filter :=
  { filters := r.lookup, placeholder := r.placeholder, columnValidators := r.columnValidators }

/-- `New`: the map is `make(map[filter.MatchMode]filter.Filter)`. -/
def New (placeholder : goprime.placeholder.Placeholder) : Registry :=
  { filters := some (fun _ => none), placeholder := placeholder, columnValidators := [] }

/-- `NewWithFilters`: the map is the argument, which may be nil. -/
def NewWithFilters (placeholder : goprime.placeholder.Placeholder)
    (filters : Option (filter.MatchMode → Option filter.Filter)) : Registry :=
  { filters := filters, placeholder := placeholder, columnValidators := [] }

/-- `NewWithFiltersAndValidators`: the map is the argument, which may be nil. -/
def NewWithFiltersAndValidators (placeholder : goprime.placeholder.Placeholder)
    (filters : Option (filter.MatchMode → Option filter.Filter))
    (validators : column.Validators) : Registry :=
  { filters := filters, placeholder := placeholder, columnValidators := validators }

/-- `RegisterFilter`: `f.filters[matchMode] = filter`. The assignment panics on the nil map
(`none`); on a map it binds `matchMode` and leaves the other fields alone. -/
def Registry.RegisterFilter (r : Registry) (matchMode : filter.MatchMode)
    (flt : filter.Filter) : Option Registry :=
  match r.filters with
  | none => none
  | some entries =>
    some { r with filters := some (fun m => if m = matchMode then some flt else entries m) }

/-- `Sql`, which only reads the map. -/
def Registry.Sql (r : Registry) (specs : Specs) : Option (List Value × String × Option String) :=
  r.toFilter.Sql specs

end runtime

/-! ## `Sql` on the memory that the values point into

An `any` that holds a `[]any` holds a slice header. The loop of `enrichAndExtract` copies
each Spec into the loop variable `spec`, and with it the header: the copy points into the
same backing array as the Spec of the caller. `EnrichValue` receives `&spec.Value`; it can
store another value into the loop variable, and through a `[]any` it can write the elements
of the backing array, which the caller's Specs share. Here `Sql` is embedded on a memory
that holds these backing arrays: each function takes the memory and returns the memory it
leaves. The elements of an array are recorded by their values, so a write into an array
nested in an element is a change of that element. The slice of Specs itself is not written
by `Sql` and is taken as out of the reach of the filters; `Apply` receives no value and is
kept a function of its arguments. -/

namespace shared

/-- The memory: the backing arrays of the `[]any` values, by address. -/
abbrev Memory := List (List Value)

/-- What an `any` holds: a value that no one else can reach (`direct`, a `[]any` among them
when its backing array is not shared), or the header of a `[]any` that points into the
memory: the array at `addr`, the offset of the first element, and the length. -/
inductive Held where
  | direct (v : Value) : Held
  | slice (addr off len : Nat) : Held

/-- The elements that a slice header names. -/
def Memory.elements (mem : Memory) (addr off len : Nat) : List Value :=
  (((mem[addr]?).getD []).drop off).take len

/-- The test `v == nil` on an `any`: a slice header is not the nil interface. -/
def Held.isNil : Held → Bool
  | Held.direct v => v.isNil
  | Held.slice _ _ _ => false

/-- What `enrichAndExtract` appends to `values`: the elements of a `[]any`, read from the
memory when the array is shared, or the value itself. -/
def Held.spliced (mem : Memory) : Held → List Value
  | Held.direct v => v.spliced
  | Held.slice addr off len => mem.elements addr off len

/-- The value that an `any` has in a memory. -/
def Held.value (mem : Memory) : Held → Value
  | Held.direct v => v
  | Held.slice addr off len => Value.seq (mem.elements addr off len)

/-- The struct `filter.Spec`. -/
structure Spec where
  Value : Held
  MatchMode : filter.MatchMode
  Operator : String

/-- The type `Specs`: the entries of the map in the order in which `range` visits them. -/
abbrev Specs := List (String × List Spec)

/-- `Specs.iter`. -/
def Specs.iter (s : Specs) : List (String × Spec) :=
  s.flatMap (fun kv => kv.2.map (fun f => (kv.1, f)))

/-- The interface `filter.Filter`. `EnrichValue` receives the memory and the value in the
loop variable; it returns the memory it leaves, the value it leaves in the loop variable, and
the error. -/
structure Filter where
  Apply : String → Int → Int → placeholder.Placeholder → String
  EnrichValue : Memory → Held → Memory × Held × Option String

/-- The struct `filter.Condition`. -/
structure Condition where
  Column : String
  Filter : shared.Filter
  Operator : String

/-- The fields of the registry that `Sql` reads. -/
structure Registry where
  filters : filter.MatchMode → Option shared.Filter
  placeholder : goprime.placeholder.Placeholder

/-- A built-in filter whose `EnrichValue` is `return nil` (`ValueFilter`, `BetweenFilter`,
`InFilter`, the date filters), with the `Apply` of the embedding above. -/
def plain (flt : filter.Filter) : shared.Filter :=
  { Apply := flt.Apply, EnrichValue := fun mem value => (mem, value, none) }

/-- `PatternMatchFilter`: `EnrichValue` stores the formatted string into the loop variable
when the value is a string. -/
def PatternMatchFilter (Operation Format : String) : shared.Filter :=
  { Apply := (filters.PatternMatchFilter Operation Format).Apply
    EnrichValue := fun mem value =>
      match value with
      | Held.direct (Value.str str) =>
        (mem, Held.direct (Value.str (filters.Sprintf Format str)), none)
      | v => (mem, v, none) }

/-- `MutatedValueFilter`: `EnrichValue` calls `m.MutationFunc(value)` with the pointer to the
loop variable; the function returns the memory and the value in the loop variable that it
leaves. -/
def MutatedValueFilter (Operation : String) (MutationFunc : Memory → Held → Memory × Held) :
    shared.Filter :=
  { Apply := fun column _ currentIndex placeholder =>
      "(" ++ column ++ " " ++ Operation ++ " " ++ placeholder.Get currentIndex ++ ")"
    EnrichValue := fun mem value =>
      ((MutationFunc mem value).1, (MutationFunc mem value).2, none) }

/-- A Filter of the embedding above, which works on the value alone. -/
def ofFilter (flt : filter.Filter) : shared.Filter :=
  { Apply := flt.Apply
    EnrichValue := fun mem value =>
      (mem, Held.direct (flt.EnrichValue (value.value mem)).1,
        (flt.EnrichValue (value.value mem)).2) }

/-- The loop of `enrichAndExtract`: `spec` is the loop variable, a copy of the element of
the slice; `none` is the panic of a method call on a nil `filter.Filter`. -/
def enrichAndExtractLoop (r : Registry) (col : String) :
    List Spec → Memory → List Value → List Condition →
      Option (Memory × List Value × List Condition × Option String)
  | [], mem, values, conditions => some (mem, values, conditions, none)
  | spec :: rest, mem, values, conditions =>
    if spec.Value.isNil then
      enrichAndExtractLoop r col rest mem values conditions
    else
      match r.filters spec.MatchMode with
      | none => none
      | some flt =>
        let condition : Condition := { Column := col, Filter := flt, Operator := spec.Operator }
        match flt.EnrichValue mem spec.Value with
        | (mem1, _, some err) => some (mem1, values, conditions ++ [condition], some err)
        | (mem1, value, none) =>
          enrichAndExtractLoop r col rest mem1 (values ++ value.spliced mem1)
            (conditions ++ [condition])

/-- `enrichAndExtract`. -/
def enrichAndExtract (r : Registry) (col : String) (specs : List Spec) (mem : Memory) :
    Option (Memory × List Value × List Condition × Option String) :=
  enrichAndExtractLoop r col specs mem [] []

/-- `sqlIter`. -/
def sqlIter (ph : placeholder.Placeholder) (totalVals : Int) :
    Int → List Condition → List (String × String)
  | _, [] => []
  | lastIndex, condition :: rest =>
    (condition.Operator, condition.Filter.Apply condition.Column totalVals lastIndex ph) ::
      sqlIter ph totalVals (if ph.Numbered then lastIndex + 1 else lastIndex) rest

/-- `buildSqlCondition`, on the loop of the embedding above. -/
def buildSqlCondition (ph : placeholder.Placeholder) (totalValsInSpec valIndex : Int)
    (conditions : List Condition) : String :=
  Filter.buildSqlConditionLoop conditions.length
    (sqlIter ph totalValsInSpec valIndex conditions) 0 "(" ++ ")"

/-- The first loop of `Sql`. -/
def SqlCheck (r : Registry) : List (String × Spec) → Option String
  | [] => none
  | (_, s) :: rest =>
    match r.filters s.MatchMode with
    | none => some ("match mode not registered [" ++ s.MatchMode ++ "]")
    | some _ => SqlCheck r rest

/-- The second loop of `Sql` with the iterator `conditionsIter` that feeds it: the iterator
calls `enrichAndExtract` for a column only when the loop asks for the next pair, so the
columns after an error are not enriched. -/
def SqlLoop (r : Registry) :
    Specs → Memory → List Value → List String →
      Option (Memory × List Value × String × Option String)
  | [], mem, vals, conditions => some (mem, vals, " and ".intercalate conditions, none)
  | kv :: rest, mem, vals, conditions =>
    match enrichAndExtract r kv.1 kv.2 mem with
    | none => none
    | some (mem1, values, condition, err) =>
      if kv.2.length = 0 ∨ condition.length = 0 then SqlLoop r rest mem1 vals conditions
      else
        match err with
        | some iterErr => some (mem1, vals, "", some iterErr)
        | none =>
          SqlLoop r rest mem1 (vals ++ values)
            (conditions ++
              [buildSqlCondition r.placeholder values.length (vals.length + 1) condition])

/-- `Sql`: the memory it leaves and what it returns, or `none` when it panics. -/
def Registry.Sql (r : Registry) (specs : Specs) (mem : Memory) :
    Option (Memory × List Value × String × Option String) :=
  match SqlCheck r specs.iter with
  | some err => some (mem, [], "", some err)
  | none => SqlLoop r specs mem [] []

/-- Two calls of `Sql` one after the other, the first visiting the columns in the order
`specs` and the second, on the memory that the first leaves, in the order `specs2`: what the
first returns, what the second returns, and the memory at the end. -/
def Registry.SqlTwice (r : Registry) (specs specs2 : Specs) (mem : Memory) :
    Option ((List Value × String × Option String) × (List Value × String × Option String) ×
      Memory) :=
  match r.Sql specs mem with
  | none => none
  | some (mem1, out1) =>
    match r.Sql specs2 mem1 with
    | none => none
    | some (mem2, out2) => some (out1, out2, mem2)

/-- The filters of the registry change no memory: `EnrichValue` writes nothing but the value
in the loop variable. -/
def Registry.Preserving (r : Registry) : Prop :=
  ∀ m flt, r.filters m = some flt → ∀ mem value, (flt.EnrichValue mem value).1 = mem

/-- The registry of the embedding above on the memory: its filters work on the value
alone. -/
def ofRegistry (f : prime.Filter) : Registry :=
  { filters := fun m => (f.filters m).map ofFilter, placeholder := f.placeholder }

/-- A Condition of the embedding above on the memory. -/
def ofCondition (c : filter.Condition) : Condition :=
  { Column := c.Column, Filter := ofFilter c.Filter, Operator := c.Operator }

/-- A Spec whose value points into no shared array. -/
def ofSpec (s : filter.Spec) : Spec :=
  { Value := Held.direct s.Value, MatchMode := s.MatchMode, Operator := s.Operator }

/-- Specs whose values point into no shared array. -/
def ofSpecs (specs : prime.Specs) : Specs :=
  specs.map (fun kv => (kv.1, kv.2.map ofSpec))

end shared

/-- The error that a column hands to the second loop of `Sql` when `enrichAndExtract` runs
on the memory `mem`: none for a column that `conditionsIter` skips. -/
def shared.columnError (r : shared.Registry) (mem : shared.Memory)
    (kv : String × List shared.Spec) : Option String :=
  match shared.enrichAndExtract r kv.1 kv.2 mem with
  | some (_, _, condition, err) =>
    if kv.2.length = 0 ∨ condition.length = 0 then none else err
  | none => none

/-- The values that a column hands to the second loop of `Sql` when `enrichAndExtract` runs
on the memory `mem`: none for a column that `conditionsIter` skips. -/
def shared.columnValues (r : shared.Registry) (mem : shared.Memory)
    (kv : String × List shared.Spec) : List Value :=
  match shared.enrichAndExtract r kv.1 kv.2 mem with
  | some (_, values, condition, _) =>
    if kv.2.length = 0 ∨ condition.length = 0 then [] else values
  | none => []

/-- Every match mode of the Specs has a filter in the registry. -/
def shared.Registry.AllRegistered (r : shared.Registry) (specs : shared.Specs) : Prop :=
  ∀ kv ∈ specs, ∀ s ∈ kv.2, (r.filters s.MatchMode).isSome = true
/-! ## Registries and Specs of the test suite -/

/-- The registry of `TestSql`: "?" with the two LIKE filters. -/
def testSqlFilter : Filter :=
  ((New (placeholder.UnNumbered "?")).RegisterFilter "startsWith"
    (filters.NewPatternMatchFilter "LIKE" filters.POST)).RegisterFilter "endsWith"
    (filters.NewPatternMatchFilter "LIKE" filters.PRE)

/-- The Specs of `TestSql`. -/
def testSqlSpecs : Specs :=
  [("name", [filter.Spec.mk (Value.str "James") "startsWith" "and",
    filter.Spec.mk (Value.str "Butt") "endsWith" "and"])]

/-- The registry of `TestSqlWithNumberedPlaceholder`. -/
def testNumberedFilter : Filter :=
  NewWithFilters (placeholder.Numbered "$") (fun m =>
    if m = "startsWith" then some (filters.NewPatternMatchFilter "LIKE" filters.POST)
    else if m = "contains" then some (filters.NewPatternMatchFilter "LIKE" filters.AROUND)
    else none)

/-- The Specs of `TestSqlWithNumberedPlaceholder`. -/
def testNumberedSpecs : Specs :=
  [("name", [filter.Spec.mk (Value.str "Alice") "startsWith" "or",
    filter.Spec.mk (Value.str "Smith") "contains" "or"])]

/-- The registry of `TestSqlWithMultiValuedValue`. -/
def testBetweenFilter : Filter :=
  NewWithFilters (placeholder.Numbered "$")
    (fun m => if m = "between" then some filters.BetweenFilter else none)

/-- The Specs of `TestSqlWithMultiValuedValue`. -/
def testBetweenSpecs : Specs :=
  [("age", [filter.Spec.mk (Value.seq [Value.int 18, Value.int 23]) "between" "and"])]

/-- A registry that knows only "equals". -/
def equalsFilter : Filter :=
  (New (placeholder.UnNumbered "?")).RegisterFilter "equals" (filters.ValueFilter "=")

/-- The registry of `TestSqlWithMultipleSpecs`. -/
def testMultipleFilter : Filter :=
  (((NewWithFilters (placeholder.UnNumbered "?") (fun _ => none)).RegisterFilter "startsWith"
    (filters.NewPatternMatchFilter "LIKE" filters.POST)).RegisterFilter "endsWith"
    (filters.NewPatternMatchFilter "LIKE" filters.PRE)).RegisterFilter "between"
    filters.BetweenFilter

/-- The Specs of `TestSqlWithMultipleSpecs`, visited in the order "name", "age". -/
def testMultipleSpecs : Specs :=
  [("name", [filter.Spec.mk (Value.str "James") "startsWith" "and",
    filter.Spec.mk (Value.str "Butt") "endsWith" "or"]),
   ("age", [filter.Spec.mk (Value.seq [Value.int 18, Value.int 23]) "between" "and"])]

/-- A Filter written by a caller whose `EnrichValue` rejects every value. -/
def rejectingFilter : filter.Filter :=
  { Apply := fun column _ currentIndex placeholder =>
      "(" ++ column ++ " = " ++ placeholder.Get currentIndex ++ ")"
    EnrichValue := fun value => (value, some "value rejected") }

/-- A registry with "equals" and, under "checked", the rejecting Filter. -/
def rejectingRegistry : Filter :=
  equalsFilter.RegisterFilter "checked" rejectingFilter

/-- The built-in filters of the tests under their match modes, with "equals" and "in". -/
def testBuiltins : filter.MatchMode → Option Builtin := fun m =>
  if m = "startsWith" then some (Builtin.pattern "LIKE" filters.POST)
  else if m = "endsWith" then some (Builtin.pattern "LIKE" filters.PRE)
  else if m = "between" then some Builtin.between
  else if m = "equals" then some (Builtin.value "=")
  else if m = "in" then some Builtin.inSet
  else none

/-- A Specs whose column has a "between" Spec followed by an "equals" Spec. -/
def betweenThenEqualsSpecs : Specs :=
  [("age", [filter.Spec.mk (Value.seq [Value.int 18, Value.int 23]) "between" "and",
    filter.Spec.mk (Value.int 5) "equals" "and"])]

/-- The registry of `TestValidateColumnsWithInvalidData`: "?" with the validator
`AllowedValidator{"name"}`. -/
def allowedNameRegistry : Filter :=
  (New (placeholder.UnNumbered "?")).RegisterColumnValidator (column.AllowedValidator ["name"])

/-- The Specs of `TestValidateColumnsWithInvalidData`. -/
def invalidColumnSpecs : Specs :=
  [("invalidColumn", [filter.Spec.mk (Value.str "James") "startsWith" "and"])]

/-- The Specs of `TestSqlWithMultipleSpecs`, visited in the order "age", "name". -/
def testMultipleSpecsSwapped : Specs :=
  [("age", [filter.Spec.mk (Value.seq [Value.int 18, Value.int 23]) "between" "and"]),
   ("name", [filter.Spec.mk (Value.str "James") "startsWith" "and",
    filter.Spec.mk (Value.str "Butt") "endsWith" "or"])]

/-- The map of a registry in which "equals" is bound to
`&filters.MutatedValueFilter{Operation: "="}`, whose `MutationFunc` is left nil. -/
def nilMutationFilters : filter.MatchMode → Option panics.FilterValue := fun m =>
  if m = "equals" then some (panics.MutatedValueFilter (some ("=", none))) else none


/-- A Filter written by a caller whose `Apply` writes down the arguments it receives. -/
def recordingFilter : filter.Filter :=
  { Apply := fun column totalArguments currentIndex placeholder =>
      "(" ++ column ++ " total=" ++ toString totalArguments ++ " index=" ++
        toString currentIndex ++ " " ++ placeholder.Get currentIndex ++ ")"
    EnrichValue := fun value => (value, none) }

/-- The recording Filter under "rec", with the given placeholder. -/
def recordingRegistry (ph : placeholder.Placeholder) : Filter :=
  (New ph).RegisterFilter "rec" recordingFilter

/-- Column "a" with a Spec of two values and a Spec of one value, then column "b" with a
Spec of one value. -/
def recordingSpecs : Specs :=
  [("a", [filter.Spec.mk (Value.seq [Value.int 1, Value.int 2]) "rec" "and",
    filter.Spec.mk (Value.int 3) "rec" "and"]),
   ("b", [filter.Spec.mk (Value.int 4) "rec" "and"])]

/-- A Filter written by a caller whose `Apply` writes `currentIndex` itself into the
fragment and does not call the placeholder. -/
def indexFilter : filter.Filter :=
  { Apply := fun column _ currentIndex _ =>
      "(" ++ column ++ " = :" ++ toString currentIndex ++ ")"
    EnrichValue := fun value => (value, none) }

/-- The registry "?" with "equals" and, under "at", the Filter that writes its index. -/
def indexRegistry : Filter :=
  equalsFilter.RegisterFilter "at" indexFilter

/-- Column "a" with an "equals" Spec, then column "b" with an "at" Spec. -/
def indexSpecs : Specs :=
  [("a", [filter.Spec.mk (Value.int 1) "equals" "and"]),
   ("b", [filter.Spec.mk (Value.int 2) "at" "and"])]

/-- A `MutationFunc` written by a caller: when the value is a `[]any` whose first element is
a string, it appends "%" to that element in place, `xs[0] = s + "%"`, and leaves the loop
variable as it is. -/
def markFirstInPlace (mem : shared.Memory) (value : shared.Held) :
    shared.Memory × shared.Held :=
  match value with
  | shared.Held.slice addr off _ =>
    match mem[addr]? with
    | some array =>
      match array[off]? with
      | some (Value.str s) => (mem.set addr (array.set off (Value.str (s ++ "%"))), value)
      | _ => (mem, value)
    | none => (mem, value)
  | v => (mem, v)

/-- The registry "?" with, under "startsWith", a `MutatedValueFilter` whose `MutationFunc`
writes through the `[]any` it is handed. -/
def writingRegistry : shared.Registry :=
  { filters := fun m =>
      if m = "startsWith" then some (shared.MutatedValueFilter "LIKE" markFirstInPlace)
      else none
    placeholder := placeholder.UnNumbered "?" }

/-- One column "name" with one Spec, whose value is the `[]any` of length one at address 0. -/
def writingSpecs : shared.Specs :=
  [("name", [shared.Spec.mk (shared.Held.slice 0 0 1) "startsWith" "and"])]

/-- The memory in which the array at address 0 holds the string "James". -/
def writingMemory : shared.Memory :=
  [[Value.str "James"]]

/-- The registry of `TestSqlWithMultipleSpecs` on the memory. -/
def sharedMultipleRegistry : shared.Registry :=
  { filters := fun m =>
      if m = "startsWith" then some (shared.PatternMatchFilter "LIKE" filters.POST)
      else if m = "endsWith" then some (shared.PatternMatchFilter "LIKE" filters.PRE)
      else if m = "between" then some (shared.plain filters.BetweenFilter)
      else none
    placeholder := placeholder.UnNumbered "?" }

/-- The Specs of `TestSqlWithMultipleSpecs`, visited in the order "name", "age"; the value
of the "between" Spec is the `[]any` of length two at address 0. -/
def sharedMultipleSpecs : shared.Specs :=
  [("name", [shared.Spec.mk (shared.Held.direct (Value.str "James")) "startsWith" "and",
    shared.Spec.mk (shared.Held.direct (Value.str "Butt")) "endsWith" "or"]),
   ("age", [shared.Spec.mk (shared.Held.slice 0 0 2) "between" "and"])]

/-- The same Specs visited in the order "age", "name". -/
def sharedMultipleSpecsSwapped : shared.Specs :=
  [("age", [shared.Spec.mk (shared.Held.slice 0 0 2) "between" "and"]),
   ("name", [shared.Spec.mk (shared.Held.direct (Value.str "James")) "startsWith" "and",
    shared.Spec.mk (shared.Held.direct (Value.str "Butt")) "endsWith" "or"])]

/-- The memory in which the array at address 0 holds 18 and 23. -/
def sharedMultipleMemory : shared.Memory :=
  [[Value.int 18, Value.int 23]]


/-! ## Auxiliary lemmas -/

theorem SqlCheck_eq_none (f : Filter) (l : List (String × filter.Spec)) :
    f.SqlCheck l = none ↔ ∀ ks ∈ l, (f.filters ks.2.MatchMode).isSome = true := by
  induction l with
  | nil => simp [Filter.SqlCheck]
  | cons a rest ih =>
    obtain ⟨k, s⟩ := a
    cases h : f.filters s.MatchMode with
    | none => simp [Filter.SqlCheck, h]
    | some flt => simp [Filter.SqlCheck, h, ih]

theorem SqlCheck_eq_some (f : Filter) (l : List (String × filter.Spec)) (e : String)
    (h : f.SqlCheck l = some e) :
    ∃ ks ∈ l, f.filters ks.2.MatchMode = none ∧
      e = "match mode not registered [" ++ ks.2.MatchMode ++ "]" := by
  induction l with
  | nil => simp [Filter.SqlCheck] at h
  | cons a rest ih =>
    obtain ⟨k, s⟩ := a
    cases hf : f.filters s.MatchMode with
    | none =>
      simp [Filter.SqlCheck, hf] at h
      exact ⟨(k, s), by simp, hf, h.symm⟩
    | some flt =>
      simp [Filter.SqlCheck, hf] at h
      obtain ⟨ks, hks, h1, h2⟩ := ih h
      exact ⟨ks, by simp [hks], h1, h2⟩

theorem iter_cons (kv : String × List filter.Spec) (rest : Specs) :
    Specs.iter (kv :: rest) = kv.2.map (fun s => (kv.1, s)) ++ Specs.iter rest := by
  simp [Specs.iter]

theorem AllRegistered_cons (f : Filter) (kv : String × List filter.Spec) (rest : Specs) :
    f.AllRegistered (kv :: rest) ↔
      (∀ s ∈ kv.2, (f.filters s.MatchMode).isSome = true) ∧ f.AllRegistered rest := by
  unfold Filter.AllRegistered
  rw [iter_cons]
  constructor
  · intro h
    refine ⟨fun s hs => h (kv.1, s) (by simp; left; exact hs), fun ks hks => h ks (by simp [hks])⟩
  · rintro ⟨h1, h2⟩ ks hks
    rcases List.mem_append.1 hks with hm | hm
    · obtain ⟨s, hs, rfl⟩ := List.mem_map.1 hm
      exact h1 s hs
    · exact h2 ks hm

theorem nonNilSpecs_cons (s : filter.Spec) (rest : List filter.Spec) :
    nonNilSpecs (s :: rest) =
      if s.Value.isNil then nonNilSpecs rest else s :: nonNilSpecs rest := by
  unfold nonNilSpecs
  cases h : s.Value.isNil <;> simp [List.filter_cons, h]

/-- The loop of `enrichAndExtract` on a column whose match modes are registered. -/
theorem enrichAndExtractLoop_eq (f : Filter) (col : String) (specs : List filter.Spec)
    (hreg : ∀ s ∈ specs, (f.filters s.MatchMode).isSome = true)
    (values : List Value) (conditions : List filter.Condition) :
    (f.columnError specs = none ∧
        f.enrichAndExtractLoop col specs values conditions =
          some (values ++ f.columnValues specs,
            conditions ++ f.columnConditions col specs, none)) ∨
      (∃ e vs cs, f.columnError specs = some e ∧ cs ≠ [] ∧
        f.enrichAndExtractLoop col specs values conditions = some (vs, cs, some e)) := by
  induction specs generalizing values conditions with
  | nil =>
    left
    simp [Filter.columnError, nonNilSpecs, Filter.enrichAndExtractLoop, Filter.columnValues,
      Filter.columnConditions]
  | cons s rest ih =>
    have hrest : ∀ s ∈ rest, (f.filters s.MatchMode).isSome = true :=
      fun t ht => hreg t (List.mem_cons_of_mem _ ht)
    cases hnil : s.Value.isNil with
    | true =>
      have e1 : f.columnError (s :: rest) = f.columnError rest := by
        simp [Filter.columnError, nonNilSpecs_cons, hnil]
      have e2 : f.columnValues (s :: rest) = f.columnValues rest := by
        simp [Filter.columnValues, nonNilSpecs_cons, hnil]
      have e3 : f.columnConditions col (s :: rest) = f.columnConditions col rest := by
        simp [Filter.columnConditions, nonNilSpecs_cons, hnil]
      have e4 : f.enrichAndExtractLoop col (s :: rest) values conditions =
          f.enrichAndExtractLoop col rest values conditions := by
        simp [Filter.enrichAndExtractLoop, hnil]
      rw [e1, e2, e3, e4]
      exact ih hrest values conditions
    | false =>
      have hs := hreg s (List.mem_cons_self _ _)
      obtain ⟨flt, hflt⟩ := Option.isSome_iff_exists.1 hs
      rcases hen : flt.EnrichValue s.Value with ⟨v, err⟩
      cases err with
      | some e =>
        right
        refine ⟨e, values, conditions ++ [{ Column := col, Filter := flt, Operator := s.Operator }],
          ?_, by simp, ?_⟩
        · simp [Filter.columnError, nonNilSpecs_cons, hnil, Filter.enrichError, hflt, hen]
        · simp [Filter.enrichAndExtractLoop, hnil, hflt, hen]
      | none =>
        have e1 : f.columnError (s :: rest) = f.columnError rest := by
          simp [Filter.columnError, nonNilSpecs_cons, hnil, Filter.enrichError, hflt, hen]
        have e2 : f.columnValues (s :: rest) = v.spliced ++ f.columnValues rest := by
          simp [Filter.columnValues, nonNilSpecs_cons, hnil, Filter.enriched, hflt, hen]
        have e3 : f.columnConditions col (s :: rest) =
            { Column := col, Filter := flt, Operator := s.Operator } ::
              f.columnConditions col rest := by
          simp [Filter.columnConditions, nonNilSpecs_cons, hnil, hflt]
        have e4 : f.enrichAndExtractLoop col (s :: rest) values conditions =
            f.enrichAndExtractLoop col rest (values ++ v.spliced)
              (conditions ++ [{ Column := col, Filter := flt, Operator := s.Operator }]) := by
          simp [Filter.enrichAndExtractLoop, hnil, hflt, hen]
        rw [e1, e2, e3, e4]
        rcases ih hrest (values ++ v.spliced)
            (conditions ++ [{ Column := col, Filter := flt, Operator := s.Operator }]) with
          ⟨h1, h2⟩ | ⟨e, vs, cs, h1, h2, h3⟩
        · left
          refine ⟨h1, ?_⟩
          rw [h2]
          simp
        · right
          exact ⟨e, vs, cs, h1, h2, h3⟩


theorem columnConditions_length (f : Filter) (col : String) (specs : List filter.Spec)
    (hreg : ∀ s ∈ specs, (f.filters s.MatchMode).isSome = true) :
    (f.columnConditions col specs).length = (nonNilSpecs specs).length := by
  induction specs with
  | nil => simp [Filter.columnConditions, nonNilSpecs]
  | cons s rest ih =>
    have hrest : ∀ s ∈ rest, (f.filters s.MatchMode).isSome = true :=
      fun t ht => hreg t (List.mem_cons_of_mem _ ht)
    have ih := ih hrest
    cases hnil : s.Value.isNil with
    | true =>
      simp only [Filter.columnConditions, nonNilSpecs_cons, hnil] at ih ⊢
      simpa using ih
    | false =>
      obtain ⟨flt, hflt⟩ := Option.isSome_iff_exists.1 (hreg s (List.mem_cons_self _ _))
      simp only [Filter.columnConditions, nonNilSpecs_cons, hnil] at ih ⊢
      simp [hflt, ih]

theorem columnValues_of_nonNil_nil (f : Filter) (specs : List filter.Spec)
    (h : nonNilSpecs specs = []) : f.columnValues specs = [] := by
  simp [Filter.columnValues, h]

theorem columnError_of_nonNil_nil (f : Filter) (specs : List filter.Spec)
    (h : nonNilSpecs specs = []) : f.columnError specs = none := by
  simp [Filter.columnError, h]

theorem nonNilSpecs_ne_nil_length (specs : List filter.Spec) (h : nonNilSpecs specs ≠ []) :
    ¬ specs.length = 0 := by
  intro h0
  apply h
  have : specs = [] := List.length_eq_zero.1 h0
  subst this
  rfl

theorem conditionsIter_cons (f : Filter) (kv : String × List filter.Spec) (rest : Specs) :
    f.conditionsIter (kv :: rest) =
      match f.enrichAndExtract kv.1 kv.2 with
      | none => none :: f.conditionsIter rest
      | some (vals, condition, err) =>
        if kv.2.length = 0 ∨ condition.length = 0 then f.conditionsIter rest
        else some ({ values := vals, conditions := condition }, err) :: f.conditionsIter rest := by
  unfold Filter.conditionsIter
  rw [List.filterMap_cons]
  cases h : f.enrichAndExtract kv.1 kv.2 with
  | none => simp
  | some r =>
    obtain ⟨vals, condition, err⟩ := r
    by_cases hc : kv.2.length = 0 ∨ condition.length = 0
    · simp only [hc, if_true]
    · simp only [hc, if_false]

theorem SqlLoop_conditionsIter (f : Filter) (specs : Specs) (hreg : f.AllRegistered specs)
    (vals : List Value) (conds : List String) :
    f.SqlLoop (f.conditionsIter specs) vals conds =
      match f.firstError specs with
      | none => some (vals ++ f.expectedValues specs,
          " and ".intercalate (conds ++ f.groupsFrom specs vals.length), none)
      | some e => some (vals ++ f.valuesBeforeError specs, "", some e) := by
  induction specs generalizing vals conds with
  | nil =>
    simp [Filter.conditionsIter, Filter.SqlLoop, Filter.firstError, Filter.expectedValues,
      Filter.groupsFrom]
  | cons kv rest ih =>
    obtain ⟨hcol, hrest⟩ := (AllRegistered_cons f kv rest).1 hreg
    rw [conditionsIter_cons]
    rcases enrichAndExtractLoop_eq f kv.1 kv.2 hcol [] [] with
      ⟨h1, h2⟩ | ⟨e, vs, cs, h1, h2, h3⟩
    · have hfe : f.firstError (kv :: rest) = f.firstError rest := by
        simp [Filter.firstError, h1]
      have hev : f.expectedValues (kv :: rest) = f.columnValues kv.2 ++ f.expectedValues rest := by
        simp [Filter.expectedValues]
      have hvb : f.valuesBeforeError (kv :: rest) =
          f.columnValues kv.2 ++ f.valuesBeforeError rest := by
        simp [Filter.valuesBeforeError, List.takeWhile_cons, h1, Filter.expectedValues]
      simp only [Filter.enrichAndExtract, h2, List.nil_append]
      by_cases hnn : nonNilSpecs kv.2 = []
      · have hcl := columnConditions_length f kv.1 kv.2 hcol
        rw [hnn] at hcl
        have hcv := columnValues_of_nonNil_nil f kv.2 hnn
        have hskip : kv.2.length = 0 ∨ (f.columnConditions kv.1 kv.2).length = 0 := Or.inr hcl
        simp only [hskip, if_true]
        rw [ih hrest, hfe, hev, hvb, hcv]
        simp [Filter.groupsFrom, hnn]
      · have hcl := columnConditions_length f kv.1 kv.2 hcol
        have hlen : ¬ (nonNilSpecs kv.2).length = 0 := fun h => hnn (List.length_eq_zero.1 h)
        have hskip : ¬ (kv.2.length = 0 ∨ (f.columnConditions kv.1 kv.2).length = 0) := by
          rw [hcl]
          exact not_or.2 ⟨nonNilSpecs_ne_nil_length kv.2 hnn, hlen⟩
        simp only [hskip, if_false, Filter.SqlLoop]
        rw [ih hrest, hfe, hev, hvb]
        have hg : f.groupsFrom (kv :: rest) vals.length =
            f.columnGroup kv.1 kv.2 vals.length ::
              f.groupsFrom rest (vals.length + (f.columnValues kv.2).length) := by
          simp [Filter.groupsFrom, hnn]
        rw [hg]
        simp [Filter.columnGroup, List.append_assoc]
    · have hfe : f.firstError (kv :: rest) = some e := by
        simp [Filter.firstError, h1]
      have hvb : f.valuesBeforeError (kv :: rest) = [] := by
        simp [Filter.valuesBeforeError, List.takeWhile_cons, h1, Filter.expectedValues]
      have hnn : nonNilSpecs kv.2 ≠ [] := by
        intro h
        rw [columnError_of_nonNil_nil f kv.2 h] at h1
        exact Option.noConfusion h1
      have hskip : ¬ (kv.2.length = 0 ∨ cs.length = 0) :=
        not_or.2 ⟨nonNilSpecs_ne_nil_length kv.2 hnn, fun h => h2 (List.length_eq_zero.1 h)⟩
      simp only [Filter.enrichAndExtract, h3, hskip, if_false, Filter.SqlLoop, hfe, hvb,
        List.append_nil]

/-- What `Sql` returns when every match mode is registered. -/
theorem Sql_of_registered (f : Filter) (specs : Specs) (hreg : f.AllRegistered specs) :
    f.Sql specs =
      match f.firstError specs with
      | none => some (f.expectedValues specs, " and ".intercalate (f.groupsFrom specs 0), none)
      | some e => some (f.valuesBeforeError specs, "", some e) := by
  have hc : f.SqlCheck specs.iter = none := (SqlCheck_eq_none f specs.iter).2 hreg
  unfold Filter.Sql
  rw [hc]
  simpa using SqlLoop_conditionsIter f specs hreg [] []


theorem spliced_length (v : Value) : v.spliced.length = v.boundCount := by
  cases v <;> rfl

theorem firstError_eq_none_iff (f : Filter) (specs : Specs) :
    f.firstError specs = none ↔
      ∀ ks ∈ specs.iter, ks.2.Value.isNil = false → f.enrichError ks.2 = none := by
  induction specs with
  | nil => simp [Filter.firstError, Specs.iter]
  | cons kv rest ih =>
    have hcons : f.firstError (kv :: rest) = none ↔
        f.columnError kv.2 = none ∧ f.firstError rest = none := by
      simp [Filter.firstError]
    rw [hcons, ih, iter_cons]
    have hcol : f.columnError kv.2 = none ↔
        ∀ s ∈ kv.2, s.Value.isNil = false → f.enrichError s = none := by
      simp [Filter.columnError, nonNilSpecs]
    rw [hcol]
    constructor
    · rintro ⟨h1, h2⟩ ks hks hn
      rcases List.mem_append.1 hks with hm | hm
      · obtain ⟨s, hs, rfl⟩ := List.mem_map.1 hm
        exact h1 s hs hn
      · exact h2 ks hm hn
    · intro h
      refine ⟨fun s hs hn => h (kv.1, s) (List.mem_append_left _ (List.mem_map.2 ⟨s, hs, rfl⟩)) hn,
        fun ks hks hn => h ks (List.mem_append_right _ hks) hn⟩

theorem expectedValues_eq_iter (f : Filter) (specs : Specs) :
    f.expectedValues specs =
      (specs.iter.filter (fun ks => !ks.2.Value.isNil)).flatMap
        (fun ks => (f.enriched ks.2).spliced) := by
  induction specs with
  | nil => simp [Filter.expectedValues, Specs.iter]
  | cons kv rest ih =>
    have hcons : f.expectedValues (kv :: rest) =
        f.columnValues kv.2 ++ f.expectedValues rest := by
      simp [Filter.expectedValues]
    rw [hcons, ih, iter_cons, List.filter_append, List.flatMap_append]
    congr 1
    simp only [Filter.columnValues, nonNilSpecs, List.filter_map, List.flatMap_map]
    rfl


theorem sqlIter_length (f : Filter) (total idx : Int) (conds : List filter.Condition) :
    (f.sqlIter total idx conds).length = conds.length := by
  induction conds generalizing idx with
  | nil => rfl
  | cons c rest ih => simp [Filter.sqlIter, ih]

theorem buildSqlConditionLoop_eq (n : Nat) (l : List (String × String)) (i : Nat)
    (sb : String) (h : i + l.length = n) :
    Filter.buildSqlConditionLoop n l i sb = sb ++ joinWithOperators l := by
  induction l generalizing i sb with
  | nil => simp [Filter.buildSqlConditionLoop, joinWithOperators]
  | cons a rest ih =>
    obtain ⟨opr, c⟩ := a
    cases rest with
    | nil =>
      have hlt : ¬ ((i : Int) < (n : Int) - 1) := by
        simp at h
        omega
      simp [Filter.buildSqlConditionLoop, joinWithOperators, hlt]
    | cons b rest2 =>
      have hlt : (i : Int) < (n : Int) - 1 := by
        simp at h
        omega
      have hlen : i + 1 + (b :: rest2).length = n := by
        simp at h ⊢
        omega
      rw [Filter.buildSqlConditionLoop, if_pos hlt, ih (i + 1) _ hlen]
      simp [joinWithOperators, String.append_assoc]

theorem buildSqlCondition_eq (f : Filter) (total idx : Int) (conds : List filter.Condition) :
    f.buildSqlCondition total idx conds =
      "(" ++ joinWithOperators (f.sqlIter total idx conds) ++ ")" := by
  unfold Filter.buildSqlCondition
  rw [buildSqlConditionLoop_eq _ _ 0 "(" (by simp [sqlIter_length])]

theorem sqlIter_conditions (f : Filter) (col : String) (total : Int) (n : Nat)
    (l : List filter.Spec) (hreg : ∀ s ∈ l, (f.filters s.MatchMode).isSome = true) (k : Nat) :
    f.sqlIter total (f.slotIndex n k)
        (l.filterMap (fun s => (f.filters s.MatchMode).map (fun flt =>
          ({ Column := col, Filter := flt, Operator := s.Operator } : filter.Condition)))) =
      (l.enumFrom k).map (fun p => (p.2.Operator, f.fragment col total (f.slotIndex n p.1) p.2)) := by
  induction l generalizing k with
  | nil => simp [Filter.sqlIter]
  | cons s rest ih =>
    obtain ⟨flt, hflt⟩ := Option.isSome_iff_exists.1 (hreg s (List.mem_cons_self _ _))
    have hrest : ∀ s ∈ rest, (f.filters s.MatchMode).isSome = true :=
      fun t ht => hreg t (List.mem_cons_of_mem _ ht)
    have hnext : (if f.placeholder.Numbered then f.slotIndex n k + 1 else f.slotIndex n k) =
        f.slotIndex n (k + 1) := by
      unfold Filter.slotIndex
      cases f.placeholder.Numbered <;> simp
      omega
    rw [List.filterMap_cons]
    simp only [hflt, Option.map_some', Filter.sqlIter, List.enumFrom_cons, List.map_cons]
    rw [hnext, ih hrest (k + 1)]
    simp [Filter.fragment, hflt]

theorem nonNilSpecs_registered (f : Filter) (specs : List filter.Spec)
    (hreg : ∀ s ∈ specs, (f.filters s.MatchMode).isSome = true) :
    ∀ s ∈ nonNilSpecs specs, (f.filters s.MatchMode).isSome = true :=
  fun s hs => hreg s (List.mem_of_mem_filter hs)

theorem columnGroup_eq (f : Filter) (col : String) (specs : List filter.Spec) (n : Nat)
    (hreg : ∀ s ∈ specs, (f.filters s.MatchMode).isSome = true) :
    f.columnGroup col specs n =
      "(" ++ joinWithOperators (f.columnFragments col specs n) ++ ")" := by
  unfold Filter.columnGroup Filter.columnFragments
  rw [buildSqlCondition_eq]
  have h := sqlIter_conditions f col (f.columnValues specs).length n (nonNilSpecs specs)
    (nonNilSpecs_registered f specs hreg) 0
  have h0 : f.slotIndex n 0 = (n : Int) + 1 := by
    unfold Filter.slotIndex
    cases f.placeholder.Numbered <;> simp
  rw [h0] at h
  unfold Filter.columnConditions
  rw [h]
  rfl

theorem Sql_success (f : Filter) (specs : Specs) (vals : List Value) (cond : String)
    (h : f.Sql specs = some (vals, cond, none)) :
    f.AllRegistered specs ∧ f.firstError specs = none := by
  cases hc : f.SqlCheck specs.iter with
  | some e => simp [Filter.Sql, hc] at h
  | none =>
    have hreg : f.AllRegistered specs := (SqlCheck_eq_none f specs.iter).1 hc
    refine ⟨hreg, ?_⟩
    rw [Sql_of_registered f specs hreg] at h
    cases hfe : f.firstError specs with
    | none => rfl
    | some e => simp [hfe] at h

theorem enrichAndExtractLoop_of_nonNil_nil (f : Filter) (col : String)
    (specs : List filter.Spec) (h : nonNilSpecs specs = [])
    (values : List Value) (conditions : List filter.Condition) :
    f.enrichAndExtractLoop col specs values conditions = some (values, conditions, none) := by
  induction specs with
  | nil => rfl
  | cons s rest ih =>
    rw [nonNilSpecs_cons] at h
    cases hnil : s.Value.isNil with
    | true =>
      simp only [hnil, if_true] at h
      simp [Filter.enrichAndExtractLoop, hnil, ih h]
    | false => simp [hnil] at h

theorem enrichAndExtractLoop_nonNil (f : Filter) (col : String) (specs : List filter.Spec)
    (values : List Value) (conditions : List filter.Condition) :
    f.enrichAndExtractLoop col (nonNilSpecs specs) values conditions =
      f.enrichAndExtractLoop col specs values conditions := by
  induction specs generalizing values conditions with
  | nil => rfl
  | cons s rest ih =>
    rw [nonNilSpecs_cons]
    cases hnil : s.Value.isNil with
    | true => simp [Filter.enrichAndExtractLoop, hnil, ih]
    | false =>
      simp only [Bool.false_eq_true, if_false, Filter.enrichAndExtractLoop, hnil, ih]

theorem mem_iter (specs : Specs) (ks : String × filter.Spec) :
    ks ∈ specs.iter ↔ ∃ kv ∈ specs, ks.1 = kv.1 ∧ ks.2 ∈ kv.2 := by
  unfold Specs.iter
  rw [List.mem_flatMap]
  constructor
  · rintro ⟨kv, hkv, hm⟩
    obtain ⟨s, hs, rfl⟩ := List.mem_map.1 hm
    exact ⟨kv, hkv, rfl, hs⟩
  · rintro ⟨kv, hkv, h1, h2⟩
    refine ⟨kv, hkv, List.mem_map.2 ⟨ks.2, h2, ?_⟩⟩
    rw [← h1]

theorem SqlCheck_append (f : Filter) (l1 l2 : List (String × filter.Spec)) :
    f.SqlCheck (l1 ++ l2) =
      match f.SqlCheck l1 with
      | some e => some e
      | none => f.SqlCheck l2 := by
  induction l1 with
  | nil => rfl
  | cons a rest ih =>
    obtain ⟨k, s⟩ := a
    cases hf : f.filters s.MatchMode with
    | none => simp [Filter.SqlCheck, hf]
    | some flt => simp [Filter.SqlCheck, hf, ih]


theorem conditionsIter_nonNil (f : Filter) (specs : Specs) :
    f.conditionsIter (specs.map (fun kv => (kv.1, nonNilSpecs kv.2))) =
      f.conditionsIter specs := by
  induction specs with
  | nil => rfl
  | cons kv rest ih =>
    rw [List.map_cons, conditionsIter_cons, conditionsIter_cons, ih]
    simp only [Filter.enrichAndExtract, enrichAndExtractLoop_nonNil]
    cases hex : f.enrichAndExtractLoop kv.1 kv.2 [] [] with
    | none => rfl
    | some r =>
      obtain ⟨vals, condition, err⟩ := r
      have hiff : ((nonNilSpecs kv.2).length = 0 ∨ condition.length = 0) ↔
          (kv.2.length = 0 ∨ condition.length = 0) := by
        constructor
        · rintro (h | h)
          · right
            have hn : nonNilSpecs kv.2 = [] := List.length_eq_zero.1 h
            rw [enrichAndExtractLoop_of_nonNil_nil f kv.1 kv.2 hn] at hex
            simp only [Option.some.injEq, Prod.mk.injEq] at hex
            rw [← hex.2.1]
            rfl
          · exact Or.inr h
        · rintro (h | h)
          · left
            have : kv.2 = [] := List.length_eq_zero.1 h
            rw [this]
            rfl
          · exact Or.inr h
      by_cases hc : kv.2.length = 0 ∨ condition.length = 0
      · simp only [hiff.2 hc, hc, if_true]
      · simp only [mt hiff.1 hc, hc, if_false]

theorem dropNilColumns_cons (kv : String × List filter.Spec) (rest : Specs) :
    dropNilColumns (kv :: rest) =
      if kv.2.all (fun s => s.Value.isNil) then dropNilColumns rest
      else kv :: dropNilColumns rest := by
  unfold dropNilColumns
  cases h : kv.2.all (fun s => s.Value.isNil) <;> simp [List.filter_cons, h]

theorem nonNilSpecs_of_all_nil (specs : List filter.Spec)
    (h : specs.all (fun s => s.Value.isNil) = true) : nonNilSpecs specs = [] := by
  unfold nonNilSpecs
  rw [List.filter_eq_nil_iff]
  intro s hs
  simp [List.all_eq_true.1 h s hs]

theorem conditionsIter_dropNilColumns (f : Filter) (specs : Specs) :
    f.conditionsIter (dropNilColumns specs) = f.conditionsIter specs := by
  induction specs with
  | nil => rfl
  | cons kv rest ih =>
    rw [dropNilColumns_cons]
    cases hall : kv.2.all (fun s => s.Value.isNil) with
    | true =>
      simp only [if_true]
      rw [ih, conditionsIter_cons]
      simp only [Filter.enrichAndExtract,
        enrichAndExtractLoop_of_nonNil_nil f kv.1 kv.2 (nonNilSpecs_of_all_nil kv.2 hall)]
      simp
    | false =>
      simp only [Bool.false_eq_true, if_false]
      rw [conditionsIter_cons, conditionsIter_cons, ih]

theorem SqlCheck_dropNilColumns (f : Filter) (specs : Specs)
    (hreg : ∀ kv ∈ specs, kv.2.all (fun s => s.Value.isNil) = true →
      ∀ s ∈ kv.2, (f.filters s.MatchMode).isSome = true) :
    f.SqlCheck (dropNilColumns specs).iter = f.SqlCheck specs.iter := by
  induction specs with
  | nil => rfl
  | cons kv rest ih =>
    have ih := ih (fun kv2 h2 => hreg kv2 (List.mem_cons_of_mem _ h2))
    rw [dropNilColumns_cons]
    cases hall : kv.2.all (fun s => s.Value.isNil) with
    | true =>
      simp only [if_true]
      rw [ih, iter_cons, SqlCheck_append]
      have hnone : f.SqlCheck (kv.2.map (fun s => (kv.1, s))) = none := by
        rw [SqlCheck_eq_none]
        intro ks hks
        obtain ⟨s, hs, rfl⟩ := List.mem_map.1 hks
        exact hreg kv (List.mem_cons_self _ _) hall s hs
      rw [hnone]
    | false =>
      simp only [Bool.false_eq_true, if_false]
      rw [iter_cons, iter_cons, SqlCheck_append, SqlCheck_append, ih]


theorem renderPieces_append (ph : placeholder.Placeholder) (a b : List Piece) :
    renderPieces ph (a ++ b) = renderPieces ph a ++ renderPieces ph b := by
  induction a with
  | nil => simp [renderPieces]
  | cons p ps ih => simp [renderPieces, ih, String.append_assoc]

theorem slotsOf_append (a b : List Piece) : slotsOf (a ++ b) = slotsOf a ++ slotsOf b := by
  induction a with
  | nil => rfl
  | cons p ps ih => cases p <;> simp [slotsOf, ih]

theorem intercalate_go_append (s x y : String) (l : List String) :
    String.intercalate.go (x ++ y) s l = x ++ String.intercalate.go y s l := by
  induction l generalizing y with
  | nil => rfl
  | cons a rest ih =>
    simp only [String.intercalate.go]
    rw [String.append_assoc, String.append_assoc, ih, String.append_assoc]

theorem intercalate_cons_cons (s a b : String) (l : List String) :
    s.intercalate (a :: b :: l) = a ++ s ++ s.intercalate (b :: l) := by
  simp only [String.intercalate, String.intercalate.go]
  rw [String.append_assoc, String.append_assoc, intercalate_go_append, intercalate_go_append]

theorem renderPieces_commaPieces (ph : placeholder.Placeholder) (l : List Int) :
    renderPieces ph (commaPieces l) = ",".intercalate (l.map ph.Get) := by
  induction l with
  | nil => rfl
  | cons i rest ih =>
    cases rest with
    | nil => simp [commaPieces, renderPieces, Piece.render, String.intercalate,
        String.intercalate.go]
    | cons j rest2 =>
      rw [List.map_cons, List.map_cons, intercalate_cons_cons, ← List.map_cons, ← ih]
      simp [commaPieces, renderPieces, Piece.render, String.append_assoc]

theorem slotsOf_commaPieces (l : List Int) : slotsOf (commaPieces l) = l := by
  induction l with
  | nil => rfl
  | cons i rest ih =>
    cases rest with
    | nil => rfl
    | cons j rest2 =>
      simp only [commaPieces, slotsOf] at ih ⊢
      rw [ih]

theorem Builtin_apply_eq (b : Builtin) (col : String) (total idx : Int)
    (ph : placeholder.Placeholder) :
    b.toFilter.Apply col total idx ph = renderPieces ph (b.pieces col total idx) := by
  cases b with
  | inSet =>
    simp only [Builtin.toFilter, Builtin.pieces, filters.InFilter, renderPieces, Piece.render,
      renderPieces_append, renderPieces_commaPieces, Builtin.slots, List.map_map,
      String.append_assoc, String.append_empty]
    rfl
  | _ =>
    simp [Builtin.toFilter, Builtin.pieces, filters.ValueFilter, filters.MutatedValueFilter,
      filters.BetweenFilter, filters.PatternMatchFilter,
      filters.DateAfterFilter, filters.DateBeforeFilter, filters.DateIsFilter,
      filters.DateIsNotFilter, renderPieces, Piece.render, String.append_assoc]

theorem Builtin_slotsOf_pieces (b : Builtin) (col : String) (total idx : Int) :
    slotsOf (b.pieces col total idx) = b.slots total idx := by
  cases b <;> simp [Builtin.pieces, slotsOf, Builtin.slots, slotsOf_append, slotsOf_commaPieces]

theorem Builtin_enrich_ok (b : Builtin) (v : Value) : (b.toFilter.EnrichValue v).2 = none := by
  cases b <;>
    simp [Builtin.toFilter, filters.ValueFilter, filters.MutatedValueFilter,
      filters.BetweenFilter, filters.InFilter, filters.PatternMatchFilter,
      filters.DateAfterFilter, filters.DateBeforeFilter, filters.DateIsFilter,
      filters.DateIsNotFilter]
  split <;> rfl


theorem fragment_eq_render (f : Filter) (reg : filter.MatchMode → Option Builtin)
    (hb : f.BuiltinOnly reg) (col : String) (total idx : Int) (s : filter.Spec) :
    f.fragment col total idx s =
      renderPieces f.placeholder (specPieces reg col total idx s) := by
  unfold Filter.fragment specPieces
  rw [hb s.MatchMode]
  cases reg s.MatchMode with
  | none => rfl
  | some b => exact Builtin_apply_eq b col total idx f.placeholder

theorem joinWithOperators_render (ph : placeholder.Placeholder)
    (l : List (String × List Piece)) :
    joinWithOperators (l.map (fun q => (q.1, renderPieces ph q.2))) =
      renderPieces ph (joinPiecesWithOperators l) := by
  induction l with
  | nil => rfl
  | cons a rest ih =>
    obtain ⟨opr, c⟩ := a
    cases rest with
    | nil => rfl
    | cons b rest2 =>
      obtain ⟨o2, c2⟩ := b
      simp only [List.map_cons, joinWithOperators, joinPiecesWithOperators] at ih ⊢
      rw [ih]
      simp only [renderPieces_append, renderPieces, Piece.render, String.append_assoc]

theorem columnGroup_eq_render (f : Filter) (reg : filter.MatchMode → Option Builtin)
    (hb : f.BuiltinOnly reg) (col : String) (specs : List filter.Spec) (n : Nat)
    (hreg : ∀ s ∈ specs, (f.filters s.MatchMode).isSome = true) :
    f.columnGroup col specs n = renderPieces f.placeholder (f.columnPieces reg col specs n) := by
  rw [columnGroup_eq f col specs n hreg]
  have hfr : f.columnFragments col specs n =
      ((nonNilSpecs specs).enum.map (fun p =>
        (p.2.Operator,
          specPieces reg col (f.columnValues specs).length (f.slotIndex n p.1) p.2))).map
        (fun q => (q.1, renderPieces f.placeholder q.2)) := by
    unfold Filter.columnFragments
    rw [List.map_map]
    apply List.map_congr_left
    intro p _
    simp only [Function.comp, fragment_eq_render f reg hb]
  rw [hfr, joinWithOperators_render]
  simp only [Filter.columnPieces, renderPieces, renderPieces_append, Piece.render,
    String.append_assoc, String.append_empty]

theorem groupsFrom_eq_render (f : Filter) (reg : filter.MatchMode → Option Builtin)
    (hb : f.BuiltinOnly reg) (specs : Specs) (hreg : f.AllRegistered specs) (n : Nat) :
    f.groupsFrom specs n =
      (f.groupPiecesFrom reg specs n).map (renderPieces f.placeholder) := by
  induction specs generalizing n with
  | nil => rfl
  | cons kv rest ih =>
    obtain ⟨hcol, hrest⟩ := (AllRegistered_cons f kv rest).1 hreg
    cases hne : (nonNilSpecs kv.2).isEmpty with
    | true => simp only [Filter.groupsFrom, Filter.groupPiecesFrom, hne, if_true, ih hrest]
    | false =>
      simp only [Filter.groupsFrom, Filter.groupPiecesFrom, hne, Bool.false_eq_true, if_false,
        ih hrest, List.map_cons, columnGroup_eq_render f reg hb kv.1 kv.2 n hcol]

theorem intercalate_render (ph : placeholder.Placeholder) (gs : List (List Piece)) :
    " and ".intercalate (gs.map (renderPieces ph)) = renderPieces ph (joinGroups gs) := by
  induction gs with
  | nil => rfl
  | cons g rest ih =>
    cases rest with
    | nil => rfl
    | cons g2 rest2 =>
      rw [List.map_cons, List.map_cons, intercalate_cons_cons, ← List.map_cons, ih]
      simp only [joinGroups, renderPieces_append, renderPieces, Piece.render,
        String.append_assoc]

theorem firstError_builtin (f : Filter) (reg : filter.MatchMode → Option Builtin)
    (hb : f.BuiltinOnly reg) (specs : Specs) : f.firstError specs = none := by
  rw [firstError_eq_none_iff]
  intro ks _ _
  unfold Filter.enrichError
  rw [hb ks.2.MatchMode]
  cases reg ks.2.MatchMode with
  | none => rfl
  | some b => exact Builtin_enrich_ok b ks.2.Value

/-- What `Sql` returns on success when only built-in filters are registered. -/
theorem Sql_builtin (f : Filter) (reg : filter.MatchMode → Option Builtin)
    (hb : f.BuiltinOnly reg) (specs : Specs) (vals : List Value) (cond : String)
    (h : f.Sql specs = some (vals, cond, none)) :
    f.AllRegistered specs ∧ vals = f.expectedValues specs ∧
      cond = renderPieces f.placeholder (f.conditionPieces reg specs) := by
  obtain ⟨hreg, hfe⟩ := Sql_success f specs vals cond h
  rw [Sql_of_registered f specs hreg, hfe] at h
  simp only [Option.some.injEq, Prod.mk.injEq, and_true] at h
  refine ⟨hreg, h.1.symm, ?_⟩
  rw [← h.2, groupsFrom_eq_render f reg hb specs hreg 0, intercalate_render]
  rfl

theorem slotsOf_joinPiecesWithOperators (l : List (String × List Piece)) :
    slotsOf (joinPiecesWithOperators l) = l.flatMap (fun q => slotsOf q.2) := by
  induction l with
  | nil => rfl
  | cons a rest ih =>
    obtain ⟨opr, c⟩ := a
    cases rest with
    | nil => simp [joinPiecesWithOperators]
    | cons b rest2 =>
      obtain ⟨o2, c2⟩ := b
      simp only [joinPiecesWithOperators, slotsOf_append, slotsOf, List.flatMap_cons] at ih ⊢
      rw [ih]

theorem slotsOf_joinGroups (gs : List (List Piece)) :
    slotsOf (joinGroups gs) = gs.flatMap slotsOf := by
  induction gs with
  | nil => rfl
  | cons g rest ih =>
    cases rest with
    | nil => simp [joinGroups]
    | cons g2 rest2 =>
      simp only [joinGroups, slotsOf_append, slotsOf, List.flatMap_cons] at ih ⊢
      rw [ih]

theorem slotsOf_columnPieces (f : Filter) (reg : filter.MatchMode → Option Builtin)
    (col : String) (specs : List filter.Spec) (n : Nat) :
    slotsOf (f.columnPieces reg col specs n) =
      (nonNilSpecs specs).enum.flatMap (fun p =>
        slotsOf (specPieces reg col (f.columnValues specs).length (f.slotIndex n p.1) p.2)) := by
  unfold Filter.columnPieces
  rw [slotsOf, slotsOf_append, slotsOf_joinPiecesWithOperators, List.flatMap_map]
  simp [slotsOf]

theorem sum_map_eq_length {α : Type} (l : List α) (g : α → Nat) (h : ∀ a ∈ l, g a = 1) :
    (l.map g).sum = l.length := by
  induction l with
  | nil => rfl
  | cons a rest ih =>
    rw [List.map_cons, List.sum_cons, h a (List.mem_cons_self _ _),
      ih (fun b hb => h b (List.mem_cons_of_mem _ hb)), List.length_cons]
    omega

theorem columnValues_length (f : Filter) (specs : List filter.Spec) :
    (f.columnValues specs).length =
      ((nonNilSpecs specs).map (fun s => (f.enriched s).boundCount)).sum := by
  unfold Filter.columnValues
  rw [List.length_flatMap]
  congr 1
  apply List.map_congr_left
  intro s _
  exact spliced_length _

theorem slotIndex_numbered (f : Filter) (hn : f.placeholder.Numbered = true) (n i : Nat) :
    f.slotIndex n i = Int.ofNat (n + 1 + i) := by
  unfold Filter.slotIndex
  rw [hn]
  simp

theorem slots_single (reg : filter.MatchMode → Option Builtin) (col : String) (total idx : Int)
    (s : filter.Spec) (b : Builtin) (hr : reg s.MatchMode = some b)
    (hs : b.singleSlot = true) : slotsOf (specPieces reg col total idx s) = [idx] := by
  unfold specPieces
  rw [hr]
  simp only [Builtin_slotsOf_pieces]
  cases b <;> first | rfl | exact absurd hs (by decide)

theorem slots_enumFrom_single (f : Filter) (reg : filter.MatchMode → Option Builtin)
    (hn : f.placeholder.Numbered = true) (col : String) (total : Int) (n : Nat)
    (l : List filter.Spec)
    (h : ∀ s ∈ l, ∃ b, reg s.MatchMode = some b ∧ b.singleSlot = true) (k : Nat) :
    (l.enumFrom k).flatMap (fun p => slotsOf (specPieces reg col total (f.slotIndex n p.1) p.2)) =
      (List.range' (n + 1 + k) l.length).map Int.ofNat := by
  induction l generalizing k with
  | nil => rfl
  | cons s rest ih =>
    obtain ⟨b, hr, hs⟩ := h s (List.mem_cons_self _ _)
    rw [List.enumFrom_cons, List.flatMap_cons, slots_single reg col total _ s b hr hs,
      ih (fun t ht => h t (List.mem_cons_of_mem _ ht)) (k + 1), slotIndex_numbered f hn,
      List.length_cons, List.range'_succ, List.map_cons]
    rfl

theorem slotsOf_columnPieces_wellShaped (f : Filter) (reg : filter.MatchMode → Option Builtin)
    (hn : f.placeholder.Numbered = true) (col : String) (specs : List filter.Spec) (n : Nat)
    (hw : f.WellShaped reg specs) :
    slotsOf (f.columnPieces reg col specs n) =
      (List.range' (n + 1) (f.columnValues specs).length).map Int.ofNat := by
  rw [slotsOf_columnPieces]
  rcases hw with ha | ⟨s, hs, hb⟩
  · have hlen : (f.columnValues specs).length = (nonNilSpecs specs).length := by
      rw [columnValues_length]
      apply sum_map_eq_length
      intro s hs
      obtain ⟨b, -, -, h1⟩ := ha s hs
      exact h1
    rw [hlen]
    exact slots_enumFrom_single f reg hn col _ n (nonNilSpecs specs)
      (fun s hs => by
        obtain ⟨b, h1, h2, -⟩ := ha s hs
        exact ⟨b, h1, h2⟩) 0
  · have hlen : (f.columnValues specs).length = (f.enriched s).boundCount := by
      rw [columnValues_length, hs]
      simp
    rw [hs, hlen]
    simp only [List.enum_cons, List.enumFrom_nil, List.flatMap_cons, List.flatMap_nil,
      List.append_nil, specPieces, slotIndex_numbered f hn]
    rcases hb with ⟨hr, h2⟩ | hr
    · rw [hr, h2]
      simp only [Builtin_slotsOf_pieces, Builtin.slots]
      rfl
    · rw [hr]
      simp only [Builtin_slotsOf_pieces, Builtin.slots, Int.toNat_ofNat]
      rw [List.range'_eq_map_range, List.map_map]
      apply List.map_congr_left
      intro i _
      simp only [Function.comp, Int.ofNat_eq_coe]
      omega

theorem tokens_from_wellShaped (f : Filter) (reg : filter.MatchMode → Option Builtin)
    (hn : f.placeholder.Numbered = true) (specs : Specs)
    (hw : ∀ kv ∈ specs, f.WellShaped reg kv.2) (n : Nat) :
    (f.groupPiecesFrom reg specs n).flatMap slotsOf =
      (List.range' (n + 1) (f.expectedValues specs).length).map Int.ofNat := by
  induction specs generalizing n with
  | nil => rfl
  | cons kv rest ih =>
    have hrest : ∀ kv2 ∈ rest, f.WellShaped reg kv2.2 :=
      fun kv2 h2 => hw kv2 (List.mem_cons_of_mem _ h2)
    have hev : (f.expectedValues (kv :: rest)).length =
        (f.columnValues kv.2).length + (f.expectedValues rest).length := by
      simp [Filter.expectedValues]
    cases hne : (nonNilSpecs kv.2).isEmpty with
    | true =>
      have hnil : nonNilSpecs kv.2 = [] := List.isEmpty_iff.1 hne
      rw [hev, columnValues_of_nonNil_nil f kv.2 hnil]
      simp only [Filter.groupPiecesFrom, hne, if_true, ih hrest, List.length_nil, Nat.zero_add]
    | false =>
      simp only [Filter.groupPiecesFrom, hne, Bool.false_eq_true, if_false, List.flatMap_cons]
      rw [ih hrest, slotsOf_columnPieces_wellShaped f reg hn kv.1 kv.2 n
        (hw kv (List.mem_cons_self _ _)), hev, ← List.map_append]
      congr 1
      have hs : n + (f.columnValues kv.2).length + 1 = n + 1 + (f.columnValues kv.2).length := by
        omega
      rw [hs, List.range'_append_1]
      congr 1
      omega


/-! ## Claims about `Sql` -/

/-- C1: if some Spec of some column, nil-valued or not, has a match mode without a
registered Filter, then `Sql` returns the error "match mode not registered [m]" for such a
mode `m`, with no values and the empty condition; and it does so without calling
`EnrichValue` or `Apply`: every registry with the same registered modes, whatever its
filters, placeholder and validators are, returns the same. -/
theorem Sql_unregistered_match_mode (f : Filter) (specs : Specs)
    (h : ∃ ks ∈ specs.iter, f.filters ks.2.MatchMode = none) :
    ∃ ks ∈ specs.iter, f.filters ks.2.MatchMode = none ∧
      f.Sql specs =
        some ([], "", some ("match mode not registered [" ++ ks.2.MatchMode ++ "]")) ∧
      ∀ g : Filter, (∀ m, (g.filters m).isSome = (f.filters m).isSome) →
        g.Sql specs = f.Sql specs := by
  have key : ∀ g : Filter, (∀ m, (g.filters m).isSome = (f.filters m).isSome) →
      ∀ l : List (String × filter.Spec), g.SqlCheck l = f.SqlCheck l := by
    intro g hg l
    induction l with
    | nil => rfl
    | cons a rest ih =>
      obtain ⟨k, s⟩ := a
      have hm := hg s.MatchMode
      cases hf : f.filters s.MatchMode with
      | none =>
        rw [hf] at hm
        cases hgm : g.filters s.MatchMode with
        | none => simp [Filter.SqlCheck, hf, hgm]
        | some flt => simp [hgm] at hm
      | some flt =>
        rw [hf] at hm
        cases hgm : g.filters s.MatchMode with
        | none => simp [hgm] at hm
        | some flt2 => simp [Filter.SqlCheck, hf, hgm, ih]
  cases hc : f.SqlCheck specs.iter with
  | none =>
    obtain ⟨ks, hks, hn⟩ := h
    have := (SqlCheck_eq_none f specs.iter).1 hc ks hks
    rw [hn] at this
    exact absurd this (by simp)
  | some e =>
    obtain ⟨ks, hks, hn, he⟩ := SqlCheck_eq_some f specs.iter e hc
    refine ⟨ks, hks, hn, ?_, ?_⟩
    · simp [Filter.Sql, hc, he]
    · intro g hg
      simp [Filter.Sql, key g hg, hc]

/-- C1, on the Specs `x: [(1, "unknown")]` and a registry that knows only "equals". -/
theorem Sql_unregistered_match_mode_witness :
    equalsFilter.Sql [("x", [filter.Spec.mk (Value.int 1) "unknown" ""])] =
      some ([], "", some "match mode not registered [unknown]") := by
  obtain ⟨ks, hks, -, hsql, -⟩ := Sql_unregistered_match_mode equalsFilter
    [("x", [filter.Spec.mk (Value.int 1) "unknown" ""])] ⟨_, List.mem_cons_self _ _, rfl⟩
  rw [hsql]
  simp only [Specs.iter, List.flatMap_cons, List.map_cons, List.map_nil, List.flatMap_nil,
    List.append_nil, List.mem_singleton] at hks
  subst hks
  rfl

/-- C2: when every match mode is registered and every `EnrichValue` succeeds, `Sql` returns
no error and its values are the concatenation, over the non-nil-valued Specs in iteration
order (columns in order, Specs in order within a column), of the enriched value, a sequence
spliced element by element and any other value as one element; so their number is the sum
over these Specs of the length of a sequence and of one for any other value. -/
theorem Sql_values_flattened (f : Filter) (specs : Specs) (hreg : f.AllRegistered specs)
    (hen : ∀ ks ∈ specs.iter, ks.2.Value.isNil = false → f.enrichError ks.2 = none) :
    ∃ vals condition, f.Sql specs = some (vals, condition, none) ∧
      vals = (specs.iter.filter (fun ks => !ks.2.Value.isNil)).flatMap
        (fun ks => (f.enriched ks.2).spliced) ∧
      vals.length = ((specs.iter.filter (fun ks => !ks.2.Value.isNil)).map
        (fun ks => (f.enriched ks.2).boundCount)).sum := by
  have hfe := (firstError_eq_none_iff f specs).2 hen
  have hsql := Sql_of_registered f specs hreg
  rw [hfe] at hsql
  refine ⟨_, _, hsql, expectedValues_eq_iter f specs, ?_⟩
  rw [expectedValues_eq_iter, List.length_flatMap]
  congr 2
  funext ks
  exact spliced_length _

/-- C2, on the registry and Specs of `TestSqlWithMultiValuedValue`: the values are
`[18, 23]`. -/
theorem Sql_values_flattened_witness :
    ∃ condition, testBetweenFilter.Sql testBetweenSpecs =
      some ([Value.int 18, Value.int 23], condition, none) := by
  obtain ⟨vals, condition, hsql, hvals, -⟩ := Sql_values_flattened testBetweenFilter
    testBetweenSpecs
    (by intro ks hks
        simp only [testBetweenSpecs, Specs.iter, List.flatMap_cons, List.map_cons, List.map_nil,
          List.flatMap_nil, List.append_nil, List.mem_singleton] at hks
        subst hks
        rfl)
    (by intro ks hks _
        simp only [testBetweenSpecs, Specs.iter, List.flatMap_cons, List.map_cons, List.map_nil,
          List.flatMap_nil, List.append_nil, List.mem_singleton] at hks
        subst hks
        rfl)
  refine ⟨condition, ?_⟩
  rw [hsql, hvals]
  rfl


/-- C4: the code does not number the tokens by value position. With built-in filters and the
placeholder "$", the Specs `age: [([18, 23], "between"), (5, "equals")]` make `Sql` succeed
with the three values `[18, 23, 5]` and the condition
"((age BETWEEN $1 AND $2) and (age = $2))": its tokens are $1, $2, $2, so the token $2
stands for two values and no token stands for the third, while the claim requires
$1, $2, $3. -/
theorem numbered_tokens_repeat :
    (builtinRegistry (placeholder.Numbered "$") testBuiltins).Sql betweenThenEqualsSpecs =
        some ([Value.int 18, Value.int 23, Value.int 5],
          "((age BETWEEN $1 AND $2) and (age = $2))", none) ∧
      (builtinRegistry (placeholder.Numbered "$") testBuiltins).placeholderTokens
        testBuiltins betweenThenEqualsSpecs = [1, 2, 2] ∧
      ¬ ∀ (f : Filter) (reg : filter.MatchMode → Option Builtin) (specs : Specs)
          (vals : List Value) (cond p : String),
          f.BuiltinOnly reg → f.placeholder = placeholder.Numbered p →
            f.Sql specs = some (vals, cond, none) →
              f.placeholderTokens reg specs = (List.range' 1 vals.length).map Int.ofNat := by
  refine ⟨rfl, rfl, fun h => ?_⟩
  have h1 := h (builtinRegistry (placeholder.Numbered "$") testBuiltins) testBuiltins
    betweenThenEqualsSpecs [Value.int 18, Value.int 23, Value.int 5]
    "((age BETWEEN $1 AND $2) and (age = $2))" "$" (fun _ => rfl) rfl rfl
  have h2 : (builtinRegistry (placeholder.Numbered "$") testBuiltins).placeholderTokens
      testBuiltins betweenThenEqualsSpecs = [1, 2, 2] := rfl
  rw [h2] at h1
  exact absurd h1 (by decide)

/-- Under a Numbered placeholder with prefix `p` and built-in filters, when `Sql` succeeds
on Specs in which every column is well shaped (only single-slot filters, each with an
enriched value contributing one bound value; or one non-nil Spec, a `BetweenFilter` with two
bound values or an `InFilter`), the condition is the rendering of its pieces and its
placeholder tokens, left to right, are `p1, p2, ..., pn` with `n = len(values)`. -/
theorem Sql_numbered_tokens (f : Filter) (reg : filter.MatchMode → Option Builtin)
    (specs : Specs) (vals : List Value) (cond p : String) (hb : f.BuiltinOnly reg)
    (hp : f.placeholder = placeholder.Numbered p)
    (h : f.Sql specs = some (vals, cond, none))
    (hshape : ∀ kv ∈ specs, f.WellShaped reg kv.2) :
    cond = renderPieces (placeholder.Numbered p) (f.conditionPieces reg specs) ∧
      f.placeholderTokens reg specs = (List.range' 1 vals.length).map Int.ofNat ∧
      (f.placeholderTokens reg specs).map (placeholder.Numbered p).Get =
        (List.range' 1 vals.length).map (fun i => p ++ toString i) := by
  obtain ⟨-, hvals, hcond⟩ := Sql_builtin f reg hb specs vals cond h
  have hn : f.placeholder.Numbered = true := by
    rw [hp]
    rfl
  have htok : f.placeholderTokens reg specs = (List.range' 1 vals.length).map Int.ofNat := by
    unfold Filter.placeholderTokens Filter.conditionPieces
    rw [slotsOf_joinGroups, tokens_from_wellShaped f reg hn specs hshape 0, hvals]
  refine ⟨?_, htok, ?_⟩
  · rw [← hp]
    exact hcond
  · rw [htok, List.map_map]
    rfl


/-- C5: for a column with at least one non-nil-valued Spec (match modes registered,
enrichment succeeding), the group rendered for it, whatever the number `n` of values bound
before it, is "(" followed by the fragments of its non-nil Specs in order and ")", where the
Operator of a Spec stands between blanks after its fragment if another fragment follows and
the Operator of the last Spec is not written; and on the Specs made of this column alone
`Sql` returns this group as the condition. -/
theorem column_group_rendering (f : Filter) (col : String) (specs : List filter.Spec)
    (hreg : ∀ s ∈ specs, (f.filters s.MatchMode).isSome = true)
    (hen : ∀ s ∈ specs, s.Value.isNil = false → f.enrichError s = none)
    (hk : 1 ≤ (nonNilSpecs specs).length) :
    (∀ n : Nat, f.columnGroup col specs n =
        "(" ++ joinWithOperators (f.columnFragments col specs n) ++ ")") ∧
      (f.columnFragments col specs 0).length = (nonNilSpecs specs).length ∧
      f.Sql [(col, specs)] =
        some (f.columnValues specs,
          "(" ++ joinWithOperators (f.columnFragments col specs 0) ++ ")", none) := by
  refine ⟨fun n => columnGroup_eq f col specs n hreg, by simp [Filter.columnFragments], ?_⟩
  have hall : f.AllRegistered [(col, specs)] := by
    rw [AllRegistered_cons]
    exact ⟨hreg, fun ks hks => by simp [Specs.iter] at hks⟩
  have hfe : f.firstError [(col, specs)] = none := by
    rw [firstError_eq_none_iff]
    intro ks hks hn
    rw [mem_iter] at hks
    obtain ⟨kv, hkv, -, h2⟩ := hks
    rw [List.mem_singleton] at hkv
    subst hkv
    exact hen ks.2 h2 hn
  have hne : (nonNilSpecs specs).isEmpty = false := by
    cases hl : nonNilSpecs specs with
    | nil => simp [hl] at hk
    | cons a l => rfl
  rw [Sql_of_registered f _ hall, hfe]
  simp only [Filter.expectedValues, Filter.groupsFrom, hne, List.flatMap_cons, List.flatMap_nil,
    List.append_nil, Bool.false_eq_true, if_false]
  rw [columnGroup_eq f col specs 0 hreg]
  rfl

/-- C5, on the registries and Specs of `TestSql` and `TestSqlWithNumberedPlaceholder`. -/
theorem column_group_rendering_witness :
    testSqlFilter.Sql testSqlSpecs =
        some ([Value.str "James%", Value.str "%Butt"],
          "((name LIKE ?) and (name LIKE ?))", none) ∧
      testNumberedFilter.Sql testNumberedSpecs =
        some ([Value.str "Alice%", Value.str "%Smith%"],
          "((name LIKE $1) or (name LIKE $2))", none) :=
  ⟨(column_group_rendering testSqlFilter "name"
      [filter.Spec.mk (Value.str "James") "startsWith" "and",
        filter.Spec.mk (Value.str "Butt") "endsWith" "and"]
      (by decide) (by decide) (by decide)).2.2.trans rfl,
    (column_group_rendering testNumberedFilter "name"
      [filter.Spec.mk (Value.str "Alice") "startsWith" "or",
        filter.Spec.mk (Value.str "Smith") "contains" "or"]
      (by decide) (by decide) (by decide)).2.2.trans rfl⟩

/-- C6: when `Sql` succeeds, the condition is the groups of the columns that have at least
one non-nil-valued Spec, in iteration order, joined with " and " (the Operators of the Specs
play no part in this join); when there is one such group the condition is that group. -/
theorem Sql_condition_joins_groups (f : Filter) (specs : Specs) (vals : List Value)
    (cond : String) (h : f.Sql specs = some (vals, cond, none)) :
    cond = " and ".intercalate (f.groupsFrom specs 0) ∧
      ∀ g, f.groupsFrom specs 0 = [g] → cond = g := by
  obtain ⟨hreg, hfe⟩ := Sql_success f specs vals cond h
  rw [Sql_of_registered f specs hreg, hfe] at h
  simp only [Option.some.injEq, Prod.mk.injEq, and_true] at h
  have hc : cond = " and ".intercalate (f.groupsFrom specs 0) := h.2.symm
  refine ⟨hc, fun g hg => ?_⟩
  rw [hc, hg]
  rfl

/-- C6, on the registry and Specs of `TestSqlWithMultipleSpecs`: two groups, the first
joined inside with its own Operator, and " and " between the groups. -/
theorem Sql_condition_joins_groups_witness :
    testMultipleFilter.Sql testMultipleSpecs =
        some ([Value.str "James%", Value.str "%Butt", Value.int 18, Value.int 23],
          "((name LIKE ?) and (name LIKE ?)) and ((age BETWEEN ? AND ?))", none) ∧
      "((name LIKE ?) and (name LIKE ?)) and ((age BETWEEN ? AND ?))" =
        " and ".intercalate (testMultipleFilter.groupsFrom testMultipleSpecs 0) :=
  ⟨rfl, (Sql_condition_joins_groups testMultipleFilter testMultipleSpecs
    [Value.str "James%", Value.str "%Butt", Value.int 18, Value.int 23]
    "((name LIKE ?) and (name LIKE ?)) and ((age BETWEEN ? AND ?))" rfl).1⟩

/-- C7, the code on a failing input: with column "a" visited before column "b", whose
Filter rejects the value, `Sql` returns the error and the empty condition, but the value
bound for "a" is returned too. -/
theorem Sql_enrich_error_keeps_values :
    rejectingRegistry.Sql
        [("a", [filter.Spec.mk (Value.int 1) "equals" "and"]),
         ("b", [filter.Spec.mk (Value.int 2) "checked" "and"])] =
      some ([Value.int 1], "", some "value rejected") := rfl

/-- C8: when every match mode is registered, `Sql` returns the same values, condition and
error on the Specs from which the nil-valued Specs have been deleted in every column. -/
theorem Sql_nil_specs_deleted (f : Filter) (specs : Specs) (hreg : f.AllRegistered specs) :
    f.Sql (specs.map (fun kv => (kv.1, nonNilSpecs kv.2))) = f.Sql specs := by
  have hreg2 : f.AllRegistered (specs.map (fun kv => (kv.1, nonNilSpecs kv.2))) := by
    intro ks hks
    rw [mem_iter] at hks
    obtain ⟨kv2, hkv2, h1, h2⟩ := hks
    obtain ⟨kv, hkv, rfl⟩ := List.mem_map.1 hkv2
    exact hreg ks ((mem_iter specs ks).2 ⟨kv, hkv, h1, List.mem_of_mem_filter h2⟩)
  unfold Filter.Sql
  rw [(SqlCheck_eq_none f _).2 hreg, (SqlCheck_eq_none f _).2 hreg2, conditionsIter_nonNil]

/-- C8, on the Specs `x: [(nil, "equals")]` with "equals" registered: no values, the empty
condition, no error. -/
theorem Sql_nil_specs_deleted_witness :
    equalsFilter.Sql [("x", [filter.Spec.mk Value.null "equals" ""])] = some ([], "", none) :=
  (Sql_nil_specs_deleted equalsFilter [("x", [filter.Spec.mk Value.null "equals" ""])]
    (by unfold Filter.AllRegistered; decide)).symm.trans rfl

/-- C9 as stated fails: on a registry that knows only "equals", the Specs
`x: [(nil, "unknown")]`, whose only column has only a nil-valued Spec, make `Sql` fail with
"match mode not registered [unknown]", while without the column `Sql` succeeds. -/
theorem Sql_nil_column_not_absent :
    equalsFilter.Sql [("x", [filter.Spec.mk Value.null "unknown" ""])] =
        some ([], "", some "match mode not registered [unknown]") ∧
      equalsFilter.Sql (dropNilColumns [("x", [filter.Spec.mk Value.null "unknown" ""])]) =
        some ([], "", none) ∧
      ¬ ∀ (f : Filter) (specs : Specs), f.Sql (dropNilColumns specs) = f.Sql specs := by
  refine ⟨rfl, rfl, fun h => ?_⟩
  have h1 := h equalsFilter [("x", [filter.Spec.mk Value.null "unknown" ""])]
  have h2 : equalsFilter.Sql (dropNilColumns [("x", [filter.Spec.mk Value.null "unknown" ""])]) =
      some ([], "", none) := rfl
  have h3 : equalsFilter.Sql [("x", [filter.Spec.mk Value.null "unknown" ""])] =
      some ([], "", some "match mode not registered [unknown]") := rfl
  rw [h2, h3] at h1
  simp at h1

/-- C9 amended: a column whose Specs all have a nil Value and a registered match mode is
treated as an absent column: `Sql` returns the same values, condition and error with and
without these columns. -/
theorem Sql_nil_columns_dropped (f : Filter) (specs : Specs)
    (hreg : ∀ kv ∈ specs, kv.2.all (fun s => s.Value.isNil) = true →
      ∀ s ∈ kv.2, (f.filters s.MatchMode).isSome = true) :
    f.Sql (dropNilColumns specs) = f.Sql specs := by
  unfold Filter.Sql
  rw [SqlCheck_dropNilColumns f specs hreg, conditionsIter_dropNilColumns]

/-- C9 amended, on a Specs with an all-nil column "x" and a column "y". -/
theorem Sql_nil_columns_dropped_witness :
    equalsFilter.Sql [("y", [filter.Spec.mk (Value.int 1) "equals" "and"])] =
      equalsFilter.Sql [("x", [filter.Spec.mk Value.null "equals" "and"]),
        ("y", [filter.Spec.mk (Value.int 1) "equals" "and"])] :=
  Sql_nil_columns_dropped equalsFilter
    [("x", [filter.Spec.mk Value.null "equals" "and"]),
      ("y", [filter.Spec.mk (Value.int 1) "equals" "and"])]
    (by decide)

/-- C10: on the empty Specs, `Sql` of every registry returns no values, the empty condition
and no error. -/
theorem Sql_empty_specs (f : Filter) : f.Sql [] = some ([], "", none) := rfl


/-! ## Auxiliary lemmas on `ValidateColumns` -/

theorem ValidateColumnLoop_eq_none (l : List (String × Option String)) :
    Filter.ValidateColumnLoop l = none ↔ ∀ p ∈ l, p.2 = none := by
  induction l with
  | nil => simp [Filter.ValidateColumnLoop]
  | cons a rest ih =>
    obtain ⟨n, e⟩ := a
    cases e with
    | none => simp [Filter.ValidateColumnLoop, ih]
    | some msg => simp [Filter.ValidateColumnLoop]

theorem ValidateColumnLoop_Iter_eq_none (vs : column.Validators) (col : String) :
    Filter.ValidateColumnLoop (vs.Iter col) = none ↔ ∀ v ∈ vs, v.Validate col = none := by
  rw [ValidateColumnLoop_eq_none]
  unfold column.Validators.Iter
  constructor
  · intro h v hv
    exact h (v.Name, v.Validate col) (List.mem_map.2 ⟨v, hv, rfl⟩)
  · intro h p hp
    obtain ⟨v, hv, rfl⟩ := List.mem_map.1 hp
    exact h v hv

theorem ValidateColumnLoop_Iter_eq_some (vs : column.Validators) (col e : String)
    (h : Filter.ValidateColumnLoop (vs.Iter col) = some e) :
    ∃ pre v post msg, vs = pre ++ v :: post ∧ (∀ w ∈ pre, w.Validate col = none) ∧
      v.Validate col = some msg ∧ e = v.Name ++ ": " ++ msg := by
  induction vs with
  | nil => simp [column.Validators.Iter, Filter.ValidateColumnLoop] at h
  | cons v rest ih =>
    cases hv : v.Validate col with
    | some msg =>
      simp only [column.Validators.Iter, List.map_cons, hv, Filter.ValidateColumnLoop,
        Option.some.injEq] at h
      exact ⟨[], v, rest, msg, rfl, by simp, hv, h.symm⟩
    | none =>
      simp only [column.Validators.Iter, List.map_cons, hv, Filter.ValidateColumnLoop] at h
      obtain ⟨pre, w, post, msg, h1, h2, h3, h4⟩ := ih h
      refine ⟨v :: pre, w, post, msg, by rw [h1]; rfl, ?_, h3, h4⟩
      intro u hu
      rcases List.mem_cons.1 hu with rfl | hu
      · exact hv
      · exact h2 u hu

theorem ValidateColumnsLoop_eq_none (f : Filter) (l : List (String × filter.Spec)) :
    f.ValidateColumnsLoop l = none ↔
      ∀ ks ∈ l, ∀ v ∈ f.columnValidators, v.Validate ks.1 = none := by
  induction l with
  | nil => simp [Filter.ValidateColumnsLoop]
  | cons a rest ih =>
    obtain ⟨col, s⟩ := a
    cases hc : Filter.ValidateColumnLoop (f.columnValidators.Iter col) with
    | none =>
      have hacc := (ValidateColumnLoop_Iter_eq_none f.columnValidators col).1 hc
      simp only [Filter.ValidateColumnsLoop, hc, ih, List.mem_cons, forall_eq_or_imp]
      exact ⟨fun h => ⟨hacc, h⟩, fun h => h.2⟩
    | some e =>
      simp only [Filter.ValidateColumnsLoop, hc, List.mem_cons, forall_eq_or_imp, false_iff,
        reduceCtorEq]
      intro h
      rw [(ValidateColumnLoop_Iter_eq_none f.columnValidators col).2 h.1] at hc
      exact Option.noConfusion hc

theorem ValidateColumnsLoop_eq_some (f : Filter) (l : List (String × filter.Spec)) (e : String)
    (h : f.ValidateColumnsLoop l = some e) :
    ∃ l1 ks l2, l = l1 ++ ks :: l2 ∧
      (∀ ks1 ∈ l1, ∀ v ∈ f.columnValidators, v.Validate ks1.1 = none) ∧
      Filter.ValidateColumnLoop (f.columnValidators.Iter ks.1) = some e := by
  induction l with
  | nil => simp [Filter.ValidateColumnsLoop] at h
  | cons a rest ih =>
    obtain ⟨col, s⟩ := a
    cases hc : Filter.ValidateColumnLoop (f.columnValidators.Iter col) with
    | some e1 =>
      simp only [Filter.ValidateColumnsLoop, hc, Option.some.injEq] at h
      subst h
      exact ⟨[], (col, s), rest, rfl, by simp, hc⟩
    | none =>
      simp only [Filter.ValidateColumnsLoop, hc] at h
      obtain ⟨l1, ks, l2, h1, h2, h3⟩ := ih h
      refine ⟨(col, s) :: l1, ks, l2, by rw [h1]; rfl, ?_, h3⟩
      intro ks1 hks1
      rcases List.mem_cons.1 hks1 with rfl | hks1
      · exact (ValidateColumnLoop_Iter_eq_none f.columnValidators col).1 hc
      · exact h2 ks1 hks1

theorem ValidateColumns_eq_loop (f : Filter) (specs : Specs) :
    f.ValidateColumns specs = f.ValidateColumnsLoop specs.iter := by
  unfold Filter.ValidateColumns
  cases hv : f.columnValidators with
  | nil =>
    symm
    rw [ValidateColumnsLoop_eq_none, hv]
    intro ks _ v hv2
    exact absurd hv2 (List.not_mem_nil v)
  | cons v rest => rfl


/-! ## Claims about `ValidateColumns` and the validators -/

/-- What `ValidateColumns` decides: it returns the nil error exactly when every registered
validator accepts the column of every pair of `specs.iter()`, that is, every column that has
at least one Spec. -/
theorem ValidateColumns_eq_none_iff (f : Filter) (specs : Specs) :
    f.ValidateColumns specs = none ↔
      ∀ kv ∈ specs, kv.2 ≠ [] → ∀ v ∈ f.columnValidators, v.Validate kv.1 = none := by
  rw [ValidateColumns_eq_loop, ValidateColumnsLoop_eq_none]
  constructor
  · intro h kv hkv hne v hv
    obtain ⟨s, hs⟩ := List.exists_mem_of_ne_nil kv.2 hne
    exact h (kv.1, s) ((mem_iter specs (kv.1, s)).2 ⟨kv, hkv, rfl, hs⟩) v hv
  · intro h ks hks v hv
    obtain ⟨kv, hkv, h1, h2⟩ := (mem_iter specs ks).1 hks
    rw [h1]
    exact h kv hkv (List.ne_nil_of_mem h2) v hv

/-- C12, the code on a failing input: with `AllowedValidator{"name"}` registered, the column
key "invalidColumn" is rejected by the validator, and `ValidateColumns` returns the nil error
on the Specs in which this key maps to an empty Spec list. -/
theorem ValidateColumns_skips_empty_column :
    (column.AllowedValidator ["name"]).Validate "invalidColumn" =
        some "column [invalidColumn] is not allowed" ∧
      allowedNameRegistry.ValidateColumns [("invalidColumn", [])] = none :=
  ⟨by decide, rfl⟩

/-- C13: when `ValidateColumns` fails, the column `c` on which it fails is the column of a
pair of `specs.iter()` before which every pair has a column accepted by all validators, and
the error is `Name(v) ++ ": " ++ msg` where `v` is the first validator in registration order
that rejects `c`, with message `msg`; the validators after `v` play no part. -/
theorem ValidateColumns_error_message (f : Filter) (specs : Specs) (e : String)
    (h : f.ValidateColumns specs = some e) :
    ∃ l1 ks l2 pre v post msg, specs.iter = l1 ++ ks :: l2 ∧
      (∀ ks1 ∈ l1, ∀ w ∈ f.columnValidators, w.Validate ks1.1 = none) ∧
      f.columnValidators = pre ++ v :: post ∧
      (∀ w ∈ pre, w.Validate ks.1 = none) ∧
      v.Validate ks.1 = some msg ∧
      e = v.Name ++ ": " ++ msg := by
  rw [ValidateColumns_eq_loop] at h
  obtain ⟨l1, ks, l2, h1, h2, h3⟩ := ValidateColumnsLoop_eq_some f specs.iter e h
  obtain ⟨pre, v, post, msg, h4, h5, h6, h7⟩ :=
    ValidateColumnLoop_Iter_eq_some f.columnValidators ks.1 e h3
  exact ⟨l1, ks, l2, pre, v, post, msg, h1, h2, h4, h5, h6, h7⟩

/-- C13, on the registry and Specs of `TestValidateColumnsWithInvalidData`: the error is
"AllowedValidator: column [invalidColumn] is not allowed". -/
theorem ValidateColumns_error_message_witness :
    allowedNameRegistry.ValidateColumns invalidColumnSpecs =
        some "AllowedValidator: column [invalidColumn] is not allowed" ∧
      ∃ (v : column.Validator) (msg : String), v.Validate "invalidColumn" = some msg ∧
        "AllowedValidator: column [invalidColumn] is not allowed" = v.Name ++ ": " ++ msg := by
  refine ⟨rfl, ?_⟩
  obtain ⟨l1, ks, l2, pre, v, post, msg, h1, -, -, -, h6, h7⟩ :=
    ValidateColumns_error_message allowedNameRegistry invalidColumnSpecs
      "AllowedValidator: column [invalidColumn] is not allowed" rfl
  have hks : ks.1 = "invalidColumn" := by
    have hm : ks ∈ invalidColumnSpecs.iter := by
      rw [h1]
      simp
    simp only [invalidColumnSpecs, Specs.iter, List.flatMap_cons, List.map_cons, List.map_nil,
      List.flatMap_nil, List.append_nil, List.mem_singleton] at hm
    rw [hm]
  rw [hks] at h6
  exact ⟨v, msg, h6, h7⟩

/-- C14: when no validator is registered, `ValidateColumns` returns the nil error on every
Specs; this is the state after `New`, after `NewWithFilters`, and after
`NewWithFiltersAndValidators` with no validators (a nil and an empty list are both `[]`). -/
theorem ValidateColumns_without_validators (f : Filter) (specs : Specs)
    (h : f.columnValidators = []) :
    f.ValidateColumns specs = none ∧
      (∀ ph, (New ph).ValidateColumns specs = none) ∧
      (∀ ph filters, (NewWithFilters ph filters).ValidateColumns specs = none) ∧
      (∀ ph filters, (NewWithFiltersAndValidators ph filters []).ValidateColumns specs = none) := by
  refine ⟨?_, fun _ => rfl, fun _ _ => rfl, fun _ _ => rfl⟩
  unfold Filter.ValidateColumns
  rw [h]

/-- C14, on the registry of `TestSql`, which has no validators, and a column that no
validator would know. -/
theorem ValidateColumns_without_validators_witness :
    testSqlFilter.ValidateColumns invalidColumnSpecs = none :=
  (ValidateColumns_without_validators testSqlFilter invalidColumnSpecs rfl).1

/-- C17: `Validate(c)` of an `AllowedValidator` with list `L` returns the nil error if and
only if `c` is an element of `L`; otherwise it returns the error
"column [c] is not allowed"; `Name()` is "AllowedValidator". -/
theorem AllowedValidator_Validate (L : List String) (c : String) :
    ((column.AllowedValidator L).Validate c = none ↔ c ∈ L) ∧
      (c ∉ L → (column.AllowedValidator L).Validate c =
        some ("column [" ++ c ++ "] is not allowed")) ∧
      (column.AllowedValidator L).Name = "AllowedValidator" := by
  refine ⟨?_, ?_, rfl⟩
  · by_cases hc : c ∈ L
    · simp [column.AllowedValidator, hc]
    · simp [column.AllowedValidator, hc]
  · intro hc
    simp [column.AllowedValidator, hc]

/-- C17, on the list and columns of `TestAllowedValidator_Validate`: "age" is accepted and
"email" is rejected with "column [email] is not allowed". -/
theorem AllowedValidator_Validate_witness :
    (column.AllowedValidator ["name", "age", "address"]).Validate "age" = none ∧
      (column.AllowedValidator ["name", "age", "address"]).Validate "email" =
        some "column [email] is not allowed" :=
  ⟨(AllowedValidator_Validate ["name", "age", "address"] "age").1.2 (by decide),
    ((AllowedValidator_Validate ["name", "age", "address"] "email").2.1 (by decide)).trans rfl⟩


theorem SqlCheck_congr (f g : Filter) (hf : g.filters = f.filters)
    (l : List (String × filter.Spec)) : g.SqlCheck l = f.SqlCheck l := by
  induction l with
  | nil => rfl
  | cons a rest ih =>
    obtain ⟨k, s⟩ := a
    simp only [Filter.SqlCheck, hf, ih]

theorem enrichAndExtractLoop_congr (f g : Filter) (hf : g.filters = f.filters) (col : String)
    (specs : List filter.Spec) (values : List Value) (conditions : List filter.Condition) :
    g.enrichAndExtractLoop col specs values conditions =
      f.enrichAndExtractLoop col specs values conditions := by
  induction specs generalizing values conditions with
  | nil => rfl
  | cons s rest ih => simp only [Filter.enrichAndExtractLoop, hf, ih]

theorem conditionsIter_congr (f g : Filter) (hf : g.filters = f.filters) (specs : Specs) :
    g.conditionsIter specs = f.conditionsIter specs := by
  unfold Filter.conditionsIter Filter.enrichAndExtract
  simp only [enrichAndExtractLoop_congr f g hf]

theorem sqlIter_congr (f g : Filter) (hp : g.placeholder = f.placeholder) (total idx : Int)
    (conds : List filter.Condition) : g.sqlIter total idx conds = f.sqlIter total idx conds := by
  induction conds generalizing idx with
  | nil => rfl
  | cons c rest ih => simp only [Filter.sqlIter, hp, ih]

theorem SqlLoop_congr (f g : Filter) (hp : g.placeholder = f.placeholder)
    (l : List (Option (valuesConditionComposite × Option String))) (vals : List Value)
    (conds : List String) : g.SqlLoop l vals conds = f.SqlLoop l vals conds := by
  induction l generalizing vals conds with
  | nil => rfl
  | cons a rest ih =>
    cases a with
    | none => rfl
    | some p =>
      obtain ⟨vc, err⟩ := p
      cases err with
      | some e => rfl
      | none =>
        simp only [Filter.SqlLoop, Filter.buildSqlCondition, sqlIter_congr f g hp, ih]

theorem Sql_congr (f g : Filter) (hf : g.filters = f.filters)
    (hp : g.placeholder = f.placeholder) (specs : Specs) : g.Sql specs = f.Sql specs := by
  unfold Filter.Sql
  rw [SqlCheck_congr f g hf, conditionsIter_congr f g hf]
  cases f.SqlCheck specs.iter with
  | some e => rfl
  | none => exact SqlLoop_congr f g hp _ _ _

theorem ValidateColumnsLoop_congr (f g : Filter) (hv : g.columnValidators = f.columnValidators)
    (l : List (String × filter.Spec)) : g.ValidateColumnsLoop l = f.ValidateColumnsLoop l := by
  induction l with
  | nil => rfl
  | cons a rest ih =>
    obtain ⟨k, s⟩ := a
    simp only [Filter.ValidateColumnsLoop, hv, ih]

/-- C15: `Sql` and `ValidateColumns` are independent. Two registries with the same filters
and the same placeholder return the same from `Sql` whatever their validators are, and two
registries with the same validators return the same from `ValidateColumns` whatever their
filters and placeholders are. -/
theorem Sql_ValidateColumns_independent (f g : Filter) (specs : Specs) :
    (g.filters = f.filters → g.placeholder = f.placeholder → g.Sql specs = f.Sql specs) ∧
      (g.columnValidators = f.columnValidators →
        g.ValidateColumns specs = f.ValidateColumns specs) := by
  refine ⟨fun hf hp => Sql_congr f g hf hp specs, fun hv => ?_⟩
  rw [ValidateColumns_eq_loop, ValidateColumns_eq_loop, ValidateColumnsLoop_congr f g hv]

/-- C15, on the Specs of `TestValidateColumnsWithInvalidData`. `Sql` compiles the column
that `ValidateColumns` rejects, with and without the validator; and `ValidateColumns`
accepts the column "name" of the Specs of `TestSql` with the LIKE filters registered and
with no filter registered, where `Sql` fails. -/
theorem Sql_ValidateColumns_independent_witness :
    (testSqlFilter.RegisterColumnValidator (column.AllowedValidator ["name"])).Sql
        invalidColumnSpecs = testSqlFilter.Sql invalidColumnSpecs ∧
      testSqlFilter.Sql invalidColumnSpecs =
        some ([Value.str "James%"], "((invalidColumn LIKE ?))", none) ∧
      (testSqlFilter.RegisterColumnValidator (column.AllowedValidator ["name"])).ValidateColumns
        invalidColumnSpecs = some "AllowedValidator: column [invalidColumn] is not allowed" ∧
      (testSqlFilter.RegisterColumnValidator (column.AllowedValidator ["name"])).ValidateColumns
        testSqlSpecs = allowedNameRegistry.ValidateColumns testSqlSpecs ∧
      allowedNameRegistry.ValidateColumns testSqlSpecs = none ∧
      allowedNameRegistry.Sql testSqlSpecs =
        some ([], "", some "match mode not registered [startsWith]") :=
  ⟨(Sql_ValidateColumns_independent testSqlFilter
      (testSqlFilter.RegisterColumnValidator (column.AllowedValidator ["name"]))
      invalidColumnSpecs).1 rfl rfl,
    rfl, rfl,
    (Sql_ValidateColumns_independent allowedNameRegistry
      (testSqlFilter.RegisterColumnValidator (column.AllowedValidator ["name"]))
      testSqlSpecs).2 rfl,
    rfl, rfl⟩


/-! ## Claims about the placeholders and the filters -/

theorem toString_eq_decimal (n : Int) : toString n = decimal n := by
  cases n with
  | ofNat m =>
    have h : ¬ (Int.ofNat m < 0) := by simp
    simp only [decimal, h, if_false, Int.natAbs_ofNat]
    show Nat.repr m = "" ++ String.mk (Nat.toDigits 10 m)
    rw [String.empty_append]
    rfl
  | negSucc m =>
    have h : Int.negSucc m < 0 := Int.negSucc_lt_zero m
    simp only [decimal, h, if_true]
    rfl

/-- C18: for a Numbered placeholder with prefix `p` and every integer `n`, `Get(n)` is `p`
followed by the decimal numeral of `n`, and `Numbered()` is true; with "$", `Get(1)` is "$1"
and `Get(100)` is "$100". -/
theorem Numbered_Get (p : String) (n : Int) :
    (placeholder.Numbered p).Get n = p ++ decimal n ∧
      (placeholder.Numbered p).Numbered = true ∧
      (placeholder.Numbered "$").Get 1 = "$1" ∧
      (placeholder.Numbered "$").Get 100 = "$100" := by
  refine ⟨?_, rfl, by decide, by decide⟩
  show p ++ toString n = p ++ decimal n
  rw [toString_eq_decimal]

/-- C19: for an UnNumbered placeholder with token `t` and all integers `i` and `j`, `Get(i)`
and `Get(j)` are both `t`, and `Numbered()` is false. -/
theorem UnNumbered_Get (t : String) (i j : Int) :
    (placeholder.UnNumbered t).Get i = t ∧ (placeholder.UnNumbered t).Get j = t ∧
      (placeholder.UnNumbered t).Get i = (placeholder.UnNumbered t).Get j ∧
      (placeholder.UnNumbered t).Numbered = false :=
  ⟨rfl, rfl, rfl, rfl⟩

theorem wrapInt_of_isInt (x : Int) (h : runtime.IsInt x) : runtime.wrapInt x = x := by
  unfold runtime.IsInt runtime.MinInt runtime.MaxInt at h
  unfold runtime.wrapInt runtime.MinInt
  omega

theorem isInt_wrapInt (x : Int) : runtime.IsInt (runtime.wrapInt x) := by
  unfold runtime.IsInt runtime.wrapInt runtime.MinInt runtime.MaxInt
  omega

theorem wrapInt_wrapInt_add (a b : Int) :
    runtime.wrapInt (runtime.wrapInt a + b) = runtime.wrapInt (a + b) := by
  unfold runtime.wrapInt runtime.MinInt
  omega

/-- C20 as stated fails: at the largest `int` the sum `currentIndex+1` wraps around, so
`BetweenFilter.Apply("age", 0, MaxInt, "$")` names the slots 9223372036854775807 and
-9223372036854775808, not the slot 9223372036854775808 that follows the first. -/
theorem BetweenFilter_wraps_at_MaxInt :
    runtime.IsInt runtime.MaxInt ∧
      runtime.BetweenFilter.Apply "age" 0 runtime.MaxInt (placeholder.Numbered "$") =
        "(age BETWEEN $9223372036854775807 AND $-9223372036854775808)" ∧
      "(" ++ "age" ++ " BETWEEN " ++ (placeholder.Numbered "$").Get runtime.MaxInt ++ " AND " ++
          (placeholder.Numbered "$").Get (runtime.MaxInt + 1) ++ ")" =
        "(age BETWEEN $9223372036854775807 AND $9223372036854775808)" ∧
      runtime.BetweenFilter.Apply "age" 0 runtime.MaxInt (placeholder.Numbered "$") ≠
        "(" ++ "age" ++ " BETWEEN " ++ (placeholder.Numbered "$").Get runtime.MaxInt ++
          " AND " ++ (placeholder.Numbered "$").Get (runtime.MaxInt + 1) ++ ")" := by
  have h1 : runtime.BetweenFilter.Apply "age" 0 runtime.MaxInt (placeholder.Numbered "$") =
      "(age BETWEEN $9223372036854775807 AND $-9223372036854775808)" := rfl
  have h2 : "(" ++ "age" ++ " BETWEEN " ++ (placeholder.Numbered "$").Get runtime.MaxInt ++
      " AND " ++ (placeholder.Numbered "$").Get (runtime.MaxInt + 1) ++ ")" =
      "(age BETWEEN $9223372036854775807 AND $9223372036854775808)" := rfl
  refine ⟨⟨by decide, by decide⟩, h1, h2, ?_⟩
  rw [h1, h2]
  decide

/-- C20 amended: for every column, `totalArguments`, placeholder and every `int`
`currentIndex` `i`, `BetweenFilter.Apply` is "(" column " BETWEEN " `Get(i)` " AND " `Get(j)`
")" where `j` is the `int` sum `i+1`, and it is the same for every `totalArguments`. For
every `i` below the largest `int`, `j` is `i + 1`: the fragment names the two consecutive
slots `i` and `i + 1`, it is what the registry's `BetweenFilter` renders without overflow,
and it is the rendering of pieces whose slots are exactly `i` and `i + 1`. At the largest
`int`, `j` is the smallest `int`. -/
theorem BetweenFilter_Apply (column : String) (totalArguments currentIndex : Int)
    (ph : placeholder.Placeholder) (hi : runtime.IsInt currentIndex) :
    runtime.BetweenFilter.Apply column totalArguments currentIndex ph =
        "(" ++ column ++ " BETWEEN " ++ ph.Get currentIndex ++ " AND " ++
          ph.Get (runtime.wrapInt (currentIndex + 1)) ++ ")" ∧
      (∀ total2 : Int, runtime.BetweenFilter.Apply column total2 currentIndex ph =
        runtime.BetweenFilter.Apply column totalArguments currentIndex ph) ∧
      runtime.IsInt (runtime.wrapInt (currentIndex + 1)) ∧
      (currentIndex < runtime.MaxInt →
        runtime.BetweenFilter.Apply column totalArguments currentIndex ph =
          "(" ++ column ++ " BETWEEN " ++ ph.Get currentIndex ++ " AND " ++
            ph.Get (currentIndex + 1) ++ ")" ∧
        runtime.BetweenFilter.Apply column totalArguments currentIndex ph =
          filters.BetweenFilter.Apply column totalArguments currentIndex ph ∧
        runtime.BetweenFilter.Apply column totalArguments currentIndex ph =
          renderPieces ph (Builtin.between.pieces column totalArguments currentIndex) ∧
        slotsOf (Builtin.between.pieces column totalArguments currentIndex) =
          [currentIndex, currentIndex + 1]) ∧
      (currentIndex = runtime.MaxInt →
        runtime.wrapInt (currentIndex + 1) = runtime.MinInt) := by
  refine ⟨rfl, fun _ => rfl, isInt_wrapInt _, ?_, ?_⟩
  · intro hlt
    have hw : runtime.wrapInt (currentIndex + 1) = currentIndex + 1 := by
      apply wrapInt_of_isInt
      unfold runtime.IsInt runtime.MinInt runtime.MaxInt at *
      omega
    have he : runtime.BetweenFilter.Apply column totalArguments currentIndex ph =
        filters.BetweenFilter.Apply column totalArguments currentIndex ph := by
      unfold runtime.BetweenFilter.Apply
      rw [hw]
      rfl
    refine ⟨?_, he, ?_, rfl⟩
    · unfold runtime.BetweenFilter.Apply
      rw [hw]
    · rw [he]
      exact Builtin_apply_eq Builtin.between column totalArguments currentIndex ph
  · intro he
    rw [he]
    decide

/-- C20 amended, on the case of `TestBetweenFilter_Apply`: ("age", 1, "$") gives
"(age BETWEEN $1 AND $2)". -/
theorem BetweenFilter_Apply_witness :
    runtime.BetweenFilter.Apply "age" 0 1 (placeholder.Numbered "$") =
      "(age BETWEEN $1 AND $2)" :=
  ((BetweenFilter_Apply "age" 0 1 (placeholder.Numbered "$")
    ⟨by decide, by decide⟩).2.2.2.1 (by decide)).1.trans (by decide)


/-! ## Repeated calls of `Sql` -/

theorem enrichAndExtractOnMemory_eq (f : Filter) (col : String) (n : Nat) :
    ∀ (i : Nat) (m : LoopMemory) (values : List Value) (conditions : List filter.Condition),
      n + i = m.specs.length →
        (f.enrichAndExtractOnMemory col n i m values conditions).1.specs = m.specs ∧
          (f.enrichAndExtractOnMemory col n i m values conditions).2 =
            f.enrichAndExtractLoop col (m.specs.drop i) values conditions := by
  induction n with
  | zero =>
    intro i m values conditions h
    have hd : m.specs.drop i = [] := List.drop_eq_nil_of_le (by omega)
    rw [hd]
    exact ⟨rfl, rfl⟩
  | succ n ih =>
    intro i m values conditions h
    have hi : i < m.specs.length := by omega
    rw [List.drop_eq_getElem_cons hi]
    simp only [Filter.enrichAndExtractOnMemory, List.getElem?_eq_getElem hi,
      Filter.enrichAndExtractLoop]
    cases hnil : (m.specs[i]).Value.isNil with
    | true =>
      simp only [if_true]
      exact ih (i + 1) { m with spec := m.specs[i] } values conditions (by simp; omega)
    | false =>
      simp only [Bool.false_eq_true, if_false]
      cases hflt : f.filters (m.specs[i]).MatchMode with
      | none => exact ⟨rfl, rfl⟩
      | some flt =>
        rcases hen : flt.EnrichValue (m.specs[i]).Value with ⟨v, err⟩
        cases err with
        | some e => simp [hen, LoopMemory.store]
        | none =>
          simp only [hen]
          exact ih (i + 1)
            (LoopMemory.store { m with spec := m.specs[i] } ValueCell.loopVariable v)
            (values ++ v.spliced)
            (conditions ++ [{ Column := col, Filter := flt, Operator := (m.specs[i]).Operator }])
            (by simp [LoopMemory.store]; omega)

theorem Sql_isSome (f : Filter) (specs : Specs) :
    ∃ vals cond err, f.Sql specs = some (vals, cond, err) := by
  cases hc : f.SqlCheck specs.iter with
  | some e => exact ⟨[], "", some e, by simp [Filter.Sql, hc]⟩
  | none =>
    have hreg : f.AllRegistered specs := (SqlCheck_eq_none f specs.iter).1 hc
    rw [Sql_of_registered f specs hreg]
    cases f.firstError specs with
    | none => exact ⟨_, _, _, rfl⟩
    | some e => exact ⟨_, _, _, rfl⟩

theorem Sql_error_none_iff (f : Filter) (specs : Specs) (vals : List Value) (cond : String)
    (err : Option String) (h : f.Sql specs = some (vals, cond, err)) :
    err = none ↔ f.AllRegistered specs ∧ f.firstError specs = none := by
  constructor
  · intro he
    rw [he] at h
    exact Sql_success f specs vals cond h
  · rintro ⟨hreg, hfe⟩
    rw [Sql_of_registered f specs hreg, hfe] at h
    simp only [Option.some.injEq, Prod.mk.injEq] at h
    exact h.2.2.symm

theorem mem_iter_perm (s1 s2 : Specs) (hp : List.Perm s2 s1) (ks : String × filter.Spec) :
    ks ∈ s2.iter ↔ ks ∈ s1.iter := by
  rw [mem_iter, mem_iter]
  constructor
  · rintro ⟨kv, hkv, h⟩
    exact ⟨kv, hp.mem_iff.1 hkv, h⟩
  · rintro ⟨kv, hkv, h⟩
    exact ⟨kv, hp.mem_iff.2 hkv, h⟩

theorem perm_of_length_le_one {α : Type} (l1 l2 : List α) (hp : List.Perm l2 l1)
    (h : l1.length ≤ 1) : l2 = l1 := by
  cases l1 with
  | nil => exact hp.eq_nil
  | cons a rest =>
    cases rest with
    | nil => exact List.perm_singleton.1 hp
    | cons b rest2 =>
      simp at h


/-! ## `Sql` on the memory -/

theorem shared_enrichAndExtractLoop_spec (r : shared.Registry) (hpres : r.Preserving)
    (col : String) (specs : List shared.Spec)
    (hreg : ∀ s ∈ specs, (r.filters s.MatchMode).isSome = true) :
    ∀ (mem : shared.Memory) (values : List Value) (conditions : List shared.Condition),
      ∃ values2 conditions2 err,
        shared.enrichAndExtractLoop r col specs mem values conditions =
          some (mem, values2, conditions2, err) := by
  induction specs with
  | nil => exact fun mem values conditions => ⟨values, conditions, none, rfl⟩
  | cons spec rest ih =>
    intro mem values conditions
    have hrest := ih (fun s hs => hreg s (List.mem_cons_of_mem _ hs))
    cases hnil : spec.Value.isNil with
    | true =>
      simp only [shared.enrichAndExtractLoop, hnil, if_true]
      exact hrest mem values conditions
    | false =>
      obtain ⟨flt, hflt⟩ := Option.isSome_iff_exists.1 (hreg spec (List.mem_cons_self _ _))
      have hm := hpres spec.MatchMode flt hflt mem spec.Value
      rcases hen : flt.EnrichValue mem spec.Value with ⟨mem1, value, err⟩
      rw [hen] at hm
      simp only at hm
      subst hm
      cases err with
      | some e =>
        simp only [shared.enrichAndExtractLoop, hnil, hflt, hen, Bool.false_eq_true, if_false]
        exact ⟨_, _, _, rfl⟩
      | none =>
        simp only [shared.enrichAndExtractLoop, hnil, hflt, hen, Bool.false_eq_true, if_false]
        exact hrest _ _ _

theorem shared_SqlLoop_spec (r : shared.Registry) (hpres : r.Preserving)
    (specs : shared.Specs) (hreg : r.AllRegistered specs) (mem : shared.Memory) :
    ∀ (vals : List Value) (conditions : List String),
      ∃ vals2 cond err,
        shared.SqlLoop r specs mem vals conditions = some (mem, vals2, cond, err) ∧
        (err = none ↔ ∀ kv ∈ specs, shared.columnError r mem kv = none) ∧
        (err = none → vals2 = vals ++ specs.flatMap (shared.columnValues r mem)) := by
  induction specs with
  | nil =>
    intro vals conditions
    exact ⟨vals, _, none, rfl, by simp, by simp⟩
  | cons kv rest ih =>
    intro vals conditions
    have hrest := ih (fun kv2 h2 => hreg kv2 (List.mem_cons_of_mem _ h2))
    obtain ⟨values, condition, err, hea⟩ := shared_enrichAndExtractLoop_spec r hpres kv.1 kv.2
      (hreg kv (List.mem_cons_self _ _)) mem [] []
    have hea2 : shared.enrichAndExtract r kv.1 kv.2 mem = some (mem, values, condition, err) :=
      hea
    by_cases hskip : kv.2.length = 0 ∨ condition.length = 0
    · have hce : shared.columnError r mem kv = none := by
        simp only [shared.columnError, hea2, if_pos hskip]
      have hcv : shared.columnValues r mem kv = [] := by
        simp only [shared.columnValues, hea2, if_pos hskip]
      obtain ⟨vals2, cond, err2, h1, h2, h3⟩ := hrest vals conditions
      refine ⟨vals2, cond, err2, ?_, ?_, ?_⟩
      · simp only [shared.SqlLoop, hea2, if_pos hskip]
        exact h1
      · rw [h2]
        simp [hce]
      · intro he
        rw [h3 he, List.flatMap_cons, hcv, List.nil_append]
    · have hce : shared.columnError r mem kv = err := by
        simp only [shared.columnError, hea2, if_neg hskip]
      have hcv : shared.columnValues r mem kv = values := by
        simp only [shared.columnValues, hea2, if_neg hskip]
      cases err with
      | some e =>
        refine ⟨vals, "", some e, ?_, ?_, ?_⟩
        · simp only [shared.SqlLoop, hea2, if_neg hskip]
        · simp [hce]
        · intro he
          exact absurd he (by simp)
      | none =>
        obtain ⟨vals2, cond, err2, h1, h2, h3⟩ := hrest (vals ++ values)
          (conditions ++
            [shared.buildSqlCondition r.placeholder values.length (vals.length + 1) condition])
        refine ⟨vals2, cond, err2, ?_, ?_, ?_⟩
        · simp only [shared.SqlLoop, hea2, if_neg hskip]
          exact h1
        · rw [h2]
          simp [hce]
        · intro he
          rw [h3 he, List.flatMap_cons, hcv, List.append_assoc]

theorem shared_SqlCheck_eq_none (r : shared.Registry) (l : List (String × shared.Spec)) :
    shared.SqlCheck r l = none ↔ ∀ ks ∈ l, (r.filters ks.2.MatchMode).isSome = true := by
  induction l with
  | nil => simp [shared.SqlCheck]
  | cons a rest ih =>
    obtain ⟨k, s⟩ := a
    cases hf : r.filters s.MatchMode with
    | none => simp [shared.SqlCheck, hf]
    | some flt => simp [shared.SqlCheck, hf, ih]

theorem shared_SqlCheck_allRegistered (r : shared.Registry) (specs : shared.Specs) :
    shared.SqlCheck r specs.iter = none ↔ r.AllRegistered specs := by
  rw [shared_SqlCheck_eq_none]
  unfold shared.Registry.AllRegistered shared.Specs.iter
  constructor
  · intro h kv hkv s hs
    exact h (kv.1, s) (List.mem_flatMap.2 ⟨kv, hkv, List.mem_map.2 ⟨s, hs, rfl⟩⟩)
  · intro h ks hks
    obtain ⟨kv, hkv, hm⟩ := List.mem_flatMap.1 hks
    obtain ⟨s, hs, rfl⟩ := List.mem_map.1 hm
    exact h kv hkv s hs

theorem shared_Sql_spec (r : shared.Registry) (hpres : r.Preserving) (specs : shared.Specs)
    (mem : shared.Memory) :
    ∃ vals cond err, r.Sql specs mem = some (mem, vals, cond, err) ∧
      (err = none ↔
        r.AllRegistered specs ∧ ∀ kv ∈ specs, shared.columnError r mem kv = none) ∧
      (err = none → vals = specs.flatMap (shared.columnValues r mem)) := by
  cases hc : shared.SqlCheck r specs.iter with
  | some e =>
    have hnot : ¬ r.AllRegistered specs := by
      rw [← shared_SqlCheck_allRegistered, hc]
      simp
    refine ⟨[], "", some e, by simp [shared.Registry.Sql, hc], ?_, ?_⟩
    · simp [hnot]
    · intro he
      exact absurd he (by simp)
  | none =>
    have hreg : r.AllRegistered specs := (shared_SqlCheck_allRegistered r specs).1 hc
    obtain ⟨vals, cond, err, h1, h2, h3⟩ := shared_SqlLoop_spec r hpres specs hreg mem [] []
    refine ⟨vals, cond, err, by simp [shared.Registry.Sql, hc, h1], ?_, ?_⟩
    · rw [h2]
      simp [hreg]
    · intro he
      rw [h3 he, List.nil_append]

theorem shared_plain_preserving (flt : filter.Filter) (mem : shared.Memory)
    (value : shared.Held) : ((shared.plain flt).EnrichValue mem value).1 = mem :=
  rfl

theorem shared_PatternMatchFilter_preserving (Operation Format : String) (mem : shared.Memory)
    (value : shared.Held) :
    ((shared.PatternMatchFilter Operation Format).EnrichValue mem value).1 = mem := by
  unfold shared.PatternMatchFilter
  simp only
  split <;> rfl

theorem shared_ofRegistry_preserving (f : Filter) : (shared.ofRegistry f).Preserving := by
  intro m flt hf mem value
  unfold shared.ofRegistry at hf
  simp only at hf
  cases hm : f.filters m with
  | none => simp [hm] at hf
  | some g =>
    simp only [hm, Option.map_some', Option.some.injEq] at hf
    rw [← hf]
    rfl

theorem shared_enrichAndExtractLoop_ofRegistry (f : Filter) (col : String)
    (mem : shared.Memory) (specs : List filter.Spec) :
    ∀ (values : List Value) (conditions : List filter.Condition),
      shared.enrichAndExtractLoop (shared.ofRegistry f) col (specs.map shared.ofSpec) mem values
          (conditions.map shared.ofCondition) =
        (f.enrichAndExtractLoop col specs values conditions).map
          (fun out => (mem, out.1, out.2.1.map shared.ofCondition, out.2.2)) := by
  induction specs with
  | nil => exact fun values conditions => rfl
  | cons spec rest ih =>
    intro values conditions
    cases hnil : spec.Value.isNil with
    | true =>
      have hnil2 : (shared.ofSpec spec).Value.isNil = true := hnil
      simp only [List.map_cons, shared.enrichAndExtractLoop, Filter.enrichAndExtractLoop, hnil,
        hnil2, if_true]
      exact ih values conditions
    | false =>
      have hnil2 : (shared.ofSpec spec).Value.isNil = false := hnil
      have hmode : (shared.ofSpec spec).MatchMode = spec.MatchMode := rfl
      cases hf : f.filters spec.MatchMode with
      | none =>
        have hf2 : (shared.ofRegistry f).filters spec.MatchMode = none := by
          simp [shared.ofRegistry, hf]
        simp only [List.map_cons, shared.enrichAndExtractLoop, Filter.enrichAndExtractLoop, hnil,
          hnil2, hmode, hf, hf2, Bool.false_eq_true, if_false, Option.map_none']
      | some flt =>
        have hf2 : (shared.ofRegistry f).filters spec.MatchMode = some (shared.ofFilter flt) := by
          simp [shared.ofRegistry, hf]
        rcases hen : flt.EnrichValue spec.Value with ⟨value, err⟩
        have hen2 : (shared.ofFilter flt).EnrichValue mem (shared.ofSpec spec).Value =
            (mem, shared.Held.direct value, err) := by
          show (mem, shared.Held.direct (flt.EnrichValue spec.Value).1,
            (flt.EnrichValue spec.Value).2) = _
          rw [hen]
        have hcond : conditions.map shared.ofCondition ++
            [({ Column := col, Filter := shared.ofFilter flt,
                Operator := (shared.ofSpec spec).Operator } : shared.Condition)] =
            (conditions ++ [({ Column := col, Filter := flt, Operator := spec.Operator } :
              filter.Condition)]).map shared.ofCondition := by
          rw [List.map_append]
          rfl
        cases err with
        | some e =>
          simp only [List.map_cons, shared.enrichAndExtractLoop, Filter.enrichAndExtractLoop,
            hnil, hnil2, hmode, hf, hf2, hen, hen2, Bool.false_eq_true, if_false, hcond,
            Option.map_some']
        | none =>
          simp only [List.map_cons, shared.enrichAndExtractLoop, Filter.enrichAndExtractLoop,
            hnil, hnil2, hmode, hf, hf2, hen, hen2, Bool.false_eq_true, if_false, hcond]
          exact ih _ _

theorem shared_sqlIter_ofCondition (f : Filter) (total : Int)
    (conditions : List filter.Condition) :
    ∀ idx : Int, shared.sqlIter f.placeholder total idx (conditions.map shared.ofCondition) =
      f.sqlIter total idx conditions := by
  induction conditions with
  | nil => exact fun _ => rfl
  | cons c rest ih =>
    intro idx
    simp only [List.map_cons, shared.sqlIter, Filter.sqlIter, ih]
    rfl

theorem shared_buildSqlCondition_ofCondition (f : Filter) (total idx : Int)
    (conditions : List filter.Condition) :
    shared.buildSqlCondition f.placeholder total idx (conditions.map shared.ofCondition) =
      f.buildSqlCondition total idx conditions := by
  unfold shared.buildSqlCondition Filter.buildSqlCondition
  rw [shared_sqlIter_ofCondition, List.length_map]

theorem shared_SqlLoop_ofRegistry (f : Filter) (mem : shared.Memory) (specs : Specs) :
    ∀ (vals : List Value) (conditions : List String),
      shared.SqlLoop (shared.ofRegistry f) (shared.ofSpecs specs) mem vals conditions =
        (f.SqlLoop (f.conditionsIter specs) vals conditions).map (fun out => (mem, out)) := by
  induction specs with
  | nil => exact fun vals conditions => rfl
  | cons kv rest ih =>
    intro vals conditions
    have hea : shared.enrichAndExtract (shared.ofRegistry f) kv.1 (kv.2.map shared.ofSpec) mem =
        (f.enrichAndExtract kv.1 kv.2).map
          (fun out => (mem, out.1, out.2.1.map shared.ofCondition, out.2.2)) :=
      shared_enrichAndExtractLoop_ofRegistry f kv.1 mem kv.2 [] []
    have hspecs : shared.ofSpecs (kv :: rest) =
        (kv.1, kv.2.map shared.ofSpec) :: shared.ofSpecs rest := rfl
    rw [hspecs, conditionsIter_cons]
    cases hf : f.enrichAndExtract kv.1 kv.2 with
    | none =>
      rw [hf] at hea
      simp only [shared.SqlLoop, hea, Option.map_none', Filter.SqlLoop]
    | some out =>
      obtain ⟨values, condition, err⟩ := out
      rw [hf] at hea
      simp only [Option.map_some'] at hea
      by_cases hskip : kv.2.length = 0 ∨ condition.length = 0
      · have hskip2 : (kv.2.map shared.ofSpec).length = 0 ∨
            (condition.map shared.ofCondition).length = 0 := by
          simpa using hskip
        simp only [shared.SqlLoop, hea, if_pos hskip2, if_pos hskip]
        exact ih vals conditions
      · have hskip2 : ¬ ((kv.2.map shared.ofSpec).length = 0 ∨
            (condition.map shared.ofCondition).length = 0) := by
          simpa using hskip
        cases err with
        | some e =>
          simp only [shared.SqlLoop, hea, if_neg hskip2, if_neg hskip, Filter.SqlLoop,
            Option.map_some']
        | none =>
          simp only [shared.SqlLoop, hea, if_neg hskip2, if_neg hskip, Filter.SqlLoop]
          have hb : shared.buildSqlCondition (shared.ofRegistry f).placeholder values.length
              (vals.length + 1) (condition.map shared.ofCondition) =
              f.buildSqlCondition values.length (vals.length + 1) condition :=
            shared_buildSqlCondition_ofCondition f _ _ condition
          rw [hb]
          exact ih _ _

theorem shared_SqlCheck_ofRegistry (f : Filter) (specs : Specs) :
    shared.SqlCheck (shared.ofRegistry f) (shared.Specs.iter (shared.ofSpecs specs)) =
      f.SqlCheck specs.iter := by
  have hiter : shared.Specs.iter (shared.ofSpecs specs) =
      specs.iter.map (fun ks => (ks.1, shared.ofSpec ks.2)) := by
    unfold shared.Specs.iter shared.ofSpecs Specs.iter
    induction specs with
    | nil => rfl
    | cons kv rest ih =>
      simp only [List.map_cons, List.flatMap_cons, List.map_append, List.map_map, ih]
      rfl
  rw [hiter]
  induction specs.iter with
  | nil => rfl
  | cons a rest ih =>
    obtain ⟨k, s⟩ := a
    have hmode : (shared.ofSpec s).MatchMode = s.MatchMode := rfl
    cases hf : f.filters s.MatchMode with
    | none =>
      have hf2 : (shared.ofRegistry f).filters s.MatchMode = none := by
        simp [shared.ofRegistry, hf]
      simp only [List.map_cons, shared.SqlCheck, Filter.SqlCheck, hmode, hf, hf2]
    | some flt =>
      have hf2 : (shared.ofRegistry f).filters s.MatchMode = some (shared.ofFilter flt) := by
        simp [shared.ofRegistry, hf]
      simp only [List.map_cons, shared.SqlCheck, Filter.SqlCheck, hmode, hf, hf2]
      exact ih

/-- On Specs whose values point into no shared array and with filters that work on the value
alone, `Sql` on the memory returns what `Sql` of the embedding above returns, and leaves the
memory as it was. -/
theorem shared_Sql_ofRegistry (f : Filter) (specs : Specs) (mem : shared.Memory) :
    (shared.ofRegistry f).Sql (shared.ofSpecs specs) mem =
      (f.Sql specs).map (fun out => (mem, out)) := by
  unfold shared.Registry.Sql Filter.Sql
  rw [shared_SqlCheck_ofRegistry]
  cases f.SqlCheck specs.iter with
  | some e => rfl
  | none => exact shared_SqlLoop_ofRegistry f mem specs [] []

/-- C11 as stated fails. The map of `TestSqlWithMultipleSpecs` has two columns, and a call
of `Sql` that visits "name" before "age" and a call that visits "age" before "name" return
different values and different conditions. And with one column, whose Spec holds a `[]any`,
and a `MutatedValueFilter` whose `MutationFunc` appends "%" to the first element in place,
the first call changes the array that the caller's Spec points into: it returns the value
"James%" and the second call, on the same Specs in the same registry, "James%%". -/
theorem Sql_not_idempotent :
    List.Perm testMultipleSpecsSwapped testMultipleSpecs ∧
      testMultipleFilter.Sql testMultipleSpecs =
        some ([Value.str "James%", Value.str "%Butt", Value.int 18, Value.int 23],
          "((name LIKE ?) and (name LIKE ?)) and ((age BETWEEN ? AND ?))", none) ∧
      testMultipleFilter.Sql testMultipleSpecsSwapped =
        some ([Value.int 18, Value.int 23, Value.str "James%", Value.str "%Butt"],
          "((age BETWEEN ? AND ?)) and ((name LIKE ?) and (name LIKE ?))", none) ∧
      testMultipleFilter.Sql testMultipleSpecsSwapped ≠
        testMultipleFilter.Sql testMultipleSpecs ∧
      writingRegistry.Sql writingSpecs writingMemory =
        some ([[Value.str "James%"]], [Value.str "James%"], "((name LIKE ?))", none) ∧
      writingRegistry.SqlTwice writingSpecs writingSpecs writingMemory =
        some (([Value.str "James%"], "((name LIKE ?))", none),
          ([Value.str "James%%"], "((name LIKE ?))", none), [[Value.str "James%%"]]) := by
  refine ⟨List.Perm.swap _ _ _, rfl, rfl, fun h => ?_, rfl, rfl⟩
  have h1 : testMultipleFilter.Sql testMultipleSpecs =
      some ([Value.str "James%", Value.str "%Butt", Value.int 18, Value.int 23],
        "((name LIKE ?) and (name LIKE ?)) and ((age BETWEEN ? AND ?))", none) := rfl
  have h2 : testMultipleFilter.Sql testMultipleSpecsSwapped =
      some ([Value.int 18, Value.int 23, Value.str "James%", Value.str "%Butt"],
        "((age BETWEEN ? AND ?)) and ((name LIKE ?) and (name LIKE ?))", none) := rfl
  rw [h1, h2] at h
  simp at h

/-- C11 amended: for a registry whose filters write no memory but the value they are handed
(`EnrichValue` leaves the backing arrays of the `[]any` values as they are), every call of
`Sql` returns and leaves the memory that the Specs' values point into as it was, so a second
call does not enrich a second time. Two calls one after the other, on the same Specs in the
same registry, return identical output when they visit the columns in the same order, which
is always so when there is at most one column; when they visit the columns in different
orders, both succeed or both fail, and on success the values of one are a permutation of the
values of the other. -/
theorem Sql_repeated_call (r : shared.Registry) (specs specs2 : shared.Specs)
    (mem : shared.Memory) (hp : List.Perm specs2 specs) (hpres : r.Preserving) :
    ∃ vals cond err vals2 cond2 err2,
      r.Sql specs mem = some (mem, vals, cond, err) ∧
      r.Sql specs2 mem = some (mem, vals2, cond2, err2) ∧
      r.SqlTwice specs specs2 mem = some ((vals, cond, err), (vals2, cond2, err2), mem) ∧
      (err2 = none ↔ err = none) ∧
      (err = none → List.Perm vals2 vals) ∧
      (specs2 = specs → (vals2, cond2, err2) = (vals, cond, err)) ∧
      (specs.length ≤ 1 → (vals2, cond2, err2) = (vals, cond, err)) := by
  obtain ⟨vals, cond, err, h1, h2, h3⟩ := shared_Sql_spec r hpres specs mem
  obtain ⟨vals2, cond2, err2, k1, k2, k3⟩ := shared_Sql_spec r hpres specs2 mem
  have hreg : r.AllRegistered specs2 ↔ r.AllRegistered specs := by
    unfold shared.Registry.AllRegistered
    constructor
    · exact fun h kv hkv => h kv (hp.mem_iff.2 hkv)
    · exact fun h kv hkv => h kv (hp.mem_iff.1 hkv)
  have hcol : (∀ kv ∈ specs2, shared.columnError r mem kv = none) ↔
      ∀ kv ∈ specs, shared.columnError r mem kv = none := by
    constructor
    · exact fun h kv hkv => h kv (hp.mem_iff.2 hkv)
    · exact fun h kv hkv => h kv (hp.mem_iff.1 hkv)
  have herr : err2 = none ↔ err = none := by rw [k2, h2, hreg, hcol]
  have hsame : specs2 = specs → (vals2, cond2, err2) = (vals, cond, err) := by
    intro he
    rw [he, h1] at k1
    simp only [Option.some.injEq, Prod.mk.injEq, true_and] at k1
    obtain ⟨e1, e2, e3⟩ := k1
    rw [e1, e2, e3]
  refine ⟨vals, cond, err, vals2, cond2, err2, h1, k1, ?_, herr, ?_, hsame, ?_⟩
  · simp only [shared.Registry.SqlTwice, h1, k1]
  · intro he
    rw [h3 he, k3 (herr.2 he)]
    exact List.Perm.flatMap_right _ hp
  · intro hl
    exact hsame (perm_of_length_le_one specs specs2 hp hl)

/-- C11 amended, on the registry and the map of `TestSqlWithMultipleSpecs`, the value of the
"between" Spec being a `[]any` in the memory: the filters write no memory, and two calls
that visit the columns in the two orders leave the array as it was and return the same
values up to their order. -/
theorem Sql_repeated_call_witness :
    sharedMultipleRegistry.SqlTwice sharedMultipleSpecs sharedMultipleSpecsSwapped
        sharedMultipleMemory =
        some (([Value.str "James%", Value.str "%Butt", Value.int 18, Value.int 23],
            "((name LIKE ?) and (name LIKE ?)) and ((age BETWEEN ? AND ?))", none),
          ([Value.int 18, Value.int 23, Value.str "James%", Value.str "%Butt"],
            "((age BETWEEN ? AND ?)) and ((name LIKE ?) and (name LIKE ?))", none),
          [[Value.int 18, Value.int 23]]) ∧
      ∃ vals cond err vals2 cond2 err2,
        sharedMultipleRegistry.SqlTwice sharedMultipleSpecs sharedMultipleSpecsSwapped
          sharedMultipleMemory =
          some ((vals, cond, err), (vals2, cond2, err2), sharedMultipleMemory) ∧
        (err2 = none ↔ err = none) ∧
        (err = none → List.Perm vals2 vals) := by
  refine ⟨rfl, ?_⟩
  obtain ⟨vals, cond, err, vals2, cond2, err2, -, -, h3, h4, h5, -⟩ :=
    Sql_repeated_call sharedMultipleRegistry sharedMultipleSpecs sharedMultipleSpecsSwapped
      sharedMultipleMemory (List.Perm.swap _ _ _)
      (by
        intro m flt hf mem value
        unfold sharedMultipleRegistry at hf
        simp only at hf
        split_ifs at hf <;> first
          | (cases hf; exact shared_PatternMatchFilter_preserving _ _ mem value)
          | (cases hf; rfl))
  exact ⟨vals, cond, err, vals2, cond2, err2, h3, h4, h5⟩


/-! ## Panics -/

theorem panics_SqlCheck_ofFilter (f : Filter) (l : List (String × filter.Spec)) :
    panics.SqlCheck (fun m => (f.filters m).map panics.ofFilter) l = f.SqlCheck l := by
  induction l with
  | nil => rfl
  | cons a rest ih =>
    obtain ⟨k, s⟩ := a
    cases hf : f.filters s.MatchMode with
    | none => simp [panics.SqlCheck, Filter.SqlCheck, hf]
    | some flt => simp [panics.SqlCheck, Filter.SqlCheck, hf, ih]

theorem panics_enrichAndExtractLoop_ofFilter (f : Filter) (col : String)
    (specs : List filter.Spec) (values : List Value) (conditions : List filter.Condition) :
    panics.enrichAndExtractLoop (fun m => (f.filters m).map panics.ofFilter) col specs values
        (conditions.map panics.ofCondition) =
      (f.enrichAndExtractLoop col specs values conditions).map
        (fun r => (r.1, r.2.1.map panics.ofCondition, r.2.2)) := by
  induction specs generalizing values conditions with
  | nil => rfl
  | cons s rest ih =>
    cases hnil : s.Value.isNil with
    | true => simp [panics.enrichAndExtractLoop, Filter.enrichAndExtractLoop, hnil, ih]
    | false =>
      cases hf : f.filters s.MatchMode with
      | none => simp [panics.enrichAndExtractLoop, Filter.enrichAndExtractLoop, hnil, hf]
      | some flt =>
        rcases hen : flt.EnrichValue s.Value with ⟨v, err⟩
        have hc : conditions.map panics.ofCondition ++
            [({ Column := col, Filter := panics.ofFilter flt, Operator := s.Operator } :
              panics.Condition)] =
            (conditions ++
              [({ Column := col, Filter := flt, Operator := s.Operator } :
                filter.Condition)]).map panics.ofCondition := by
          simp [panics.ofCondition]
        have hcall : (panics.ofFilter flt).EnrichValue s.Value = some (v, err) := by
          rw [← hen]
          rfl
        cases err with
        | some e =>
          simp only [panics.enrichAndExtractLoop, Filter.enrichAndExtractLoop, hnil, hf,
            Option.map_some', hcall, hen, hc, Bool.false_eq_true, if_false]
        | none =>
          simp only [panics.enrichAndExtractLoop, Filter.enrichAndExtractLoop, hnil, hf,
            Option.map_some', hcall, hen, hc, Bool.false_eq_true, if_false]
          exact ih _ _

theorem panics_sqlIter_ofFilter (f : Filter) (total idx : Int)
    (conds : List filter.Condition) :
    panics.sqlIter f.placeholder total idx (conds.map panics.ofCondition) =
      (f.sqlIter total idx conds).map some := by
  induction conds generalizing idx with
  | nil => rfl
  | cons c rest ih =>
    simp only [List.map_cons, panics.sqlIter, Filter.sqlIter, ih]
    rfl

theorem panics_buildSqlConditionLoop_some (n : Nat) (l : List (String × String)) (i : Nat)
    (sb : String) :
    panics.buildSqlConditionLoop n (l.map some) i sb =
      some (Filter.buildSqlConditionLoop n l i sb) := by
  induction l generalizing i sb with
  | nil => rfl
  | cons a rest ih =>
    obtain ⟨opr, c⟩ := a
    simp only [List.map_cons, panics.buildSqlConditionLoop, Filter.buildSqlConditionLoop, ih]

theorem panics_buildSqlCondition_ofFilter (f : Filter) (total idx : Int)
    (conds : List filter.Condition) :
    panics.buildSqlCondition f.placeholder total idx (conds.map panics.ofCondition) =
      some (f.buildSqlCondition total idx conds) := by
  unfold panics.buildSqlCondition Filter.buildSqlCondition
  rw [panics_sqlIter_ofFilter, panics_buildSqlConditionLoop_some, List.length_map]
  rfl

theorem panics_conditionsIter_ofFilter (f : Filter) (specs : Specs) :
    panics.conditionsIter (fun m => (f.filters m).map panics.ofFilter) specs =
      (f.conditionsIter specs).map (Option.map (fun p =>
        ((p.1.values, p.1.conditions.map panics.ofCondition), p.2))) := by
  induction specs with
  | nil => rfl
  | cons kv rest ih =>
    have h := panics_enrichAndExtractLoop_ofFilter f kv.1 kv.2 [] []
    simp only [List.map_nil] at h
    rw [conditionsIter_cons]
    unfold panics.conditionsIter at ih ⊢
    rw [List.filterMap_cons, ih, h]
    unfold Filter.enrichAndExtract
    cases hex : f.enrichAndExtractLoop kv.1 kv.2 [] [] with
    | none => rfl
    | some r =>
      obtain ⟨vals, condition, err⟩ := r
      by_cases hc : kv.2.length = 0 ∨ condition.length = 0
      · simp only [Option.map_some', List.length_map, hc, if_true]
      · simp only [Option.map_some', List.length_map, hc, if_false, List.map_cons]

theorem panics_SqlLoop_ofFilter (f : Filter)
    (l : List (Option (valuesConditionComposite × Option String))) (vals : List Value)
    (conds : List String) :
    panics.SqlLoop f.placeholder
        (l.map (Option.map (fun p =>
          ((p.1.values, p.1.conditions.map panics.ofCondition), p.2)))) vals conds =
      f.SqlLoop l vals conds := by
  induction l generalizing vals conds with
  | nil => rfl
  | cons a rest ih =>
    cases a with
    | none => rfl
    | some p =>
      obtain ⟨vc, err⟩ := p
      cases err with
      | some e => rfl
      | none =>
        simp only [List.map_cons, Option.map_some', panics.SqlLoop, Filter.SqlLoop]
        have hb := panics_buildSqlCondition_ofFilter f vc.values.length (vals.length + 1)
          vc.conditions
        rw [hb]
        exact ih _ _

/-- With filters whose methods are total, the embedding with panics computes what `Sql`
computes, and `Sql` returns. -/
theorem panics_Sql_ofFilter (f : Filter) (specs : Specs) :
    panics.Sql (fun m => (f.filters m).map panics.ofFilter) f.placeholder specs =
        f.Sql specs ∧
      ∃ vals cond err, f.Sql specs = some (vals, cond, err) := by
  refine ⟨?_, Sql_isSome f specs⟩
  unfold panics.Sql Filter.Sql
  rw [panics_SqlCheck_ofFilter, panics_conditionsIter_ofFilter]
  cases f.SqlCheck specs.iter with
  | some e => rfl
  | none => exact panics_SqlLoop_ofFilter f _ _ _

/-- C16, the code on a failing input: in the registry built by `New` and
`RegisterFilter("equals", &MutatedValueFilter{Operation: "="})`, the match mode "equals" is
registered, so the first loop of `Sql` passes; on the Specs `x: [(1, "equals")]` the call of
`EnrichValue` calls the nil `MutationFunc`, and `Sql` panics instead of returning. -/
theorem Sql_panics_on_nil_MutationFunc :
    panics.SqlCheck nilMutationFilters
        (Specs.iter [("x", [filter.Spec.mk (Value.int 1) "equals" "and"])]) = none ∧
      (panics.MutatedValueFilter (some ("=", none))).EnrichValue (Value.int 1) = none ∧
      panics.Sql nilMutationFilters (placeholder.UnNumbered "?")
        [("x", [filter.Spec.mk (Value.int 1) "equals" "and"])] = none :=
  ⟨rfl, rfl, rfl⟩


/-! ## Claims about the built-in filters -/

theorem intercalate_eq_joinCommas (l : List String) : ",".intercalate l = joinCommas l := by
  induction l with
  | nil => rfl
  | cons a rest ih =>
    cases rest with
    | nil => rfl
    | cons b rest2 =>
      rw [intercalate_cons_cons, ih]
      simp only [joinCommas, String.append_assoc]

theorem InFilter_loop_eq (ph : placeholder.Placeholder) (n : Nat) (currentIndex : Int)
    (hi : runtime.IsInt currentIndex) :
    runtime.InFilter.loop ph n currentIndex =
      (List.range n).map (fun (k : Nat) => ph.Get (runtime.wrapInt (currentIndex + (k : Int)))) := by
  induction n generalizing currentIndex with
  | zero => rfl
  | succ n ih =>
    rw [runtime.InFilter.loop, ih _ (isInt_wrapInt _), List.range_succ_eq_map, List.map_cons,
      List.map_map]
    congr 1
    · have h0 : currentIndex + ((0 : Nat) : Int) = currentIndex := by simp
      rw [h0, wrapInt_of_isInt currentIndex hi]
    · apply List.map_congr_left
      intro k _
      simp only [Function.comp]
      rw [wrapInt_wrapInt_add]
      congr 2
      push_cast
      omega

/-- C21 as stated fails: with `n = 2` and the largest `int` as `currentIndex`, the second
slot is the smallest `int` (`currentIndex++` wraps around), not the next integer; and for a
`totalArguments` of `MaxInt`, which `make` cannot allocate, `Apply` does not return. -/
theorem InFilter_wraps_at_MaxInt :
    runtime.InFilter.Apply runtime.maxStrings "x" 2 runtime.MaxInt (placeholder.Numbered "$") =
        some "(x IN ($9223372036854775807,$-9223372036854775808))" ∧
      "(" ++ "x" ++ " IN (" ++ (placeholder.Numbered "$").Get runtime.MaxInt ++ "," ++
          (placeholder.Numbered "$").Get (runtime.MaxInt + 1) ++ "))" =
        "(x IN ($9223372036854775807,$9223372036854775808))" ∧
      runtime.InFilter.Apply runtime.maxStrings "x" 2 runtime.MaxInt (placeholder.Numbered "$") ≠
        some ("(" ++ "x" ++ " IN (" ++ (placeholder.Numbered "$").Get runtime.MaxInt ++ "," ++
          (placeholder.Numbered "$").Get (runtime.MaxInt + 1) ++ "))") ∧
      runtime.InFilter.Apply runtime.maxStrings "x" runtime.MaxInt 1
        (placeholder.Numbered "$") = none := by
  have h1 : runtime.InFilter.Apply runtime.maxStrings "x" 2 runtime.MaxInt
      (placeholder.Numbered "$") =
      some "(x IN ($9223372036854775807,$-9223372036854775808))" := rfl
  have h2 : "(" ++ "x" ++ " IN (" ++ (placeholder.Numbered "$").Get runtime.MaxInt ++ "," ++
      (placeholder.Numbered "$").Get (runtime.MaxInt + 1) ++ "))" =
      "(x IN ($9223372036854775807,$9223372036854775808))" := rfl
  refine ⟨h1, h2, ?_, rfl⟩
  rw [h1, h2]
  decide

/-- C21 amended: for every column, every placeholder, every `totalArguments` `n >= 0` that
`make` can allocate (`n <= limit`) and every `int` `currentIndex` `i`, `InFilter.Apply`
returns "(" column " IN (" followed by `n` placeholders joined with "," and by "))", the
placeholder at position `k` being `Get` of the `int` sum `i + k`. When `i + n - 1` is not
above the largest `int`, these are `Get(i)`, `Get(i+1)`, ..., `Get(i+n-1)`: the fragment is
what the registry's `InFilter` renders without overflow, the rendering of pieces that have
exactly `n` slots, the slot at position `k` being `i + k`. For a negative `n` or an `n` that
`make` cannot allocate, `Apply` does not return. -/
theorem InFilter_Apply (limit : Nat) (column : String) (totalArguments currentIndex : Int)
    (ph : placeholder.Placeholder) (hn : 0 ≤ totalArguments)
    (hl : totalArguments ≤ (limit : Int)) (hi : runtime.IsInt currentIndex) :
    runtime.InFilter.Apply limit column totalArguments currentIndex ph =
        some ("(" ++ column ++ " IN (" ++
          joinCommas ((List.range totalArguments.toNat).map
            (fun (k : Nat) => ph.Get (runtime.wrapInt (currentIndex + (k : Int))))) ++ "))") ∧
      (currentIndex + totalArguments - 1 ≤ runtime.MaxInt →
        runtime.InFilter.Apply limit column totalArguments currentIndex ph =
          some ("(" ++ column ++ " IN (" ++
            joinCommas ((List.range totalArguments.toNat).map
              (fun (k : Nat) => ph.Get (currentIndex + (k : Int)))) ++ "))") ∧
        runtime.InFilter.Apply limit column totalArguments currentIndex ph =
          some (filters.InFilter.Apply column totalArguments currentIndex ph) ∧
        filters.InFilter.Apply column totalArguments currentIndex ph =
          renderPieces ph (Builtin.inSet.pieces column totalArguments currentIndex) ∧
        ((slotsOf (Builtin.inSet.pieces column totalArguments currentIndex)).length : Int) =
          totalArguments ∧
        ∀ k : Nat, (k : Int) < totalArguments →
          (slotsOf (Builtin.inSet.pieces column totalArguments currentIndex))[k]? =
            some (currentIndex + (k : Int))) ∧
      (∀ n2 : Int, n2 < 0 ∨ (limit : Int) < n2 →
        runtime.InFilter.Apply limit column n2 currentIndex ph = none) := by
  have hguard : ¬ (totalArguments < 0 ∨ (limit : Int) < totalArguments) := by omega
  have hmain : runtime.InFilter.Apply limit column totalArguments currentIndex ph =
      some ("(" ++ column ++ " IN (" ++
        joinCommas ((List.range totalArguments.toNat).map
          (fun (k : Nat) => ph.Get (runtime.wrapInt (currentIndex + (k : Int))))) ++ "))") := by
    unfold runtime.InFilter.Apply
    rw [if_neg hguard, InFilter_loop_eq ph _ currentIndex hi, intercalate_eq_joinCommas]
  refine ⟨hmain, ?_, ?_⟩
  · intro hmax
    have hmap : (List.range totalArguments.toNat).map
        (fun (k : Nat) => ph.Get (runtime.wrapInt (currentIndex + (k : Int)))) =
        (List.range totalArguments.toNat).map
          (fun (k : Nat) => ph.Get (currentIndex + (k : Int))) := by
      apply List.map_congr_left
      intro k hk
      have hk2 : k < totalArguments.toNat := List.mem_range.1 hk
      rw [wrapInt_of_isInt]
      unfold runtime.IsInt runtime.MinInt runtime.MaxInt at *
      omega
    have hplain : runtime.InFilter.Apply limit column totalArguments currentIndex ph =
        some ("(" ++ column ++ " IN (" ++
          joinCommas ((List.range totalArguments.toNat).map
            (fun (k : Nat) => ph.Get (currentIndex + (k : Int)))) ++ "))") := by
      rw [hmain, hmap]
    refine ⟨hplain, ?_, Builtin_apply_eq Builtin.inSet column totalArguments currentIndex ph,
      ?_, ?_⟩
    · rw [hplain, ← intercalate_eq_joinCommas]
      rfl
    · rw [Builtin_slotsOf_pieces]
      simp only [Builtin.slots, List.length_map, List.length_range]
      exact Int.toNat_of_nonneg hn
    · intro k hk
      rw [Builtin_slotsOf_pieces]
      have hk2 : k < totalArguments.toNat := by omega
      simp only [Builtin.slots, List.getElem?_map, List.getElem?_range hk2, Option.map_some']
  · intro n2 hn2
    unfold runtime.InFilter.Apply
    rw [if_pos hn2]

/-- C21 amended, on the first case of `TestInFilter_Apply`: ("status", 3, 1, "$") gives
"(status IN ($1,$2,$3))". -/
theorem InFilter_Apply_witness :
    runtime.InFilter.Apply runtime.maxStrings "status" 3 1 (placeholder.Numbered "$") =
      some "(status IN ($1,$2,$3))" :=
  ((InFilter_Apply runtime.maxStrings "status" 3 1 (placeholder.Numbered "$") (by decide)
    (by decide) ⟨by decide, by decide⟩).2.1 (by decide)).1.trans (by decide)

/-- C22: a single-slot built-in filter renders "(" column " " OP " " `Get(currentIndex)` ")"
for every column, `totalArguments`, `currentIndex` and placeholder, whatever
`totalArguments` is, and the fragment is the rendering of pieces with the one slot
`currentIndex`; OP is the string of the `ValueFilter`, the `Operation` of the
`MutatedValueFilter` and of the `PatternMatchFilter`, and ">", "<", "=", "<>" for the four
date filters. -/
theorem single_slot_Apply (b : Builtin) (hs : b.singleSlot = true) (column : String)
    (totalArguments currentIndex : Int) (ph : placeholder.Placeholder) :
    b.toFilter.Apply column totalArguments currentIndex ph =
        "(" ++ column ++ " " ++ b.operator ++ " " ++ ph.Get currentIndex ++ ")" ∧
      (∀ total2 : Int, b.toFilter.Apply column total2 currentIndex ph =
        b.toFilter.Apply column totalArguments currentIndex ph) ∧
      b.toFilter.Apply column totalArguments currentIndex ph =
        renderPieces ph (b.pieces column totalArguments currentIndex) ∧
      slotsOf (b.pieces column totalArguments currentIndex) = [currentIndex] ∧
      (∀ f : String, (filters.ValueFilter f).Apply column totalArguments currentIndex ph =
        "(" ++ column ++ " " ++ f ++ " " ++ ph.Get currentIndex ++ ")") ∧
      (∀ (Operation : String) (MutationFunc : Value → Value),
        (filters.MutatedValueFilter Operation MutationFunc).Apply column totalArguments
            currentIndex ph =
          "(" ++ column ++ " " ++ Operation ++ " " ++ ph.Get currentIndex ++ ")") ∧
      (∀ Operation Format : String,
        (filters.NewPatternMatchFilter Operation Format).Apply column totalArguments
            currentIndex ph =
          "(" ++ column ++ " " ++ Operation ++ " " ++ ph.Get currentIndex ++ ")") ∧
      filters.DateAfterFilter.Apply column totalArguments currentIndex ph =
        "(" ++ column ++ " " ++ ">" ++ " " ++ ph.Get currentIndex ++ ")" ∧
      filters.DateBeforeFilter.Apply column totalArguments currentIndex ph =
        "(" ++ column ++ " " ++ "<" ++ " " ++ ph.Get currentIndex ++ ")" ∧
      filters.DateIsFilter.Apply column totalArguments currentIndex ph =
        "(" ++ column ++ " " ++ "=" ++ " " ++ ph.Get currentIndex ++ ")" ∧
      filters.DateIsNotFilter.Apply column totalArguments currentIndex ph =
        "(" ++ column ++ " " ++ "<>" ++ " " ++ ph.Get currentIndex ++ ")" := by
  have e1 : " > " = " " ++ ">" ++ " " := by decide
  have e2 : " < " = " " ++ "<" ++ " " := by decide
  have e3 : " = " = " " ++ "=" ++ " " := by decide
  have e4 : " <> " = " " ++ "<>" ++ " " := by decide
  have hA : filters.DateAfterFilter.Apply column totalArguments currentIndex ph =
      "(" ++ column ++ " " ++ ">" ++ " " ++ ph.Get currentIndex ++ ")" := by
    show "(" ++ column ++ " > " ++ ph.Get currentIndex ++ ")" = _
    rw [e1]
    simp only [String.append_assoc]
  have hB : filters.DateBeforeFilter.Apply column totalArguments currentIndex ph =
      "(" ++ column ++ " " ++ "<" ++ " " ++ ph.Get currentIndex ++ ")" := by
    show "(" ++ column ++ " < " ++ ph.Get currentIndex ++ ")" = _
    rw [e2]
    simp only [String.append_assoc]
  have hI : filters.DateIsFilter.Apply column totalArguments currentIndex ph =
      "(" ++ column ++ " " ++ "=" ++ " " ++ ph.Get currentIndex ++ ")" := by
    show "(" ++ column ++ " = " ++ ph.Get currentIndex ++ ")" = _
    rw [e3]
    simp only [String.append_assoc]
  have hN : filters.DateIsNotFilter.Apply column totalArguments currentIndex ph =
      "(" ++ column ++ " " ++ "<>" ++ " " ++ ph.Get currentIndex ++ ")" := by
    show "(" ++ column ++ " <> " ++ ph.Get currentIndex ++ ")" = _
    rw [e4]
    simp only [String.append_assoc]
  refine ⟨?_, ?_, Builtin_apply_eq b column totalArguments currentIndex ph, ?_,
    fun _ => rfl, fun _ _ => rfl, fun _ _ => rfl, hA, hB, hI, hN⟩
  · cases b with
    | between => exact absurd hs (by decide)
    | inSet => exact absurd hs (by decide)
    | value f => rfl
    | mutated Operation MutationFunc => rfl
    | pattern Operation Format => rfl
    | dateAfter => exact hA
    | dateBefore => exact hB
    | dateIs => exact hI
    | dateIsNot => exact hN
  · intro total2
    cases b <;> first | rfl | exact absurd hs (by decide)
  · rw [Builtin_slotsOf_pieces]
    cases b <;> first | rfl | exact absurd hs (by decide)

/-- C22, on the first case of `TestValueFilter_Apply`:
`ValueFilter("=").Apply("age", 0, 1, Numbered("$"))` is "(age = $1)". -/
theorem single_slot_Apply_witness :
    (filters.ValueFilter "=").Apply "age" 0 1 (placeholder.Numbered "$") = "(age = $1)" :=
  (single_slot_Apply (Builtin.value "=") rfl "age" 0 1 (placeholder.Numbered "$")).1.trans
    (by decide)


theorem Sprintf_PRE (s : String) : filters.Sprintf filters.PRE s = "%" ++ s := by
  apply String.ext
  show filters.sprintfChars s ['%', '%', '%', 's'] false = ("%" ++ s).data
  rw [String.data_append]
  simp [filters.sprintfChars]

theorem Sprintf_POST (s : String) : filters.Sprintf filters.POST s = s ++ "%" := by
  apply String.ext
  show filters.sprintfChars s ['%', 's', '%', '%'] false = (s ++ "%").data
  rw [String.data_append]
  simp [filters.sprintfChars]

theorem Sprintf_AROUND (s : String) : filters.Sprintf filters.AROUND s = "%" ++ s ++ "%" := by
  apply String.ext
  show filters.sprintfChars s ['%', '%', '%', 's', '%', '%'] false = ("%" ++ s ++ "%").data
  rw [String.data_append, String.data_append]
  simp [filters.sprintfChars]

/-- C23: `PatternMatchFilter.EnrichValue` returns the nil error for every format and value;
a string value `s`, whatever characters it holds, becomes "%" ++ s with the format PRE,
s ++ "%" with POST and "%" ++ s ++ "%" with AROUND; a value that is not a string is left as
it is. -/
theorem PatternMatchFilter_EnrichValue (Operation Format : String) (v : Value) (s : String) :
    ((filters.NewPatternMatchFilter Operation Format).EnrichValue v).2 = none ∧
      (filters.NewPatternMatchFilter Operation filters.PRE).EnrichValue (Value.str s) =
        (Value.str ("%" ++ s), none) ∧
      (filters.NewPatternMatchFilter Operation filters.POST).EnrichValue (Value.str s) =
        (Value.str (s ++ "%"), none) ∧
      (filters.NewPatternMatchFilter Operation filters.AROUND).EnrichValue (Value.str s) =
        (Value.str ("%" ++ s ++ "%"), none) ∧
      ((∀ t : String, v ≠ Value.str t) →
        (filters.NewPatternMatchFilter Operation Format).EnrichValue v = (v, none)) := by
  refine ⟨?_, ?_, ?_, ?_, ?_⟩
  · cases v <;> rfl
  · show (Value.str (filters.Sprintf filters.PRE s), none) = _
    rw [Sprintf_PRE]
  · show (Value.str (filters.Sprintf filters.POST s), none) = _
    rw [Sprintf_POST]
  · show (Value.str (filters.Sprintf filters.AROUND s), none) = _
    rw [Sprintf_AROUND]
  · intro h
    cases v with
    | str t => exact absurd rfl (h t)
    | _ => rfl

/-- C23, on the cases of `TestPatternMatchFilter_EnrichValue` and a string that holds '%':
"foo" with PRE gives "%foo", "bar" with POST gives "bar%", "baz" with AROUND gives "%baz%",
"50%" with AROUND gives "%50%%", and 123 with AROUND stays 123. -/
theorem PatternMatchFilter_EnrichValue_witness :
    (filters.NewPatternMatchFilter "LIKE" filters.PRE).EnrichValue (Value.str "foo") =
        (Value.str "%foo", none) ∧
      (filters.NewPatternMatchFilter "LIKE" filters.POST).EnrichValue (Value.str "bar") =
        (Value.str "bar%", none) ∧
      (filters.NewPatternMatchFilter "LIKE" filters.AROUND).EnrichValue (Value.str "baz") =
        (Value.str "%baz%", none) ∧
      (filters.NewPatternMatchFilter "LIKE" filters.AROUND).EnrichValue (Value.str "50%") =
        (Value.str "%50%%", none) ∧
      (filters.NewPatternMatchFilter "LIKE" filters.AROUND).EnrichValue (Value.int 123) =
        (Value.int 123, none) :=
  ⟨(PatternMatchFilter_EnrichValue "LIKE" filters.PRE Value.null "foo").2.1,
    (PatternMatchFilter_EnrichValue "LIKE" filters.POST Value.null "bar").2.2.1,
    (PatternMatchFilter_EnrichValue "LIKE" filters.AROUND Value.null "baz").2.2.2.1,
    (PatternMatchFilter_EnrichValue "LIKE" filters.AROUND Value.null "50%").2.2.2.1,
    (PatternMatchFilter_EnrichValue "LIKE" filters.AROUND (Value.int 123) "").2.2.2.2
      (fun _ h => Value.noConfusion h)⟩

/-- C24: for every value, nil, scalar or sequence, `EnrichValue` of `ValueFilter`,
`BetweenFilter`, `InFilter` and the four date filters returns the nil error and leaves the
value as it is, and `EnrichValue` of a `MutatedValueFilter` leaves the result of its
`MutationFunc` and returns the nil error (also in the embedding with panics, when the
`MutationFunc` is not nil). -/
theorem EnrichValue_of_plain_filters (v : Value) (f Operation : String)
    (MutationFunc : Value → Value) :
    (filters.ValueFilter f).EnrichValue v = (v, none) ∧
      filters.BetweenFilter.EnrichValue v = (v, none) ∧
      filters.InFilter.EnrichValue v = (v, none) ∧
      filters.DateAfterFilter.EnrichValue v = (v, none) ∧
      filters.DateBeforeFilter.EnrichValue v = (v, none) ∧
      filters.DateIsFilter.EnrichValue v = (v, none) ∧
      filters.DateIsNotFilter.EnrichValue v = (v, none) ∧
      (filters.MutatedValueFilter Operation MutationFunc).EnrichValue v =
        (MutationFunc v, none) ∧
      (panics.MutatedValueFilter (some (Operation, some MutationFunc))).EnrichValue v =
        some (MutationFunc v, none) ∧
      (filters.ValueFilter f).EnrichValue Value.null = (Value.null, none) ∧
      (filters.ValueFilter f).EnrichValue (Value.seq [v, v]) = (Value.seq [v, v], none) :=
  ⟨rfl, rfl, rfl, rfl, rfl, rfl, rfl, rfl, rfl, rfl, rfl⟩

/-- On a registry whose map is not nil, `RegisterFilter(m, flt)` makes `flt` the filter
registered for `m`, whatever was registered for `m` before, and leaves the filter of every
other match mode, the validators and the placeholder as they were; afterwards the first loop
of `Sql` passes every Spec with mode `m`: an error "match mode not registered" that it still
returns names a mode other than `m` that was not registered before either. -/
theorem RegisterFilter_effect (f : Filter) (m : filter.MatchMode) (flt : filter.Filter) :
    (f.RegisterFilter m flt).filters m = some flt ∧
      (∀ m2, m2 ≠ m → (f.RegisterFilter m flt).filters m2 = f.filters m2) ∧
      (f.RegisterFilter m flt).columnValidators = f.columnValidators ∧
      (f.RegisterFilter m flt).placeholder = f.placeholder ∧
      (∀ (specs : Specs) (e : String),
        (f.RegisterFilter m flt).SqlCheck specs.iter = some e →
          (f.RegisterFilter m flt).Sql specs = some ([], "", some e) ∧
          ∃ ks ∈ specs.iter, ks.2.MatchMode ≠ m ∧ f.filters ks.2.MatchMode = none ∧
            e = "match mode not registered [" ++ ks.2.MatchMode ++ "]") ∧
      (∀ specs : Specs,
        (∀ ks ∈ specs.iter, ks.2.MatchMode = m ∨ (f.filters ks.2.MatchMode).isSome = true) →
          (f.RegisterFilter m flt).SqlCheck specs.iter = none) := by
  have hm : (f.RegisterFilter m flt).filters m = some flt := by
    simp [Filter.RegisterFilter]
  have hother : ∀ m2, m2 ≠ m → (f.RegisterFilter m flt).filters m2 = f.filters m2 := by
    intro m2 h2
    simp [Filter.RegisterFilter, h2]
  refine ⟨hm, hother, rfl, rfl, ?_, ?_⟩
  · intro specs e he
    refine ⟨by simp [Filter.Sql, he], ?_⟩
    obtain ⟨ks, hks, hnone, hmsg⟩ := SqlCheck_eq_some _ specs.iter e he
    have hne : ks.2.MatchMode ≠ m := by
      intro heq
      rw [heq, hm] at hnone
      exact Option.noConfusion hnone
    rw [hother _ hne] at hnone
    exact ⟨ks, hks, hne, hnone, hmsg⟩
  · intro specs h
    rw [SqlCheck_eq_none]
    intro ks hks
    by_cases heq : ks.2.MatchMode = m
    · rw [heq, hm]
      rfl
    · rw [hother _ heq]
      rcases h ks hks with h1 | h1
      · exact absurd h1 heq
      · exact h1

/-- C25, the code on a failing input: `NewWithFilters(ph, nil)` is a registry whose map is
nil; `Sql` reads it as a map without entries, but `RegisterFilter("equals", ...)` panics on
it ("assignment to entry in nil map") instead of registering the filter. `RegisterFilter`
panics exactly on the registries whose map is nil; on every other registry it returns, makes
`flt` the filter of `m`, leaves the other match modes, the validators and the placeholder as
they were, and afterwards the first loop of `Sql` passes every Spec with mode `m`. On the
registry of `TestRegisterFilter`, built by `New`, `Sql` compiles a Spec with the mode
"equals" after the registration, which it refused before. -/
theorem RegisterFilter_panics_on_nil_map :
    (runtime.NewWithFilters (placeholder.UnNumbered "?") none).RegisterFilter "equals"
        (filters.ValueFilter "=") = none ∧
      (runtime.NewWithFilters (placeholder.UnNumbered "?") none).Sql
          [("age", [filter.Spec.mk (Value.int 30) "equals" "and"])] =
        some ([], "", some "match mode not registered [equals]") ∧
      (∀ (r : runtime.Registry) (m : filter.MatchMode) (flt : filter.Filter),
        r.RegisterFilter m flt = none ↔ r.filters = none) ∧
      (∀ (r : runtime.Registry) (m : filter.MatchMode) (flt : filter.Filter),
        r.filters ≠ none →
          ∃ r2, r.RegisterFilter m flt = some r2 ∧ r2.filters ≠ none ∧
            r2.lookup m = some flt ∧
            (∀ m2, m2 ≠ m → r2.lookup m2 = r.lookup m2) ∧
            r2.columnValidators = r.columnValidators ∧
            r2.placeholder = r.placeholder ∧
            r2.toFilter = r.toFilter.RegisterFilter m flt ∧
            (∀ specs : Specs,
              (∀ ks ∈ specs.iter,
                  ks.2.MatchMode = m ∨ (r.lookup ks.2.MatchMode).isSome = true) →
                r2.toFilter.SqlCheck specs.iter = none)) ∧
      (runtime.New (placeholder.UnNumbered "?")).Sql
          [("age", [filter.Spec.mk (Value.int 30) "equals" "and"])] =
        some ([], "", some "match mode not registered [equals]") ∧
      ((runtime.New (placeholder.UnNumbered "?")).RegisterFilter "equals"
          (filters.ValueFilter "=")).map (fun r2 =>
            r2.Sql [("age", [filter.Spec.mk (Value.int 30) "equals" "and"])]) =
        some (some ([Value.int 30], "((age = ?))", none)) := by
  refine ⟨rfl, rfl, ?_, ?_, rfl, rfl⟩
  · intro r m flt
    unfold runtime.Registry.RegisterFilter
    cases r.filters with
    | none => simp
    | some entries => simp
  · intro r m flt hne
    cases hf : r.filters with
    | none => exact absurd hf hne
    | some entries =>
      have hreg : r.RegisterFilter m flt =
          some { r with filters := some (fun k => if k = m then some flt else entries k) } := by
        simp [runtime.Registry.RegisterFilter, hf]
      have hto : runtime.Registry.toFilter
          { r with filters := some (fun k => if k = m then some flt else entries k) } =
          r.toFilter.RegisterFilter m flt := by
        simp only [runtime.Registry.toFilter, Filter.RegisterFilter, runtime.Registry.lookup, hf]
        rfl
      have heff := RegisterFilter_effect r.toFilter m flt
      refine ⟨_, hreg, by simp, ?_, ?_, rfl, rfl, hto, ?_⟩
      · simp [runtime.Registry.lookup]
      · intro m2 h2
        simp [runtime.Registry.lookup, hf, h2]
      · intro specs h
        rw [hto]
        exact heff.2.2.2.2.2 specs h


/-! ## Claims about the groups and the errors of `Sql` -/

theorem groupsFrom_mem (f : Filter) (specs : Specs) (n : Nat) (g : String)
    (h : g ∈ f.groupsFrom specs n) :
    ∃ kv ∈ specs, (nonNilSpecs kv.2).isEmpty = false ∧ ∃ k, g = f.columnGroup kv.1 kv.2 k := by
  induction specs generalizing n with
  | nil => simp [Filter.groupsFrom] at h
  | cons kv rest ih =>
    cases hne : (nonNilSpecs kv.2).isEmpty with
    | true =>
      simp only [Filter.groupsFrom, hne, if_true] at h
      obtain ⟨kv2, h1, h2⟩ := ih n h
      exact ⟨kv2, List.mem_cons_of_mem _ h1, h2⟩
    | false =>
      simp only [Filter.groupsFrom, hne, Bool.false_eq_true, if_false, List.mem_cons] at h
      rcases h with h | h
      · exact ⟨kv, List.mem_cons_self _ _, hne, n, h⟩
      · obtain ⟨kv2, h1, h2⟩ := ih _ h
        exact ⟨kv2, List.mem_cons_of_mem _ h1, h2⟩

theorem groupsFrom_length (f : Filter) (specs : Specs) (n : Nat) :
    (f.groupsFrom specs n).length =
      (specs.filter (fun kv => !(nonNilSpecs kv.2).isEmpty)).length := by
  induction specs generalizing n with
  | nil => rfl
  | cons kv rest ih =>
    cases hne : (nonNilSpecs kv.2).isEmpty with
    | true => simp [Filter.groupsFrom, hne, ih, List.filter_cons]
    | false => simp [Filter.groupsFrom, hne, ih, List.filter_cons]

theorem intercalate_length_ge (s a : String) (l : List String) :
    a.length ≤ (s.intercalate (a :: l)).length := by
  cases l with
  | nil => exact Nat.le_refl _
  | cons b rest =>
    rw [intercalate_cons_cons, String.length_append, String.length_append]
    omega

theorem all_nil_iff_no_rendered_column (specs : Specs) :
    (∀ ks ∈ specs.iter, ks.2.Value.isNil = true) ↔
      specs.filter (fun kv => !(nonNilSpecs kv.2).isEmpty) = [] := by
  rw [List.filter_eq_nil_iff]
  constructor
  · intro h kv hkv
    have hn : nonNilSpecs kv.2 = [] := by
      unfold nonNilSpecs
      rw [List.filter_eq_nil_iff]
      intro s hs
      simp [h (kv.1, s) ((mem_iter specs (kv.1, s)).2 ⟨kv, hkv, rfl, hs⟩)]
    simp [hn]
  · intro h ks hks
    obtain ⟨kv, hkv, -, h2⟩ := (mem_iter specs ks).1 hks
    have hk := h kv hkv
    have hn : nonNilSpecs kv.2 = [] := by
      cases hc : nonNilSpecs kv.2 with
      | nil => rfl
      | cons a l => simp [hc] at hk
    unfold nonNilSpecs at hn
    rw [List.filter_eq_nil_iff] at hn
    have := hn ks.2 h2
    simpa using this

/-- C28: when `Sql` succeeds, the condition is the " and "-join of exactly one group per
column that has at least one non-nil-valued Spec; each group is "(" followed by the joined
fragments of at least one Spec and ")", so a column with an empty Spec list or only
nil-valued Specs contributes no "()" and no separator; and the condition is the empty
string if and only if every Spec of the input has a nil Value. -/
theorem Sql_groups_of_rendered_columns (f : Filter) (specs : Specs) (vals : List Value)
    (cond : String) (h : f.Sql specs = some (vals, cond, none)) :
    cond = " and ".intercalate (f.groupsFrom specs 0) ∧
      (f.groupsFrom specs 0).length =
        (specs.filter (fun kv => !(nonNilSpecs kv.2).isEmpty)).length ∧
      (∀ g ∈ f.groupsFrom specs 0, ∃ kv ∈ specs, ∃ k,
        1 ≤ (nonNilSpecs kv.2).length ∧
        (f.columnFragments kv.1 kv.2 k).length = (nonNilSpecs kv.2).length ∧
        g = "(" ++ joinWithOperators (f.columnFragments kv.1 kv.2 k) ++ ")") ∧
      (cond = "" ↔ ∀ ks ∈ specs.iter, ks.2.Value.isNil = true) := by
  obtain ⟨hreg, hfe⟩ := Sql_success f specs vals cond h
  rw [Sql_of_registered f specs hreg, hfe] at h
  simp only [Option.some.injEq, Prod.mk.injEq, and_true] at h
  have hc : cond = " and ".intercalate (f.groupsFrom specs 0) := h.2.symm
  have hgroups : ∀ g ∈ f.groupsFrom specs 0, ∃ kv ∈ specs, ∃ k,
      1 ≤ (nonNilSpecs kv.2).length ∧
      (f.columnFragments kv.1 kv.2 k).length = (nonNilSpecs kv.2).length ∧
      g = "(" ++ joinWithOperators (f.columnFragments kv.1 kv.2 k) ++ ")" := by
    intro g hg
    obtain ⟨kv, hkv, hne, k, hk⟩ := groupsFrom_mem f specs 0 g hg
    have hcol : ∀ s ∈ kv.2, (f.filters s.MatchMode).isSome = true := fun s hs =>
      hreg (kv.1, s) ((mem_iter specs (kv.1, s)).2 ⟨kv, hkv, rfl, hs⟩)
    refine ⟨kv, hkv, k, ?_, by simp [Filter.columnFragments], ?_⟩
    · cases hl : nonNilSpecs kv.2 with
      | nil => simp [hl] at hne
      | cons a l => simp
    · rw [hk, columnGroup_eq f kv.1 kv.2 k hcol]
  refine ⟨hc, groupsFrom_length f specs 0, hgroups, ?_⟩
  rw [all_nil_iff_no_rendered_column]
  constructor
  · intro he
    cases hg : f.groupsFrom specs 0 with
    | nil =>
      have hl := groupsFrom_length f specs 0
      rw [hg] at hl
      exact List.length_eq_zero.1 hl.symm
    | cons g rest =>
      exfalso
      obtain ⟨kv, -, k, -, -, hgk⟩ := hgroups g (by rw [hg]; exact List.mem_cons_self _ _)
      have hlen := intercalate_length_ge " and " g rest
      rw [← hg, ← hc, he, hgk, String.length_append, String.length_append] at hlen
      have h1 : "(".length = 1 := by decide
      have h0 : "".length = 0 := by decide
      omega
  · intro hnil
    have hl := groupsFrom_length f specs 0
    rw [hnil] at hl
    rw [hc, List.length_eq_zero.1 hl]
    rfl

/-- C28, on a Specs with a column of nil-valued Specs, a column with an empty list and a
column with one non-nil Spec: one group, no "()" and no separator; and on the Specs without
the last column the condition is empty. -/
theorem Sql_groups_of_rendered_columns_witness :
    equalsFilter.Sql [("x", [filter.Spec.mk Value.null "equals" "and"]), ("y", []),
        ("z", [filter.Spec.mk (Value.int 1) "equals" "and"])] =
        some ([Value.int 1], "((z = ?))", none) ∧
      equalsFilter.Sql [("x", [filter.Spec.mk Value.null "equals" "and"]), ("y", [])] =
        some ([], "", none) ∧
      ("" = "" ↔ ∀ ks ∈ Specs.iter [("x", [filter.Spec.mk Value.null "equals" "and"]),
        ("y", [])], ks.2.Value.isNil = true) :=
  ⟨rfl, rfl,
    (Sql_groups_of_rendered_columns equalsFilter
      [("x", [filter.Spec.mk Value.null "equals" "and"]), ("y", [])] [] "" rfl).2.2.2⟩

/-- C29: `Sql` returns, and it returns a non-nil error if and only if some Spec, nil-valued
or not, has an unregistered match mode, or all match modes are registered and `EnrichValue`
fails for the filter of some non-nil-valued Spec. When some match mode is unregistered the
error is the one that names an unregistered mode, whatever `EnrichValue` would do. With
built-in filters only, `Sql` fails exactly when some match mode is unregistered. -/
theorem Sql_error_iff (f : Filter) (specs : Specs) :
    ∃ vals cond err, f.Sql specs = some (vals, cond, err) ∧
      (err ≠ none ↔
        (∃ ks ∈ specs.iter, f.filters ks.2.MatchMode = none) ∨
        (f.AllRegistered specs ∧
          ∃ ks ∈ specs.iter, ks.2.Value.isNil = false ∧ f.enrichError ks.2 ≠ none)) ∧
      ((∃ ks ∈ specs.iter, f.filters ks.2.MatchMode = none) →
        ∃ ks ∈ specs.iter, f.filters ks.2.MatchMode = none ∧
          err = some ("match mode not registered [" ++ ks.2.MatchMode ++ "]")) ∧
      (∀ reg, f.BuiltinOnly reg →
        (err ≠ none ↔ ∃ ks ∈ specs.iter, f.filters ks.2.MatchMode = none)) := by
  obtain ⟨vals, cond, err, h⟩ := Sql_isSome f specs
  have hnone := Sql_error_none_iff f specs vals cond err h
  have hunreg : ¬ f.AllRegistered specs ↔ ∃ ks ∈ specs.iter, f.filters ks.2.MatchMode = none := by
    unfold Filter.AllRegistered
    constructor
    · intro hn
      by_contra hc
      apply hn
      intro ks hks
      cases hf : f.filters ks.2.MatchMode with
      | none => exact absurd ⟨ks, hks, hf⟩ hc
      | some flt => rfl
    · rintro ⟨ks, hks, hf⟩ hall
      have := hall ks hks
      rw [hf] at this
      exact absurd this (by simp)
  have henr : ¬ f.firstError specs = none ↔
      ∃ ks ∈ specs.iter, ks.2.Value.isNil = false ∧ f.enrichError ks.2 ≠ none := by
    rw [firstError_eq_none_iff]
    constructor
    · intro hn
      by_contra hc
      apply hn
      intro ks hks hnil
      by_contra he
      exact hc ⟨ks, hks, hnil, he⟩
    · rintro ⟨ks, hks, hnil, he⟩ hall
      exact he (hall ks hks hnil)
  have hmain : err ≠ none ↔
      (∃ ks ∈ specs.iter, f.filters ks.2.MatchMode = none) ∨
      (f.AllRegistered specs ∧
        ∃ ks ∈ specs.iter, ks.2.Value.isNil = false ∧ f.enrichError ks.2 ≠ none) := by
    rw [← hunreg, ← henr, Ne, hnone]
    by_cases hr : f.AllRegistered specs
    · simp [hr]
    · simp [hr]
  refine ⟨vals, cond, err, h, hmain, ?_, ?_⟩
  · intro hex
    cases hc : f.SqlCheck specs.iter with
    | none =>
      exact absurd ((SqlCheck_eq_none f specs.iter).1 hc) (hunreg.2 hex)
    | some e =>
      obtain ⟨ks, hks, hf, he⟩ := SqlCheck_eq_some f specs.iter e hc
      refine ⟨ks, hks, hf, ?_⟩
      simp only [Filter.Sql, hc, Option.some.injEq, Prod.mk.injEq] at h
      rw [← h.2.2, he]
  · intro reg hb
    rw [hmain]
    constructor
    · rintro (h1 | ⟨-, h2⟩)
      · exact h1
      · exact absurd (firstError_builtin f reg hb specs) (henr.2 h2)
    · intro h1
      exact Or.inl h1

/-- C29, on the registry with the rejecting filter: a Specs with a rejected value and an
unregistered mode returns the unregistered-mode error, and a Specs with the rejected value
alone returns the error of `EnrichValue`. -/
theorem Sql_error_iff_witness :
    rejectingRegistry.Sql [("a", [filter.Spec.mk (Value.int 1) "checked" "and"]),
        ("b", [filter.Spec.mk Value.null "unknown" "and"])] =
        some ([], "", some "match mode not registered [unknown]") ∧
      rejectingRegistry.Sql [("a", [filter.Spec.mk (Value.int 1) "checked" "and"])] =
        some ([], "", some "value rejected") ∧
      ∃ vals cond err,
        rejectingRegistry.Sql [("a", [filter.Spec.mk (Value.int 1) "checked" "and"])] =
          some (vals, cond, err) ∧
        (err ≠ none ↔
          (∃ ks ∈ Specs.iter [("a", [filter.Spec.mk (Value.int 1) "checked" "and"])],
            rejectingRegistry.filters ks.2.MatchMode = none) ∨
          (rejectingRegistry.AllRegistered
              [("a", [filter.Spec.mk (Value.int 1) "checked" "and"])] ∧
            ∃ ks ∈ Specs.iter [("a", [filter.Spec.mk (Value.int 1) "checked" "and"])],
              ks.2.Value.isNil = false ∧ rejectingRegistry.enrichError ks.2 ≠ none)) := by
  refine ⟨rfl, rfl, ?_⟩
  obtain ⟨vals, cond, err, h1, h2, -, -⟩ := Sql_error_iff rejectingRegistry
    [("a", [filter.Spec.mk (Value.int 1) "checked" "and"])]
  exact ⟨vals, cond, err, h1, h2⟩


/-! ## Claims about the index bookkeeping of `Sql` -/

theorem groupsFrom_append (f : Filter) (pre rest : Specs) (n : Nat) :
    f.groupsFrom (pre ++ rest) n =
      f.groupsFrom pre n ++ f.groupsFrom rest (n + (f.expectedValues pre).length) := by
  induction pre generalizing n with
  | nil => simp [Filter.groupsFrom, Filter.expectedValues]
  | cons kv pre ih =>
    have hlen : (f.expectedValues (kv :: pre)).length =
        (f.columnValues kv.2).length + (f.expectedValues pre).length := by
      simp [Filter.expectedValues]
    cases hne : (nonNilSpecs kv.2).isEmpty with
    | true =>
      have hnil : nonNilSpecs kv.2 = [] := List.isEmpty_iff.1 hne
      have h0 : (f.columnValues kv.2).length = 0 := by
        simp [Filter.columnValues, hnil]
      simp only [List.cons_append, Filter.groupsFrom, hne, if_true, hlen, h0, Nat.zero_add]
      exact ih n
    | false =>
      simp only [List.cons_append, Filter.groupsFrom, hne, Bool.false_eq_true, if_false, hlen]
      rw [show pre.append rest = pre ++ rest from rfl, ih, Nat.add_assoc]

theorem expectedValues_append (f : Filter) (pre rest : Specs) :
    f.expectedValues (pre ++ rest) = f.expectedValues pre ++ f.expectedValues rest := by
  simp [Filter.expectedValues]

theorem fragment_of_registered (f : Filter) (col : String) (total idx : Int) (s : filter.Spec)
    (flt : filter.Filter) (h : f.filters s.MatchMode = some flt) :
    f.fragment col total idx s = flt.Apply col total idx f.placeholder := by
  simp [Filter.fragment, h]

/-- C27: when `Sql` succeeds, for each rendered column (one with a non-nil Spec), met after
the columns `pre`, the group is built by `buildSqlCondition` with `totalArguments` = the
number of values of the whole column and start index 1 + the number of values of the columns
before it; the pairs of `sqlIter` are, for the Spec at position i of the column, the output
of `Apply` of its Filter on the column, that total, the index `slotIndex n i` and the
registry's placeholder. `slotIndex n 0` is n + 1; under a numbered placeholder each next
position receives one more than the previous one, under an unnumbered placeholder every
position receives n + 1. -/
theorem Sql_index_bookkeeping (f : Filter) (specs : Specs) (vals : List Value) (cond : String)
    (h : f.Sql specs = some (vals, cond, none)) :
    cond = " and ".intercalate (f.groupsFrom specs 0) ∧
      (∀ pre kv post, specs = pre ++ kv :: post → (nonNilSpecs kv.2).isEmpty = false →
        vals = f.expectedValues pre ++ f.columnValues kv.2 ++ f.expectedValues post ∧
        f.groupsFrom specs 0 = f.groupsFrom pre 0 ++
          f.buildSqlCondition (f.columnValues kv.2).length
            (((f.expectedValues pre).length : Int) + 1) (f.columnConditions kv.1 kv.2) ::
          f.groupsFrom post ((f.expectedValues pre).length + (f.columnValues kv.2).length) ∧
        f.sqlIter (f.columnValues kv.2).length (((f.expectedValues pre).length : Int) + 1)
            (f.columnConditions kv.1 kv.2) =
          (nonNilSpecs kv.2).enum.map (fun p => (p.2.Operator,
            f.fragment kv.1 (f.columnValues kv.2).length
              (f.slotIndex (f.expectedValues pre).length p.1) p.2)) ∧
        ∀ s ∈ nonNilSpecs kv.2, ∃ flt, f.filters s.MatchMode = some flt ∧
          ∀ total idx, f.fragment kv.1 total idx s = flt.Apply kv.1 total idx f.placeholder) ∧
      (∀ n : Nat, f.slotIndex n 0 = (n : Int) + 1) ∧
      (f.placeholder.Numbered = true →
        ∀ n i : Nat, f.slotIndex n (i + 1) = f.slotIndex n i + 1) ∧
      (f.placeholder.Numbered = false → ∀ n i : Nat, f.slotIndex n i = (n : Int) + 1) := by
  obtain ⟨hreg, hfe⟩ := Sql_success f specs vals cond h
  rw [Sql_of_registered f specs hreg, hfe] at h
  simp only [Option.some.injEq, Prod.mk.injEq, and_true] at h
  have h0 : ∀ n : Nat, f.slotIndex n 0 = (n : Int) + 1 := by
    intro n
    unfold Filter.slotIndex
    split <;> simp
  refine ⟨h.2.symm, ?_, h0, ?_, ?_⟩
  · intro pre kv post hs hne
    have hcol : ∀ s ∈ kv.2, (f.filters s.MatchMode).isSome = true := fun s hs2 =>
      hreg (kv.1, s) ((mem_iter specs (kv.1, s)).2 ⟨kv, by simp [hs], rfl, hs2⟩)
    refine ⟨?_, ?_, ?_, ?_⟩
    · rw [← h.1, hs, expectedValues_append]
      simp [Filter.expectedValues]
    · rw [hs, groupsFrom_append]
      simp [Filter.groupsFrom, hne, Filter.columnGroup]
    · have hk := sqlIter_conditions f kv.1 (f.columnValues kv.2).length
        (f.expectedValues pre).length (nonNilSpecs kv.2) (nonNilSpecs_registered f kv.2 hcol) 0
      rw [h0] at hk
      exact hk
    · intro s hs2
      have hmem : s ∈ kv.2 := (List.mem_filter.1 hs2).1
      obtain ⟨flt, hflt⟩ := Option.isSome_iff_exists.1 (hcol s hmem)
      exact ⟨flt, hflt, fun total idx => fragment_of_registered f kv.1 total idx s flt hflt⟩
  · intro hn n i
    unfold Filter.slotIndex
    rw [hn]
    simp only [if_true]
    push_cast
    omega
  · intro hn n i
    unfold Filter.slotIndex
    rw [hn]
    simp

/-- C27, with the recording Filter: column "a" binds three values through two Specs and
column "b" one value; under "$" the Conditions of "a" receive total 3 and the indexes 1 and
2, the Condition of "b" total 1 and index 4; under "?" both Conditions of "a" receive
index 1. -/
theorem Sql_index_bookkeeping_witness :
    (recordingRegistry (placeholder.Numbered "$")).Sql recordingSpecs =
        some ([Value.int 1, Value.int 2, Value.int 3, Value.int 4],
          "((a total=3 index=1 $1) and (a total=3 index=2 $2)) and ((b total=1 index=4 $4))",
          none) ∧
      (recordingRegistry (placeholder.UnNumbered "?")).Sql recordingSpecs =
        some ([Value.int 1, Value.int 2, Value.int 3, Value.int 4],
          "((a total=3 index=1 ?) and (a total=3 index=1 ?)) and ((b total=1 index=4 ?))",
          none) ∧
      "((a total=3 index=1 $1) and (a total=3 index=2 $2)) and ((b total=1 index=4 $4))" =
        " and ".intercalate
          ((recordingRegistry (placeholder.Numbered "$")).groupsFrom recordingSpecs 0) :=
  ⟨rfl, rfl,
    (Sql_index_bookkeeping (recordingRegistry (placeholder.Numbered "$")) recordingSpecs
      [Value.int 1, Value.int 2, Value.int 3, Value.int 4]
      "((a total=3 index=1 $1) and (a total=3 index=2 $2)) and ((b total=1 index=4 $4))"
      rfl).1⟩


/-! ## Compilation column by column -/

theorem Sql_single_column (f : Filter) (kv : String × List filter.Spec)
    (hcol : ∀ s ∈ kv.2, (f.filters s.MatchMode).isSome = true)
    (herr : f.columnError kv.2 = none) :
    f.Sql [kv] = some (f.columnValues kv.2,
      (if (nonNilSpecs kv.2).isEmpty then "" else f.columnGroup kv.1 kv.2 0), none) := by
  have hreg : f.AllRegistered [kv] := by
    intro ks hks
    obtain ⟨kv2, hkv2, -, h2⟩ := (mem_iter [kv] ks).1 hks
    rw [List.mem_singleton] at hkv2
    subst hkv2
    exact hcol ks.2 h2
  have hfe : f.firstError [kv] = none := by
    simp [Filter.firstError, herr]
  rw [Sql_of_registered f [kv] hreg, hfe]
  cases hne : (nonNilSpecs kv.2).isEmpty with
  | true => simp [Filter.expectedValues, Filter.groupsFrom, hne]; rfl
  | false => simp [Filter.expectedValues, Filter.groupsFrom, hne]; rfl

theorem fragment_indexFree (f : Filter) (hidx : f.IndexFree) (col : String) (total i j : Int)
    (s : filter.Spec) : f.fragment col total i s = f.fragment col total j s := by
  unfold Filter.fragment
  cases hf : f.filters s.MatchMode with
  | none => rfl
  | some flt => exact hidx s.MatchMode flt hf col total i j

theorem columnGroup_indexFree (f : Filter) (hidx : f.IndexFree) (col : String)
    (specs : List filter.Spec) (hcol : ∀ s ∈ specs, (f.filters s.MatchMode).isSome = true)
    (n : Nat) : f.columnGroup col specs n = f.columnGroup col specs 0 := by
  rw [columnGroup_eq f col specs n hcol, columnGroup_eq f col specs 0 hcol]
  unfold Filter.columnFragments
  have : ∀ p : Nat × filter.Spec,
      (p.2.Operator, f.fragment col (f.columnValues specs).length (f.slotIndex n p.1) p.2) =
      (p.2.Operator, f.fragment col (f.columnValues specs).length (f.slotIndex 0 p.1) p.2) :=
    fun p => by rw [fragment_indexFree f hidx col _ (f.slotIndex n p.1) (f.slotIndex 0 p.1)]
  simp only [this]

theorem groupsFrom_indexFree (f : Filter) (hidx : f.IndexFree) (specs : Specs)
    (hreg : ∀ kv ∈ specs, ∀ s ∈ kv.2, (f.filters s.MatchMode).isSome = true) (n : Nat) :
    f.groupsFrom specs n = specs.filterMap (fun kv =>
      if (nonNilSpecs kv.2).isEmpty then none else some (f.columnGroup kv.1 kv.2 0)) := by
  induction specs generalizing n with
  | nil => rfl
  | cons kv rest ih =>
    have hrest := ih (fun kv2 h2 => hreg kv2 (List.mem_cons_of_mem _ h2))
    cases hne : (nonNilSpecs kv.2).isEmpty with
    | true => simp [Filter.groupsFrom, hne, hrest, List.filterMap_cons]
    | false =>
      simp [Filter.groupsFrom, hne, hrest, List.filterMap_cons,
        columnGroup_indexFree f hidx kv.1 kv.2 (hreg kv (List.mem_cons_self _ _)) n]

theorem Builtin_indexFree (b : Builtin) (t : String) (col : String) (total i j : Int) :
    b.toFilter.Apply col total i (placeholder.UnNumbered t) =
      b.toFilter.Apply col total j (placeholder.UnNumbered t) := by
  cases b <;> rfl

theorem indexFree_of_builtin (f : Filter) (reg : filter.MatchMode → Option Builtin)
    (t : String) (hb : f.BuiltinOnly reg) (hp : f.placeholder = placeholder.UnNumbered t) :
    f.IndexFree := by
  intro m flt hf col total i j
  rw [hb m] at hf
  cases hr : reg m with
  | none => simp [hr] at hf
  | some b =>
    simp only [hr, Option.map_some', Option.some.injEq] at hf
    rw [← hf, hp]
    exact Builtin_indexFree b t col total i j

theorem columnError_of_firstError (f : Filter) (specs : Specs) (h : f.firstError specs = none)
    (kv : String × List filter.Spec) (hkv : kv ∈ specs) : f.columnError kv.2 = none := by
  unfold Filter.firstError at h
  rw [List.findSome?_eq_none_iff] at h
  exact h kv hkv

theorem aloneValues_eq (f : Filter) (kv : String × List filter.Spec)
    (hcol : ∀ s ∈ kv.2, (f.filters s.MatchMode).isSome = true)
    (herr : f.columnError kv.2 = none) : f.aloneValues kv = f.columnValues kv.2 := by
  unfold Filter.aloneValues
  rw [Sql_single_column f kv hcol herr]

theorem aloneGroup_eq (f : Filter) (kv : String × List filter.Spec)
    (hcol : ∀ s ∈ kv.2, (f.filters s.MatchMode).isSome = true)
    (herr : f.columnError kv.2 = none) :
    f.aloneGroup kv =
      if (nonNilSpecs kv.2).isEmpty then none else some (f.columnGroup kv.1 kv.2 0) := by
  unfold Filter.aloneGroup
  rw [Sql_single_column f kv hcol herr]
  cases hne : (nonNilSpecs kv.2).isEmpty <;> simp

/-- C26 as stated fails: under the unnumbered placeholder "?", with both match modes
registered and enrichment succeeding, a Filter that writes `currentIndex` into its fragment
renders column "b" as "((b = :2))" after column "a", but as "((b = :1))" when "b" is
compiled alone, so the condition is not the join of the groups of the columns compiled
alone. -/
theorem Sql_not_compositional :
    indexRegistry.placeholder.Numbered = false ∧
      indexRegistry.SqlCheck indexSpecs.iter = none ∧
      indexRegistry.firstError indexSpecs = none ∧
      indexRegistry.Sql indexSpecs =
        some ([Value.int 1, Value.int 2], "((a = ?)) and ((b = :2))", none) ∧
      indexRegistry.Sql [("b", [filter.Spec.mk (Value.int 2) "at" "and"])] =
        some ([Value.int 2], "((b = :1))", none) ∧
      indexSpecs.filterMap indexRegistry.aloneGroup = ["((a = ?))", "((b = :1))"] ∧
      "((a = ?)) and ((b = :2))" ≠
        " and ".intercalate (indexSpecs.filterMap indexRegistry.aloneGroup) := by
  refine ⟨rfl, rfl, rfl, rfl, rfl, rfl, ?_⟩
  rw [show indexSpecs.filterMap indexRegistry.aloneGroup = ["((a = ?))", "((b = :1))"] from rfl]
  decide

/-- C26, amended: with all match modes registered, enrichment succeeding and registered
filters whose fragment under the registry's placeholder does not depend on `currentIndex`,
for every order `visited` in which the columns of `specs` are met, the values returned by
`Sql` are the concatenation, and the condition the " and "-join, of the values and the
condition that `Sql` returns for each column compiled alone, a column without a non-nil
Spec contributing no group; the values and the groups of any order are a permutation of
those of `specs`, so the values and the group of every column appear in the result. -/
theorem Sql_compositional (f : Filter) (specs visited : Specs) (hp : visited.Perm specs)
    (hreg : f.AllRegistered specs) (hen : f.firstError specs = none) (hidx : f.IndexFree) :
    f.Sql visited = some (visited.flatMap f.aloneValues,
        " and ".intercalate (visited.filterMap f.aloneGroup), none) ∧
      (visited.flatMap f.aloneValues).Perm (specs.flatMap f.aloneValues) ∧
      (visited.filterMap f.aloneGroup).Perm (specs.filterMap f.aloneGroup) ∧
      (∀ kv ∈ specs, (∀ v ∈ f.aloneValues kv, v ∈ visited.flatMap f.aloneValues) ∧
        (∀ g, f.aloneGroup kv = some g → g ∈ visited.filterMap f.aloneGroup)) := by
  have hregv : f.AllRegistered visited := fun ks hks =>
    hreg ks ((mem_iter_perm specs visited hp ks).1 hks)
  have henv : f.firstError visited = none := by
    rw [firstError_eq_none_iff] at hen ⊢
    exact fun ks hks => hen ks ((mem_iter_perm specs visited hp ks).1 hks)
  have hcol : ∀ kv ∈ visited, ∀ s ∈ kv.2, (f.filters s.MatchMode).isSome = true :=
    fun kv hkv s hs => hregv (kv.1, s) ((mem_iter visited (kv.1, s)).2 ⟨kv, hkv, rfl, hs⟩)
  have hvals : visited.flatMap f.aloneValues = f.expectedValues visited := by
    unfold Filter.expectedValues
    rw [List.flatMap_def, List.flatMap_def]
    congr 1
    apply List.map_congr_left
    intro kv hkv
    exact aloneValues_eq f kv (hcol kv hkv) (columnError_of_firstError f visited henv kv hkv)
  have hgroups : visited.filterMap f.aloneGroup = f.groupsFrom visited 0 := by
    rw [groupsFrom_indexFree f hidx visited hcol 0]
    apply List.filterMap_congr
    intro kv hkv
    exact aloneGroup_eq f kv (hcol kv hkv) (columnError_of_firstError f visited henv kv hkv)
  refine ⟨?_, hp.flatMap_right _, hp.filterMap _, ?_⟩
  · rw [Sql_of_registered f visited hregv, henv, hvals, hgroups]
  · intro kv hkv
    have hkv2 : kv ∈ visited := hp.mem_iff.2 hkv
    constructor
    · intro v hv
      exact List.mem_flatMap.2 ⟨kv, hkv2, hv⟩
    · intro g hg
      exact List.mem_filterMap.2 ⟨kv, hkv2, hg⟩

/-- C26, amended, on the Specs of `TestSqlWithMultipleSpecs` with the built-in filters under
"?": visited in the order "age", "name", the result is the concatenation of the columns
compiled alone, and it holds the fragments and values that the test looks for. -/
theorem Sql_compositional_witness :
    (builtinRegistry (placeholder.UnNumbered "?") testBuiltins).Sql testMultipleSpecsSwapped =
        some ([Value.int 18, Value.int 23, Value.str "James%", Value.str "%Butt"],
          "((age BETWEEN ? AND ?)) and ((name LIKE ?) and (name LIKE ?))", none) ∧
      (builtinRegistry (placeholder.UnNumbered "?") testBuiltins).Sql testMultipleSpecsSwapped =
        some (testMultipleSpecsSwapped.flatMap
            (builtinRegistry (placeholder.UnNumbered "?") testBuiltins).aloneValues,
          " and ".intercalate (testMultipleSpecsSwapped.filterMap
            (builtinRegistry (placeholder.UnNumbered "?") testBuiltins).aloneGroup), none) :=
  ⟨rfl,
    (Sql_compositional (builtinRegistry (placeholder.UnNumbered "?") testBuiltins)
      testMultipleSpecs testMultipleSpecsSwapped (List.Perm.swap _ _ [])
      ((SqlCheck_eq_none _ _).1 rfl)
      (firstError_builtin _ testBuiltins (fun _ => rfl) testMultipleSpecs)
      (indexFree_of_builtin _ testBuiltins "?" (fun _ => rfl) rfl)).1⟩


/-! ## Numbering on well-shaped input -/

theorem Builtin_enrich_scalar (b : Builtin) (v : Value) (hs : b.singleSlot = true)
    (hm : b.nonMutating = true) (hv : isScalar v = true) :
    (b.toFilter.EnrichValue v).1.boundCount = 1 := by
  cases b <;> cases v <;>
    first
    | rfl
    | exact Bool.noConfusion hs
    | exact Bool.noConfusion hm
    | exact Bool.noConfusion hv

theorem enriched_of_builtin (f : Filter) (reg : filter.MatchMode → Option Builtin)
    (hb : f.BuiltinOnly reg) (s : filter.Spec) (b : Builtin) (hr : reg s.MatchMode = some b) :
    f.enriched s = (b.toFilter.EnrichValue s.Value).1 := by
  unfold Filter.enriched
  rw [hb s.MatchMode, hr]
  rfl

theorem isNil_of_isScalar (v : Value) (h : isScalar v = true) : v.isNil = false := by
  cases v <;> first | rfl | exact Bool.noConfusion h

theorem wellShaped_of_shapedColumn (f : Filter) (reg : filter.MatchMode → Option Builtin)
    (hb : f.BuiltinOnly reg) (hnm : ∀ m b, reg m = some b → b.nonMutating = true)
    (specs : List filter.Spec) (h : ShapedColumn reg specs) : f.WellShaped reg specs := by
  rcases h with ha | ⟨s, hs, hbi⟩
  · left
    intro s hs
    obtain ⟨b, hr, h1, h2⟩ := ha s (List.mem_filter.1 hs).1
    refine ⟨b, hr, h1, ?_⟩
    rw [enriched_of_builtin f reg hb s b hr]
    exact Builtin_enrich_scalar b s.Value h1 (hnm _ b hr) h2
  · right
    refine ⟨s, hs, ?_⟩
    rcases hbi with ⟨hr, x, y, hv⟩ | ⟨hr, -⟩
    · left
      refine ⟨hr, ?_⟩
      rw [enriched_of_builtin f reg hb s _ hr, hv]
      rfl
    · right
      exact hr

theorem specValues_flatten (f : Filter) (specs : Specs) :
    (f.specValues specs).flatten = f.expectedValues specs := by
  unfold Filter.specValues Filter.expectedValues Filter.columnValues
  induction specs with
  | nil => rfl
  | cons kv rest ih =>
    rw [List.flatMap_cons, List.flatMap_cons, List.flatten_append, ih]
    congr 1

theorem specTokensFrom_flatten (f : Filter) (reg : filter.MatchMode → Option Builtin)
    (specs : Specs) (n : Nat) :
    (f.specTokensFrom reg specs n).flatten = (f.groupPiecesFrom reg specs n).flatMap slotsOf := by
  induction specs generalizing n with
  | nil => rfl
  | cons kv rest ih =>
    cases hne : (nonNilSpecs kv.2).isEmpty with
    | true =>
      have hnil : nonNilSpecs kv.2 = [] := List.isEmpty_iff.1 hne
      have h0 : (f.columnValues kv.2).length = 0 := by simp [Filter.columnValues, hnil]
      simp only [Filter.specTokensFrom, Filter.groupPiecesFrom, hne, if_true]
      rw [hnil, h0]
      exact ih n
    | false =>
      simp only [Filter.specTokensFrom, Filter.groupPiecesFrom, hne, Bool.false_eq_true,
        if_false, List.flatten_append, List.flatMap_cons, ih, slotsOf_columnPieces]
      congr 1

theorem valuePositionsFrom_append (l1 l2 : List (List Value)) (k : Nat) :
    valuePositionsFrom (l1 ++ l2) k =
      valuePositionsFrom l1 k ++ valuePositionsFrom l2 (k + l1.flatten.length) := by
  induction l1 generalizing k with
  | nil => simp [valuePositionsFrom]
  | cons vs rest ih =>
    simp only [List.cons_append, valuePositionsFrom, List.flatten_cons, List.length_append]
    rw [show rest.append l2 = rest ++ l2 from rfl, ih, Nat.add_assoc]

theorem positions_enumFrom_single (f : Filter) (reg : filter.MatchMode → Option Builtin)
    (hn : f.placeholder.Numbered = true) (col : String) (total : Int) (n : Nat)
    (l : List filter.Spec)
    (h : ∀ s ∈ l, ∃ b, reg s.MatchMode = some b ∧ b.singleSlot = true ∧
      (f.enriched s).boundCount = 1) (k : Nat) :
    (l.enumFrom k).map (fun p => slotsOf (specPieces reg col total (f.slotIndex n p.1) p.2)) =
      valuePositionsFrom (l.map (fun s => (f.enriched s).spliced)) (n + k) := by
  induction l generalizing k with
  | nil => rfl
  | cons s rest ih =>
    obtain ⟨b, hr, hs, hc⟩ := h s (List.mem_cons_self _ _)
    have hlen : (f.enriched s).spliced.length = 1 := by rw [spliced_length, hc]
    rw [List.enumFrom_cons, List.map_cons, List.map_cons, valuePositionsFrom,
      slots_single reg col total _ s b hr hs,
      ih (fun t ht => h t (List.mem_cons_of_mem _ ht)) (k + 1), slotIndex_numbered f hn, hlen]
    have e : n + 1 + k = n + k + 1 := by omega
    rw [e]
    rfl

theorem specTokens_column (f : Filter) (reg : filter.MatchMode → Option Builtin)
    (hn : f.placeholder.Numbered = true) (col : String) (specs : List filter.Spec) (n : Nat)
    (hw : f.WellShaped reg specs) :
    (nonNilSpecs specs).enum.map (fun p =>
        slotsOf (specPieces reg col (f.columnValues specs).length (f.slotIndex n p.1) p.2)) =
      valuePositionsFrom ((nonNilSpecs specs).map (fun s => (f.enriched s).spliced)) n := by
  have hcol := slotsOf_columnPieces_wellShaped f reg hn col specs n hw
  rw [slotsOf_columnPieces] at hcol
  rcases hw with ha | ⟨s, hs, -⟩
  · exact positions_enumFrom_single f reg hn col _ n (nonNilSpecs specs) ha 0
  · have hlen : (f.columnValues specs).length = (f.enriched s).spliced.length := by
      simp [Filter.columnValues, hs]
    rw [hs] at hcol ⊢
    simp only [List.enum_cons, List.enumFrom_nil, List.flatMap_cons, List.flatMap_nil,
      List.append_nil, List.map_cons, List.map_nil, valuePositionsFrom] at hcol ⊢
    rw [hcol, hlen]

theorem specTokensFrom_eq_positions (f : Filter) (reg : filter.MatchMode → Option Builtin)
    (hn : f.placeholder.Numbered = true) (specs : Specs)
    (hw : ∀ kv ∈ specs, f.WellShaped reg kv.2) (n : Nat) :
    f.specTokensFrom reg specs n = valuePositionsFrom (f.specValues specs) n := by
  induction specs generalizing n with
  | nil => rfl
  | cons kv rest ih =>
    have hflat : ((nonNilSpecs kv.2).map (fun s => (f.enriched s).spliced)).flatten.length =
        (f.columnValues kv.2).length := by
      unfold Filter.columnValues
      rw [List.flatMap_def]
    have hsv : f.specValues (kv :: rest) =
        (nonNilSpecs kv.2).map (fun s => (f.enriched s).spliced) ++ f.specValues rest := rfl
    rw [hsv, valuePositionsFrom_append, hflat, Filter.specTokensFrom,
      specTokens_column f reg hn kv.1 kv.2 n (hw kv (List.mem_cons_self _ _)),
      ih (fun kv2 h2 => hw kv2 (List.mem_cons_of_mem _ h2))]

/-- C30: under a Numbered placeholder with prefix `p`, with only built-in filters other than
`MutatedValueFilter` registered and all match modes of the Specs registered, for every Specs
in which each column either has only non-nil Specs with single-slot filters and scalar
values, or has exactly one non-nil Spec, a `BetweenFilter` with a sequence of two elements
or an `InFilter` with a sequence of at least one element, `Sql` succeeds, the placeholder
tokens of the condition, left to right, are `p1, ..., pN` with `N = len(values)`, and the
tokens of the fragment of each Spec are the positions at which the values contributed by
that Spec stand in `values`. -/
theorem Sql_numbering_on_shaped_input (f : Filter) (reg : filter.MatchMode → Option Builtin)
    (specs : Specs) (p : String) (hb : f.BuiltinOnly reg)
    (hnm : ∀ m b, reg m = some b → b.nonMutating = true)
    (hp : f.placeholder = placeholder.Numbered p) (hreg : f.AllRegistered specs)
    (hshape : ∀ kv ∈ specs, ShapedColumn reg kv.2) :
    ∃ vals cond, f.Sql specs = some (vals, cond, none) ∧
      cond = renderPieces (placeholder.Numbered p) (f.conditionPieces reg specs) ∧
      f.placeholderTokens reg specs = (List.range' 1 vals.length).map Int.ofNat ∧
      (f.placeholderTokens reg specs).map (placeholder.Numbered p).Get =
        (List.range' 1 vals.length).map (fun i => p ++ toString i) ∧
      vals = (f.specValues specs).flatten ∧
      f.placeholderTokens reg specs = (f.specTokensFrom reg specs 0).flatten ∧
      f.specTokensFrom reg specs 0 = valuePositionsFrom (f.specValues specs) 0 := by
  have hn : f.placeholder.Numbered = true := by
    rw [hp]
    rfl
  have hw : ∀ kv ∈ specs, f.WellShaped reg kv.2 := fun kv hkv =>
    wellShaped_of_shapedColumn f reg hb hnm kv.2 (hshape kv hkv)
  have hsql : f.Sql specs =
      some (f.expectedValues specs, " and ".intercalate (f.groupsFrom specs 0), none) := by
    rw [Sql_of_registered f specs hreg, firstError_builtin f reg hb specs]
  obtain ⟨-, -, hcond⟩ := Sql_builtin f reg hb specs _ _ hsql
  have htok : f.placeholderTokens reg specs =
      (List.range' 1 (f.expectedValues specs).length).map Int.ofNat := by
    unfold Filter.placeholderTokens Filter.conditionPieces
    rw [slotsOf_joinGroups, tokens_from_wellShaped f reg hn specs hw 0]
  refine ⟨_, _, hsql, ?_, htok, ?_, (specValues_flatten f specs).symm, ?_,
    specTokensFrom_eq_positions f reg hn specs hw 0⟩
  · rw [← hp]
    exact hcond
  · rw [htok, List.map_map]
    rfl
  · unfold Filter.placeholderTokens Filter.conditionPieces
    rw [slotsOf_joinGroups, specTokensFrom_flatten]

/-- C30, on the Specs of `TestSqlWithMultiValuedValue` under "$": the condition is
"((age BETWEEN $1 AND $2))" with the values 18 and 23, and the tokens are 1 and 2. -/
theorem Sql_numbering_on_shaped_input_witness :
    (builtinRegistry (placeholder.Numbered "$") testBuiltins).Sql testBetweenSpecs =
        some ([Value.int 18, Value.int 23], "((age BETWEEN $1 AND $2))", none) ∧
      (builtinRegistry (placeholder.Numbered "$") testBuiltins).specTokensFrom testBuiltins
        testBetweenSpecs 0 = [[1, 2]] ∧
      ∃ vals cond,
        (builtinRegistry (placeholder.Numbered "$") testBuiltins).Sql testBetweenSpecs =
          some (vals, cond, none) ∧
        (builtinRegistry (placeholder.Numbered "$") testBuiltins).placeholderTokens
          testBuiltins testBetweenSpecs = (List.range' 1 vals.length).map Int.ofNat := by
  refine ⟨rfl, rfl, ?_⟩
  obtain ⟨vals, cond, h1, -, h2, -⟩ := Sql_numbering_on_shaped_input
    (builtinRegistry (placeholder.Numbered "$") testBuiltins) testBuiltins testBetweenSpecs "$"
    (fun _ => rfl)
    (by
      intro m b h
      unfold testBuiltins at h
      split_ifs at h <;> (cases h; rfl))
    rfl ((SqlCheck_eq_none _ _).1 rfl)
    (by
      intro kv hkv
      simp only [testBetweenSpecs, List.mem_singleton] at hkv
      subst hkv
      exact Or.inr ⟨_, rfl, Or.inl ⟨rfl, _, _, rfl⟩⟩)
  exact ⟨vals, cond, h1, h2⟩


/-! ## Injectivity of `Numbered.Get` -/

theorem digitVal_digitChar (k : Nat) (h : k < 10) :
    digitVal (Nat.digitChar k) = k ∧ Nat.digitChar k ≠ '-' := by
  interval_cases k <;> exact ⟨rfl, by decide⟩

theorem toDigitsCore_spec (fuel n : Nat) (ds : List Char) (h : n < fuel) :
    ∃ c l, Nat.toDigitsCore 10 fuel n ds = (c :: l) ++ ds ∧ numeralValue (c :: l) = n ∧
      c ≠ '-' := by
  induction fuel generalizing n ds with
  | zero => exact absurd h (Nat.not_lt_zero _)
  | succ fuel ih =>
    obtain ⟨hd, hc⟩ := digitVal_digitChar (n % 10) (Nat.mod_lt _ (by decide))
    by_cases h0 : n / 10 = 0
    · refine ⟨Nat.digitChar (n % 10), [], ?_, ?_, hc⟩
      · simp [Nat.toDigitsCore, h0]
      · simp only [numeralValue, List.foldl, hd]
        omega
    · have hlt : n / 10 < fuel := by omega
      obtain ⟨c, l, h1, h2, h3⟩ := ih (n / 10) (Nat.digitChar (n % 10) :: ds) hlt
      refine ⟨c, l ++ [Nat.digitChar (n % 10)], ?_, ?_, h3⟩
      · simp only [Nat.toDigitsCore, h0, if_false, h1]
        simp
      · have h4 : numeralValue (c :: (l ++ [Nat.digitChar (n % 10)])) =
            10 * numeralValue (c :: l) + digitVal (Nat.digitChar (n % 10)) := by
          unfold numeralValue
          rw [← List.cons_append, List.foldl_append]
          rfl
        rw [h4, h2, hd]
        omega

theorem toDigits_spec (n : Nat) :
    ∃ c l, Nat.toDigits 10 n = c :: l ∧ numeralValue (c :: l) = n ∧ c ≠ '-' := by
  obtain ⟨c, l, h1, h2, h3⟩ := toDigitsCore_spec (n + 1) n [] (Nat.lt_succ_self n)
  exact ⟨c, l, by simpa [Nat.toDigits] using h1, h2, h3⟩

theorem toDigits_injective (a b : Nat) (h : Nat.toDigits 10 a = Nat.toDigits 10 b) : a = b := by
  obtain ⟨c, l, h1, h2, -⟩ := toDigits_spec a
  obtain ⟨c2, l2, h3, h4, -⟩ := toDigits_spec b
  rw [h1, h3] at h
  rw [← h2, ← h4, h]

theorem decimal_data (n : Int) :
    (decimal n).data =
      (if n < 0 then ['-'] else []) ++ Nat.toDigits 10 n.natAbs := by
  unfold decimal
  rw [String.data_append]
  split <;> rfl

theorem decimal_injective (m n : Int) (h : decimal m = decimal n) : m = n := by
  have hd : (decimal m).data = (decimal n).data := by rw [h]
  rw [decimal_data, decimal_data] at hd
  obtain ⟨c, l, h1, -, h3⟩ := toDigits_spec m.natAbs
  obtain ⟨c2, l2, h4, -, h6⟩ := toDigits_spec n.natAbs
  by_cases hm : m < 0 <;> by_cases hn : n < 0
  · simp only [hm, hn, if_true, List.cons_append, List.nil_append, List.cons.injEq,
      true_and] at hd
    have := toDigits_injective _ _ hd
    omega
  · simp only [hm, hn, if_true, if_false, List.cons_append, List.nil_append] at hd
    rw [h4] at hd
    exact absurd (List.cons.inj hd).1.symm h6
  · simp only [hm, hn, if_true, if_false, List.cons_append, List.nil_append] at hd
    rw [h1] at hd
    exact absurd (List.cons.inj hd).1 h3
  · simp only [hm, hn, if_false, List.nil_append] at hd
    have := toDigits_injective _ _ hd
    omega

theorem append_left_cancel (p s t : String) (h : p ++ s = p ++ t) : s = t := by
  have hd : (p ++ s).data = (p ++ t).data := by rw [h]
  rw [String.data_append, String.data_append] at hd
  exact String.ext (List.append_cancel_left hd)

/-- C31: for every prefix `p` and all integers `m` and `n`, if `Numbered(p).Get(m)` and
`Numbered(p).Get(n)` are the same text then `m = n`; so two distinct slots never receive the
same placeholder token. -/
theorem Numbered_Get_injective (p : String) (m n : Int) :
    ((placeholder.Numbered p).Get m = (placeholder.Numbered p).Get n → m = n) ∧
      (m ≠ n → (placeholder.Numbered p).Get m ≠ (placeholder.Numbered p).Get n) := by
  have hinj : (placeholder.Numbered p).Get m = (placeholder.Numbered p).Get n → m = n := by
    intro h
    have h2 : p ++ toString m = p ++ toString n := h
    rw [toString_eq_decimal, toString_eq_decimal] at h2
    exact decimal_injective m n (append_left_cancel p _ _ h2)
  exact ⟨hinj, fun hne h => hne (hinj h)⟩

/-- C31, with "$": the slots 1 and 10, and the slots 1 and -1, receive different tokens. -/
theorem Numbered_Get_injective_witness :
    (placeholder.Numbered "$").Get 1 ≠ (placeholder.Numbered "$").Get 10 ∧
      (placeholder.Numbered "$").Get 1 ≠ (placeholder.Numbered "$").Get (-1) :=
  ⟨(Numbered_Get_injective "$" 1 10).2 (by decide),
    (Numbered_Get_injective "$" 1 (-1)).2 (by decide)⟩

end prime

end goprime
